import Mathlib

/-!
# secscan: the scan pipeline and the scanMonitor worker pool

A shallow embedding of

* `application/scan_usecase.go` (`ScanUseCase.Execute`, `hasSnykManifest`),
* `application/local_scan_usecase.go` (`LocalScanUseCase.ExecuteOnDir`,
  `LocalScanUseCase.FindGoProjects`),
* `internal/cli/scan.go` (`NewScanCommand`: the worker pool of `scanMonitor`,
  `getRepoURLs`, `formatAndOutput`),
* `internal/cli/scan_local.go` (`NewScanLocalCommand`: the batch of `scanLocal`).

Go strings and byte slices are both modelled by `String`; a nil slice is the
empty list / empty string.  The ports (`GitClient`, `Scanner`), the operating
system calls whose outcome the program cannot decide (`os.MkdirTemp`,
`os.WriteFile`) and the JSON codec are parameters of the model.  Every
call made through a port is recorded in the world's call log, the way the
testify mocks of the repository record them.  Logging calls have no effect on
any result and are left out, except the errors the loop of `scanLocal` passes to
`Logger.Error`, which are kept with their path.
-/

namespace SecScan

/-! ## Go errors -/

/-- A Go `error`: either a plain error (`errors.New`, `fmt.Errorf` without `%w`) or
an error built by `fmt.Errorf` with a `%w` verb, which keeps the wrapped error. -/
inductive GoError where
  | plain (msg : String)
  | wrap (msg : String) (inner : GoError)
  deriving DecidableEq, Repr

namespace GoError

/-- The method `Error()`: the message of the error. -/
def Error : GoError → String
  | plain m => m
  | wrap m _ => m

/-- The function `errors.Is`: the target is the error itself or is found by unwrapping. -/
def Is : GoError → GoError → Bool
  | plain m, target => decide (plain m = target)
  | wrap m inner, target => decide (wrap m inner = target) || Is inner target

end GoError

/-- The call `fmt.Errorf(pre + "%w", err)`: the message is the formatted text, the
wrapped error is kept for `errors.Is`. -/
def Errorf (pre : String) (err : GoError) : GoError :=
  GoError.wrap (pre ++ err.Error) err

/-- Substring search on character lists. -/
def containsChars (sub : List Char) : List Char → Bool
  | [] => sub.isEmpty
  | c :: cs => sub.isPrefixOf (c :: cs) || containsChars sub cs

/-- The function `strings.Contains`. -/
def stringsContains (s sub : String) : Bool :=
  containsChars sub.data s.data

/-! ## The file system and the world -/

/-- What a path names. -/
inductive Node where
  | dir
  | file (content : String)
  deriving DecidableEq, Repr

/-- The file system: the existing paths with what they name. -/
abbrev FS := List (String × Node)

/-- A successful `os.Stat(path)`: the path exists. -/
def FS.statOk (fs : FS) (path : String) : Bool :=
  fs.any (fun e => e.1 == path)

/-- The function `filepath.Join(dir, name)` for a clean directory path and a plain name. -/
def filepathJoin (dir name : String) : String :=
  dir ++ "/" ++ name

/-- Whether `path` is `root` itself or lies below it. -/
def isUnder (root path : String) : Bool :=
  path == root || (root ++ "/").data.isPrefixOf path.data

/-- The function `os.RemoveAll(root)`: removes the path and any children it contains. -/
def FS.RemoveAll (fs : FS) (root : String) : FS :=
  fs.filter (fun e => !isUnder root e.1)

/-- A successful `os.WriteFile(path, data, 0644)`: the file holds exactly `data` afterwards. -/
def FS.writeFile (fs : FS) (path data : String) : FS :=
  (path, Node.file data) :: fs.filter (fun e => !(e.1 == path))

/-- A call made through one of the ports. -/
inductive Call where
  | Clone (url path : String)
  | Scan (path : String)
  | Monitor (path : String)
  deriving DecidableEq, Repr

/-- The part of the outside world the program acts on. -/
structure World where
  fs : FS
  calls : List Call
  stdout : List String
  deriving DecidableEq, Repr

/-- The operating-system calls whose success the program does not control. -/
structure OS where
  /-- The call `os.MkdirTemp("", "secscan-*")`: the name of the fresh directory, or an error. -/
  MkdirTemp : FS → Except GoError String
  /-- The call `os.WriteFile`: `none` when the write succeeds. -/
  WriteFile : String → String → FS → Option GoError

/-! ## Ports -/

/-- The port `ports.GitClient`. -/
structure GitClient where
  Clone : String → String → FS → Option GoError × FS

/-- The port `ports.Scanner`. -/
structure Scanner where
  Scan : String → FS → Except GoError String × FS
  Monitor : String → FS → Except GoError String × FS

/-- A call of `gitClient.Clone(url, path)`, recorded in the call log. -/
def callClone (g : GitClient) (url path : String) (w : World) : Option GoError × World :=
  let r := g.Clone url path w.fs
  (r.1, { w with fs := r.2, calls := w.calls ++ [Call.Clone url path] })

/-- A call of `snykScanner.Scan(path)`, recorded in the call log. -/
def callScan (sc : Scanner) (path : String) (w : World) : Except GoError String × World :=
  let r := sc.Scan path w.fs
  (r.1, { w with fs := r.2, calls := w.calls ++ [Call.Scan path] })

/-- A call of `snykScanner.Monitor(path)`, recorded in the call log. -/
def callMonitor (sc : Scanner) (path : String) (w : World) : Except GoError String × World :=
  let r := sc.Monitor path w.fs
  (r.1, { w with fs := r.2, calls := w.calls ++ [Call.Monitor path] })

/-! ## application/scan_usecase.go -/

structure SnykVulnerability where
  Title : String
  Severity : String
  ModuleName : String
  deriving DecidableEq, Repr

structure snykTestOutput where
  Ok : Bool
  Vulnerabilities : List SnykVulnerability
  deriving DecidableEq, Repr

structure ScanResult where
  Vulnerabilities : List SnykVulnerability
  RawJSON : String
  MonitorOutput : String
  deriving DecidableEq, Repr

structure ScanConfig where
  RepoURL : String
  Monitor : Bool
  deriving DecidableEq, Repr

structure ScanUseCase where
  snykScanner : Scanner
  gitClient : GitClient

/-- The JSON codec (`encoding/json`), outside the repository. -/
structure JSON where
  /-- The call `json.Unmarshal(data, &parsed)` for a `snykTestOutput`. -/
  Unmarshal : String → Except GoError snykTestOutput
  /-- The call `json.MarshalIndent(result, "", "  ")` for a `ScanResult`. -/
  MarshalIndent : ScanResult → Except GoError String

/-- The manifest file names `hasSnykManifest` looks for, in the order of the source. -/
def manifests : List String :=
  ["go.mod", "package.json", "requirements.txt", "Pipfile", "pom.xml",
   "build.gradle", "build.gradle.kts", "yarn.lock", "pnpm-lock.yaml", "Cargo.toml"]

/-- The loop of `hasSnykManifest` over the remaining names. -/
def hasSnykManifestLoop (fs : FS) (dir : String) : List String → Bool
  | [] => false
  | f :: rest => if fs.statOk (filepathJoin dir f) then true else hasSnykManifestLoop fs dir rest

/-- The function `hasSnykManifest(dir)`. -/
def hasSnykManifest (fs : FS) (dir : String) : Bool :=
  hasSnykManifestLoop fs dir manifests

/-- The monitor step of `Execute` (step 4 of the source), entered when `config.Monitor`. -/
def monitorStep (sc : Scanner) (dir : String) (result : ScanResult) (w : World) :
    Except GoError ScanResult × World :=
  match callMonitor sc dir w with
  | (Except.error _, w1) => (Except.ok result, w1)
  | (Except.ok monitorOutput, w1) => (Except.ok { result with MonitorOutput := monitorOutput }, w1)

/-- The body of `ScanUseCase.Execute` after the temporary directory exists, up to the
point where the deferred `os.RemoveAll` runs. -/
def executeBody (s : ScanUseCase) (json : JSON) (config : ScanConfig) (tempBaseDir : String)
    (w : World) : Except GoError ScanResult × World :=
  let cloneDir := filepathJoin tempBaseDir "repo"
  match callClone s.gitClient config.RepoURL cloneDir w with
  | (some err, w1) =>
    (Except.error (Errorf ("falha ao clonar repositório '" ++ config.RepoURL ++ "': ") err), w1)
  | (none, w1) =>
    if !hasSnykManifest w1.fs cloneDir then
      (Except.error (GoError.plain
        ("nenhum manifesto suportado encontrado (go.mod, package.json, requirements.txt, pom.xml, etc) em '"
          ++ cloneDir ++ "'")), w1)
    else
      match callScan s.snykScanner cloneDir w1 with
      | (Except.error err, w2) => (Except.error (Errorf "falha durante o 'snyk test': " err), w2)
      | (Except.ok jsonOutput, w2) =>
        match json.Unmarshal jsonOutput with
        | Except.error err => (Except.error (Errorf "falha ao processar o JSON do Snyk: " err), w2)
        | Except.ok parsed =>
          let result : ScanResult :=
            { Vulnerabilities := parsed.Vulnerabilities, RawJSON := jsonOutput, MonitorOutput := "" }
          if config.Monitor then monitorStep s.snykScanner cloneDir result w2
          else (Except.ok result, w2)

/-- The method `ScanUseCase.Execute(config)`: the pair `(result, err)` as an `Except`,
with the world it leaves behind. -/
def Execute (os : OS) (s : ScanUseCase) (json : JSON) (config : ScanConfig) (w : World) :
    Except GoError ScanResult × World :=
  match os.MkdirTemp w.fs with
  | Except.error err => (Except.error (Errorf "falha ao criar diretório temporário: " err), w)
  | Except.ok tempBaseDir =>
    let r := executeBody s json config tempBaseDir { w with fs := (tempBaseDir, Node.dir) :: w.fs }
    (r.1, { r.2 with fs := r.2.fs.RemoveAll tempBaseDir })

/-! ## application/local_scan_usecase.go -/

structure LocalScanUseCase where
  snykScanner : Scanner

/-- The tail of `ExecuteOnDir` from `if monitor` on. -/
def localMonitorStep (s : LocalScanUseCase) (path : String) (monitor : Bool) (result : ScanResult)
    (w : World) : Except GoError ScanResult × World :=
  if monitor then
    match callMonitor s.snykScanner path w with
    | (Except.error _, w1) => (Except.ok result, w1)
    | (Except.ok monOut, w1) => (Except.ok { result with MonitorOutput := monOut }, w1)
  else (Except.ok result, w)

/-- The method `LocalScanUseCase.ExecuteOnDir(path, monitor)`. -/
def ExecuteOnDir (s : LocalScanUseCase) (json : JSON) (path : String) (monitor : Bool)
    (w : World) : Except GoError ScanResult × World :=
  match callScan s.snykScanner path w with
  | (Except.error err, w1) =>
    if monitor && stringsContains err.Error "Unknown command \"test\"" then
      localMonitorStep s path monitor { Vulnerabilities := [], RawJSON := "", MonitorOutput := "" } w1
    else
      (Except.error (Errorf ("falha durante o 'snyk test' em '" ++ path ++ "': ") err), w1)
  | (Except.ok jsonOut, w1) =>
    match json.Unmarshal jsonOut with
    | Except.error err =>
      (Except.error (Errorf ("falha ao processar JSON do Snyk para '" ++ path ++ "': ") err), w1)
    | Except.ok parsed =>
      localMonitorStep s path monitor
        { Vulnerabilities := parsed.Vulnerabilities, RawJSON := jsonOut, MonitorOutput := "" } w1

/-! ## internal/cli/scan.go: formatAndOutput -/

/-- The loop of the text format: one line per vulnerability, in order. -/
def textLines : List SnykVulnerability → String
  | [] => ""
  | v :: rest =>
    "  - [" ++ v.Severity ++ "] " ++ v.Title ++ " em '" ++ v.ModuleName ++ "'\n" ++ textLines rest

/-- The text built by the `"text"` case of `formatAndOutput`. -/
def formatText (result : ScanResult) : String :=
  if result.Vulnerabilities.length > 0 then
    "🚨 Encontradas " ++ toString result.Vulnerabilities.length ++ " vulnerabilidades\n"
      ++ textLines result.Vulnerabilities
  else
    "✅ Nenhuma vulnerabilidade encontrada.\n"

/-- The `switch format` of `formatAndOutput`: the bytes to emit, or the error returned. -/
def formatOutput (json : JSON) (result : ScanResult) (format : String) : Except GoError String :=
  if format == "json" then
    match json.MarshalIndent result with
    | Except.error err => Except.error (Errorf "falha ao formatar saída para JSON: " err)
    | Except.ok output => Except.ok output
  else if format == "text" then
    Except.ok (formatText result)
  else
    Except.error (GoError.plain ("formato de saída desconhecido: " ++ format))

/-- The function `formatAndOutput(result, format, filePath)`: the returned error (`none`
for nil) and the world afterwards. -/
def formatAndOutput (os : OS) (json : JSON) (result : ScanResult) (format filePath : String)
    (w : World) : Option GoError × World :=
  match formatOutput json result format with
  | Except.error err => (some err, w)
  | Except.ok output =>
    if filePath != "" then
      match os.WriteFile filePath output w.fs with
      | some err => (some err, w)
      | none => (none, { w with fs := w.fs.writeFile filePath output })
    else
      (none, { w with stdout := w.stdout ++ [output ++ "\n"] })

/-! ## internal/cli/scan.go: the worker pool of scanMonitor

The goroutines are modelled by an interleaving semantics.  A state holds the two
buffered channels, the control point of every worker and of the main goroutine; an
`Action` is one atomic move of one goroutine, and a schedule is a list of actions.
A call of `Execute` and a call of `formatAndOutput` are each one atomic move. -/

/-- The element type of the `results` channel: `Repo` and the pair `(Result, Err)`. -/
structure Outcome where
  Repo : String
  Res : Except GoError ScanResult

/-- The control point of one worker goroutine. -/
inductive Worker where
  /-- At `for repoURL := range jobs`, waiting to receive. -/
  | idle
  /-- Holding `repoURL`, about to call `workerUsecase.Execute`. -/
  | running (repoURL : String)
  /-- After `Execute`, about to send the outcome on `results`. -/
  | sending (o : Outcome)
  /-- The `range` loop has ended. -/
  | exited

/-- The state of one run of the pool. -/
structure Pool where
  /-- The value `len(repoURLs)`: capacity of both channels and bound of the collection loop. -/
  n : Nat
  /-- The URLs the main goroutine has still to send on `jobs`. -/
  pending : List String
  /-- Whether `close(jobs)` has run. -/
  closed : Bool
  /-- The buffer of the channel `jobs`. -/
  jobs : List String
  workers : List Worker
  /-- The buffer of the channel `results`. -/
  results : List Outcome
  /-- The outcomes the collection loop has received, in order; its counter `i` is the length. -/
  collected : List Outcome
  finalError : Option GoError
  world : World

/-- One atomic move of one goroutine. -/
inductive Action where
  /-- Main: `jobs <- url`. -/
  | push
  /-- Main: `close(jobs)`. -/
  | close
  /-- Worker `i`: receive the next URL from `jobs`. -/
  | recv (i : Nat)
  /-- Worker `i`: `workerUsecase.Execute(cfg)`. -/
  | exec (i : Nat)
  /-- Worker `i`: `results <- {Repo, Result, Err}`. -/
  | send (i : Nat)
  /-- Worker `i`: leave the `range` loop, `jobs` being closed and drained. -/
  | exit (i : Nat)
  /-- Main: one iteration of the collection loop. -/
  | collect
  deriving DecidableEq, Repr

/-- One move of the pool, for a given per-target pipeline `exec` and a given output
function `out`; `none` when the move is not enabled (the goroutine is elsewhere, or it
would block). -/
def poolStep (exec : String → World → Except GoError ScanResult × World)
    (out : ScanResult → World → Option GoError × World) (a : Action) (s : Pool) : Option Pool :=
  match a with
  | Action.push =>
    match s.pending with
    | [] => none
    | url :: rest =>
      if s.jobs.length < s.n then some { s with pending := rest, jobs := s.jobs ++ [url] }
      else none
  | Action.close =>
    if s.pending.isEmpty && !s.closed then some { s with closed := true } else none
  | Action.recv i =>
    match s.workers[i]?, s.jobs with
    | some Worker.idle, repoURL :: rest =>
      some { s with jobs := rest, workers := s.workers.set i (Worker.running repoURL) }
    | _, _ => none
  | Action.exec i =>
    match s.workers[i]? with
    | some (Worker.running repoURL) =>
      let r := exec repoURL s.world
      some { s with workers := s.workers.set i (Worker.sending ⟨repoURL, r.1⟩), world := r.2 }
    | _ => none
  | Action.send i =>
    match s.workers[i]? with
    | some (Worker.sending o) =>
      if s.results.length < s.n then
        some { s with results := s.results ++ [o], workers := s.workers.set i Worker.idle }
      else none
    | _ => none
  | Action.exit i =>
    match s.workers[i]? with
    | some Worker.idle =>
      if s.jobs.isEmpty && s.closed then some { s with workers := s.workers.set i Worker.exited }
      else none
    | _ => none
  | Action.collect =>
    if s.closed && decide (s.collected.length < s.n) then
      match s.results with
      | [] => none
      | res :: rest =>
        match res.Res with
        | Except.error _ =>
          some { s with results := rest, collected := s.collected ++ [res],
                        finalError := some (GoError.plain "um ou mais scans falharam") }
        | Except.ok result =>
          let r := out result s.world
          some { s with results := rest, collected := s.collected ++ [res],
                        finalError := (match r.1 with
                          | some err => some err
                          | none => s.finalError),
                        world := r.2 }
    else none

/-- The flags and the adapters of one invocation of `scanMonitor`. -/
structure Invocation where
  os : OS
  json : JSON
  git : GitClient
  scanner : Scanner
  monitor : Bool
  outputFormat : String
  outputFile : String

/-- What a worker runs for one URL: `Execute` of a use case built from its own adapters. -/
def workerExecute (c : Invocation) (repoURL : String) (w : World) :
    Except GoError ScanResult × World :=
  Execute c.os { snykScanner := c.scanner, gitClient := c.git } c.json
    { RepoURL := repoURL, Monitor := c.monitor } w

/-- What the collection loop does with a successful result. -/
def mainOutput (c : Invocation) (result : ScanResult) (w : World) : Option GoError × World :=
  formatAndOutput c.os c.json result c.outputFormat c.outputFile w

/-- One move of the pool of `scanMonitor`. -/
def step (c : Invocation) (a : Action) (s : Pool) : Option Pool :=
  poolStep (workerExecute c) (mainOutput c) a s

/-- A schedule run from a state: `none` when one of its moves is not enabled. -/
def runWith (exec : String → World → Except GoError ScanResult × World)
    (out : ScanResult → World → Option GoError × World) : List Action → Pool → Option Pool
  | [], s => some s
  | a :: rest, s =>
    match poolStep exec out a s with
    | none => none
    | some s1 => runWith exec out rest s1

/-- A schedule of the pool of `scanMonitor` run from a state. -/
def run (c : Invocation) (sched : List Action) (s : Pool) : Option Pool :=
  runWith (workerExecute c) (mainOutput c) sched s

/-- The clamp of `numWorkers` in `RunE`. -/
def clampWorkers (numWorkers : Int) (len : Nat) : Int :=
  if numWorkers < 1 then 1
  else if numWorkers > (len : Int) then (len : Int)
  else numWorkers

/-- The part of `RunE` before the first channel operation, `repoURLs` being the list
`getRepoURLs` returned: the early returns, the clamp, the two channels and the workers
(one per `w` from 1 to `numWorkers`). -/
def startPool (repoURLs : List String) (numWorkers : Int) (usecase : Option ScanUseCase)
    (w : World) : Except GoError Pool :=
  if repoURLs.length == 0 then
    Except.error (GoError.plain "nenhum repositório especificado. Use --repo ou --repo-file")
  else
    let numWorkers := clampWorkers numWorkers repoURLs.length
    match usecase with
    | none => Except.error (GoError.plain "usecase não inicializado")
    | some _ =>
      Except.ok
        { n := repoURLs.length, pending := repoURLs, closed := false, jobs := [],
          workers := (List.range' 1 numWorkers.toNat).map (fun _ => Worker.idle),
          results := [], collected := [], finalError := none, world := w }

/-- The collection loop has run `len(repoURLs)` times: `RunE` returns `finalError`. -/
def Pool.returned (s : Pool) : Bool :=
  s.closed && s.collected.length == s.n

/-- The value `RunE` returns under a schedule: `none` when the schedule is not a run of
the program up to the return of `RunE`. -/
def RunE (c : Invocation) (repoURLs : List String) (numWorkers : Int)
    (usecase : Option ScanUseCase) (w : World) (sched : List Action) : Option (Option GoError) :=
  match startPool repoURLs numWorkers usecase w with
  | Except.error err => some (some err)
  | Except.ok s0 =>
    match run c sched s0 with
    | none => none
    | some s => if s.returned then some s.finalError else none

/-! ## Fixtures

Concrete collaborators in the manner of `internal/cli/scan_usecase_test.go`, used to
evaluate the model on concrete inputs. -/

/-- An operating system on which every call succeeds; the fresh directory is named
after the number of existing paths. -/
def okOS : OS :=
  { MkdirTemp := fun fs => Except.ok (if fs.length == 0 then "/tmp/secscan-0" else "/tmp/secscan-1"),
    WriteFile := fun _ _ _ => none }

/-- The testify mock of `GitClient` set up with `Return(nil)`: reports success and
writes nothing. -/
def mockGitOk : GitClient :=
  { Clone := fun _ _ fs => (none, fs) }

/-- A git client that fails for the URL `repo2` and otherwise creates the target
directory with a `go.mod` in it. -/
def demoGit : GitClient :=
  { Clone := fun url path fs =>
      if url == "repo2" then (some (GoError.plain "falha de autenticação"), fs)
      else (none, (filepathJoin path "go.mod", Node.file url) :: (path, Node.dir) :: fs) }

/-- The vulnerability of the second test case. -/
def xss : SnykVulnerability :=
  { Title := "Cross-site Scripting (XSS)", Severity := "high", ModuleName := "react" }

/-- A second vulnerability. -/
def pollution : SnykVulnerability :=
  { Title := "Prototype Pollution", Severity := "high", ModuleName := "lodash" }

/-- A JSON codec that knows three documents. -/
def demoJSON : JSON :=
  { Unmarshal := fun data =>
      if data == "\x7b\"ok\": true, \"vulnerabilities\": []\x7d" then Except.ok ⟨true, []⟩
      else if data == "one" then Except.ok ⟨false, [xss]⟩
      else if data == "two" then Except.ok ⟨false, [xss, pollution]⟩
      else Except.error (GoError.plain "invalid character"),
    MarshalIndent := fun _ => Except.ok "null" }

/-- A scanner whose scan reports no vulnerability and whose monitor succeeds. -/
def cleanScanner : Scanner :=
  { Scan := fun _ fs => (Except.ok "\x7b\"ok\": true, \"vulnerabilities\": []\x7d", fs),
    Monitor := fun _ fs => (Except.ok "monitored", fs) }

/-- A scanner whose scan reports two vulnerabilities and whose monitor fails. -/
def twoScanner : Scanner :=
  { Scan := fun _ fs => (Except.ok "two", fs),
    Monitor := fun _ fs => (Except.error (GoError.plain "falha ao executar snyk monitor: "), fs) }

/-- A scanner whose CLI does not know the command `test`; its monitor succeeds. -/
def oldScanner : Scanner :=
  { Scan := fun _ fs =>
      (Except.error (GoError.plain "falha ao executar snyk test: Unknown command \"test\""), fs),
    Monitor := fun _ fs => (Except.ok "monitored", fs) }

/-- The empty world. -/
def emptyWorld : World :=
  { fs := [], calls := [], stdout := [] }


/-- An invocation with two-vulnerability scans, a clone that fails for `repo2`, text
output on the standard output and monitor off. -/
def demoInvocation : Invocation :=
  { os := okOS, json := demoJSON, git := demoGit, scanner := twoScanner, monitor := false,
    outputFormat := "text", outputFile := "" }

/-! ## Quantities of a pool state used by the proofs -/

/-- The target a worker holds, as a multiset: nothing when idle or exited. -/
def Worker.load : Worker → Multiset String
  | Worker.running repoURL => {repoURL}
  | Worker.sending o => {o.Repo}
  | Worker.idle => 0
  | Worker.exited => 0

/-- The number of moves a worker can still make without receiving a new job, weighted. -/
def Worker.weight : Worker → Nat
  | Worker.running _ => 4
  | Worker.sending _ => 3
  | Worker.idle => 1
  | Worker.exited => 0

/-- Every place of the state where a target can be, as one multiset. -/
def Pool.load (s : Pool) : Multiset String :=
  (s.pending : Multiset String) + (s.jobs : Multiset String) + (s.workers.map Worker.load).sum
    + ((s.results.map Outcome.Repo : List String) : Multiset String)
    + ((s.collected.map Outcome.Repo : List String) : Multiset String)

/-- A bound on the number of moves left. -/
def Pool.measure (s : Pool) : Nat :=
  6 * s.pending.length + (if s.closed then 0 else 1) + 5 * s.jobs.length
    + (s.workers.map Worker.weight).sum + s.results.length

/-- The facts that hold in every state of a run started on `targets`. -/
structure Inv (targets : List String) (s : Pool) : Prop where
  hn : s.n = targets.length
  hload : s.load = (targets : Multiset String)
  hclosed : s.closed = true → s.pending = []
  hexit : Worker.exited ∈ s.workers → s.closed = true ∧ s.jobs = []
  hworkers : s.workers ≠ []

/-- Whether, along a schedule, every call of `formatAndOutput` made by the collection
loop returns nil. -/
def outputsOk (exec : String → World → Except GoError ScanResult × World)
    (out : ScanResult → World → Option GoError × World) : List Action → Pool → Bool
  | [], _ => true
  | a :: rest, s =>
    (match a, s.results with
      | Action.collect, res :: _ =>
        (match res.Res with
          | Except.ok result => (out result s.world).1.isNone
          | Except.error _ => true)
      | _, _ => true)
    && (match poolStep exec out a s with
      | none => true
      | some s1 => outputsOk exec out rest s1)

/-- Whether an outcome is a failure: its `Err` is not nil. -/
def Outcome.failed (o : Outcome) : Bool :=
  match o.Res with
  | Except.error _ => true
  | Except.ok _ => false

/-- Every outcome present in the state (held by a worker, buffered, or received)
satisfies `P`. -/
def OutcomesSatisfy (P : Outcome → Prop) (s : Pool) : Prop :=
  (∀ o, Worker.sending o ∈ s.workers → P o) ∧ (∀ o ∈ s.results, P o) ∧ (∀ o ∈ s.collected, P o)

/-- The status invariant of the collection loop: `finalError` is set exactly when a
failure has been received. -/
def StatusInv (s : Pool) : Prop :=
  s.finalError ≠ none ↔ ∃ o ∈ s.collected, o.failed = true

/-- What `Execute` returns for each URL under `demoInvocation`. -/
def demoResult (repoURL : String) : Except GoError ScanResult :=
  if repoURL == "repo2" then
    Except.error (Errorf ("falha ao clonar repositório '" ++ repoURL ++ "': ")
      (GoError.plain "falha de autenticação"))
  else
    Except.ok { Vulnerabilities := [xss, pollution], RawJSON := "two", MonitorOutput := "" }

/-- The three targets of the non-fail-fast example. -/
def demoTargets : List String :=
  ["repo1", "repo2", "repo3"]

/-- The pool `RunE` starts for `demoTargets` with two workers. -/
def demoStart : Pool :=
  { n := 3, pending := demoTargets, closed := false, jobs := [],
    workers := [Worker.idle, Worker.idle], results := [], collected := [], finalError := none,
    world := emptyWorld }

/-- A complete schedule of that pool: worker 1 finishes `repo2` before worker 0
finishes `repo1`, then takes `repo3`. -/
def demoSchedule : List Action :=
  [Action.push, Action.push, Action.recv 0, Action.push, Action.close, Action.recv 1,
   Action.exec 1, Action.exec 0, Action.send 1, Action.recv 1, Action.collect, Action.exec 1,
   Action.send 0, Action.send 1, Action.collect, Action.collect, Action.exit 0, Action.exit 1]

/-- The state that schedule ends in. -/
def demoFinal : Pool :=
  (run demoInvocation demoSchedule demoStart).getD demoStart

/-! ## The failure taxonomy of the pipeline -/

/-- The steps of `Execute` before the monitor step all succeed: the temporary directory
is created, the clone succeeds, a manifest is found, the scan succeeds and its output
parses.  Neither the monitor flag nor `Scanner.Monitor` occurs in it. -/
def StepsSucceed (os : OS) (git : GitClient) (scan : String → FS → Except GoError String × FS)
    (json : JSON) (url : String) (w : World) : Prop :=
  ∃ tmp fs1 fs2 out parsed,
    os.MkdirTemp w.fs = Except.ok tmp
      ∧ git.Clone url (filepathJoin tmp "repo") ((tmp, Node.dir) :: w.fs) = (none, fs1)
      ∧ hasSnykManifest fs1 (filepathJoin tmp "repo") = true
      ∧ scan (filepathJoin tmp "repo") fs1 = (Except.ok out, fs2)
      ∧ json.Unmarshal out = Except.ok parsed

/-- A scanner whose scan returns bytes that are not JSON. -/
def garbageScanner : Scanner :=
  { Scan := fun _ fs => (Except.ok "<html>", fs),
    Monitor := fun _ fs => (Except.ok "monitored", fs) }

/-- What `path` names in the file system, if it exists: the first entry for it. -/
def FS.read (fs : FS) (path : String) : Option Node :=
  match fs with
  | [] => none
  | e :: rest => if e.1 == path then some e.2 else FS.read rest path

/-! ## internal/cli/scan.go: getRepoURLs -/

/-- The predicate `unicode.IsSpace`, on the code point of the character. -/
def isSpace (c : Char) : Bool :=
  let n := c.toNat
  (decide (9 ≤ n) && decide (n ≤ 13)) || n == 32 || n == 133 || n == 160 || n == 5760
    || (decide (8192 ≤ n) && decide (n ≤ 8202)) || n == 8232 || n == 8233 || n == 8239
    || n == 8287 || n == 12288

/-- The function `strings.TrimSpace`: leading and trailing white space removed. -/
def trimSpace (s : String) : String :=
  String.mk ((s.data.dropWhile isSpace).reverse.dropWhile isSpace).reverse

/-- The function `strings.HasPrefix`. -/
def startsWith (s pre : String) : Bool :=
  pre.data.isPrefixOf s.data

/-- What reading the repo file gives once it is open: the lines `scanner.Text()` yields
in turn, and the value of `scanner.Err()` afterwards. -/
structure RepoFile where
  lines : List String
  err : Option GoError

/-- The loop `for scanner.Scan()` of `getRepoURLs` over the remaining lines. -/
def scanRepoLines (urls : List String) : List String → List String
  | [] => urls
  | text :: rest =>
    let line := trimSpace text
    if line != "" && !startsWith line "#" then scanRepoLines (urls ++ [line]) rest
    else scanRepoLines urls rest

/-- The function `getRepoURLs(cmd)`, for the values of the flags `--repo` and
`--repo-file` and for what `os.Open` gives. -/
def getRepoURLs (repo repoFile : String) (osOpen : String → Except GoError RepoFile) :
    Except GoError (List String) :=
  let urls : List String := if repo != "" then [repo] else []
  if repoFile != "" then
    match osOpen repoFile with
    | Except.error err =>
      Except.error (Errorf ("falha ao abrir arquivo de repositórios '" ++ repoFile ++ "': ") err)
    | Except.ok file =>
      let urls1 := scanRepoLines urls file.lines
      match file.err with
      | some err => Except.error (Errorf "erro ao ler arquivo de repositórios: " err)
      | none => Except.ok urls1
  else
    Except.ok urls

/-- Whether `getRepoURLs` keeps a trimmed line. -/
def keptLine (line : String) : Bool :=
  line != "" && !startsWith line "#"

/-- A repo file with comments, blank lines, padded lines and a duplicate. -/
def demoRepoFile : RepoFile :=
  { lines := ["# repositories", "", "  https://github.com/user/a.git  ", "\t",
      "https://github.com/user/b.git", " # disabled", "https://github.com/user/a.git"],
    err := none }

/-- The text line `formatAndOutput` writes for one vulnerability. -/
def findingLine (v : SnykVulnerability) : String :=
  "  - [" ++ v.Severity ++ "] " ++ v.Title ++ " em '" ++ v.ModuleName ++ "'\n"

/-- The lines of a text, in order, as one string. -/
def concatLines (lines : List String) : String :=
  lines.foldr (fun l acc => l ++ acc) ""

/-- A result with the two findings of the fixtures. -/
def twoFindings : ScanResult :=
  { Vulnerabilities := [xss, pollution], RawJSON := "two", MonitorOutput := "" }

/-- The text rendering expected for `twoFindings`. -/
def twoFindingsText : String :=
  "🚨 Encontradas 2 vulnerabilidades\n"
    ++ "  - [high] Cross-site Scripting (XSS) em 'react'\n"
    ++ "  - [high] Prototype Pollution em 'lodash'\n"

/-- The whole `RunE` of `scanMonitor`, from the values of the flags `--repo` and
`--repo-file` on, under a schedule of the pool. -/
def scanMonitorRunE (c : Invocation) (repo repoFile : String)
    (osOpen : String → Except GoError RepoFile) (numWorkers : Int)
    (usecase : Option ScanUseCase) (w : World) (sched : List Action) : Option (Option GoError) :=
  match getRepoURLs repo repoFile osOpen with
  | Except.error err => some (some err)
  | Except.ok repoURLs => RunE c repoURLs numWorkers usecase w sched

/-! ## internal/cli/scan_local.go -/

/-- The report of `scanLocal`: the Go map `ProjectScans` as an association list with at
most one entry per key. -/
structure ConsolidatedReport where
  ProjectScans : List (String × ScanResult)

/-- The keys of the map `ProjectScans`. -/
def ConsolidatedReport.keys (r : ConsolidatedReport) : List String :=
  r.ProjectScans.map Prod.fst

/-- The map assignment `m[k] = v`. -/
def mapAssign (m : List (String × ScanResult)) (k : String) (v : ScanResult) :
    List (String × ScanResult) :=
  match m with
  | [] => [(k, v)]
  | e :: rest => if e.1 == k then (k, v) :: rest else e :: mapAssign rest k v

/-- The state of the scan loop of `scanLocal`: the report, the scan failures passed to
`Logger.Error` with their path, and the world. -/
structure LocalBatch where
  report : ConsolidatedReport
  logged : List (String × GoError)
  world : World

/-- The loop `for _, path := range projectPaths` of `scanLocal`. -/
def scanLocalLoop (usecase : LocalScanUseCase) (json : JSON) (monitor : Bool) :
    List String → LocalBatch → LocalBatch
  | [], b => b
  | path :: rest, b =>
    match ExecuteOnDir usecase json path monitor b.world with
    | (Except.error err, w1) =>
      scanLocalLoop usecase json monitor rest
        { b with logged := b.logged ++ [(path, err)], world := w1 }
    | (Except.ok result, w1) =>
      scanLocalLoop usecase json monitor rest
        { b with report := { ProjectScans := mapAssign b.report.ProjectScans path result },
                 world := w1 }

/-- The `RunE` of `scanLocal`: the returned error (`none` for nil) and the final state
of the batch.  `found` is what `usecase.FindGoProjects(rootDir)` returns and
`marshalReport` is `json.MarshalIndent` on the report. -/
def scanLocalRunE (os : OS) (json : JSON)
    (marshalReport : ConsolidatedReport → Except GoError String) (usecase : LocalScanUseCase)
    (rootDir outputFile : String) (monitor : Bool) (found : Except GoError (List String))
    (w : World) : Option GoError × LocalBatch :=
  let b0 : LocalBatch := { report := { ProjectScans := [] }, logged := [], world := w }
  if rootDir == "" then (some (GoError.plain "a flag --dir é obrigatória"), b0)
  else
    match found with
    | Except.error err => (some err, b0)
    | Except.ok projectPaths =>
      if projectPaths.length == 0 then (none, b0)
      else
        let b := scanLocalLoop usecase json monitor projectPaths b0
        match marshalReport b.report with
        | Except.error err =>
          (some (Errorf "falha ao gerar relatório JSON consolidado: " err), b)
        | Except.ok reportJSON =>
          if outputFile != "" then
            match os.WriteFile outputFile reportJSON b.world.fs with
            | some err =>
              (some (Errorf ("falha ao salvar relatório em '" ++ outputFile ++ "': ") err), b)
            | none =>
              (none, { b with world :=
                { b.world with fs := b.world.fs.writeFile outputFile reportJSON } })
          else
            (none, { b with world :=
              { b.world with stdout := b.world.stdout ++ [reportJSON ++ "\n"] } })

/-- The failures among the paths, with their cause, for a pipeline whose result is `f`. -/
def failuresOf (f : String → Except GoError ScanResult) : List String → List (String × GoError)
  | [] => []
  | p :: rest =>
    match f p with
    | Except.error e => (p, e) :: failuresOf f rest
    | Except.ok _ => failuresOf f rest

/-- A scanner that fails in the directory `/src/b` and finds nothing elsewhere. -/
def flakyScanner : Scanner :=
  { Scan := fun path fs =>
      if path == "/src/b" then (Except.error (GoError.plain "falha ao executar snyk test: "), fs)
      else (Except.ok "\x7b\"ok\": true, \"vulnerabilities\": []\x7d", fs),
    Monitor := fun _ fs => (Except.ok "monitored", fs) }

/-- A rendering of the report that only lists its keys. -/
def demoMarshalReport (r : ConsolidatedReport) : Except GoError String :=
  Except.ok (concatLines (r.keys.map (fun k => k ++ "\n")))

/-- The empty batch `scanLocal` starts from. -/
def emptyBatch (w : World) : LocalBatch :=
  { report := { ProjectScans := [] }, logged := [], world := w }

/-- What `ExecuteOnDir` returns for each path with `flakyScanner` and monitor on. -/
def flakyResult (path : String) : Except GoError ScanResult :=
  if path == "/src/b" then
    Except.error (Errorf ("falha durante o 'snyk test' em '" ++ path ++ "': ")
      (GoError.plain "falha ao executar snyk test: "))
  else
    Except.ok { Vulnerabilities := [],
                RawJSON := "\x7b\"ok\": true, \"vulnerabilities\": []\x7d",
                MonitorOutput := "monitored" }

/-! ## Fixtures for the output file of scanMonitor -/

/-- A scanner whose findings depend on the cloned content: one finding for the clone of
`repo1`, two for any other. -/
def contentScanner : Scanner :=
  { Scan := fun path fs =>
      if fs.read (filepathJoin path "go.mod") = some (Node.file "repo1") then (Except.ok "one", fs)
      else (Except.ok "two", fs),
    Monitor := fun _ fs => (Except.ok "monitored", fs) }

/-- An invocation of `scanMonitor` with `--output-file out.txt` and the text format. -/
def fileInvocation : Invocation :=
  { os := okOS, json := demoJSON, git := demoGit, scanner := contentScanner, monitor := false,
    outputFormat := "text", outputFile := "out.txt" }

/-- The pool `RunE` starts for the targets `repo1` and `repo3` with two workers. -/
def fileStart : Pool :=
  { n := 2, pending := ["repo1", "repo3"], closed := false, jobs := [],
    workers := [Worker.idle, Worker.idle], results := [], collected := [], finalError := none,
    world := emptyWorld }

/-- A complete schedule in which worker 0 (`repo1`) delivers before worker 1 (`repo3`). -/
def scheduleFirst : List Action :=
  [Action.push, Action.push, Action.close, Action.recv 0, Action.recv 1, Action.exec 0,
   Action.exec 1, Action.send 0, Action.send 1, Action.collect, Action.collect]

/-- The same schedule except that worker 1 delivers before worker 0. -/
def scheduleSecond : List Action :=
  [Action.push, Action.push, Action.close, Action.recv 0, Action.recv 1, Action.exec 0,
   Action.exec 1, Action.send 1, Action.send 0, Action.collect, Action.collect]

/-- What the output file holds at the end of a schedule, when the schedule is a run. -/
def outputFileAfter (sched : List Action) : Option (Option Node) :=
  (run fileInvocation sched fileStart).map (fun s => s.world.fs.read "out.txt")

/-- The targets of the outcomes received along a schedule, in order of reception, each
with the number of its findings. -/
def receivedAfter (sched : List Action) : Option (List (String × Option Nat)) :=
  (run fileInvocation sched fileStart).map (fun s => s.collected.map (fun o =>
    (o.Repo, match o.Res with
      | Except.ok r => some r.Vulnerabilities.length
      | Except.error _ => none)))

/-! ## application/local_scan_usecase.go: FindGoProjects

The directory tree below `rootDir` is given as a value; a path is the list of its
components.  `walk` and `walkDir` follow `filepath.Walk` of the Go library for a tree
that is read without error: the callback is called on a directory before its entries,
the entries are visited in the order of the listing (the lexical order of their
names), and `filepath.SkipDir` returned on a file skips the rest of its directory. -/

mutual
/-- A file-system tree: a file (anything that is not a directory) or a directory. -/
inductive FileTree where
  | file (name : String)
  | dir (name : String) (children : DirEntries)
/-- The entries of a directory, in the order in which `Walk` visits them. -/
inductive DirEntries where
  | nil
  | cons (entry : FileTree) (rest : DirEntries)
end

/-- The value `info.Name()`. -/
def FileTree.name : FileTree → String
  | FileTree.file n => n
  | FileTree.dir n _ => n

/-- The value `info.IsDir()`. -/
def FileTree.IsDir : FileTree → Bool
  | FileTree.file _ => false
  | FileTree.dir _ _ => true

/-- The entries of a directory as a list. -/
def DirEntries.toList : DirEntries → List FileTree
  | DirEntries.nil => []
  | DirEntries.cons e rest => e :: rest.toList

/-- The callback `FindGoProjects` passes to `filepath.Walk`, called without error on
`path`: the list `projects` afterwards and whether it returns `filepath.SkipDir`
(otherwise nil).  The directory `filepath.Dir(path)` is the path without its last
component. -/
def findGoProjectsFn (projects : List (List String)) (path : List String) (isDir : Bool)
    (name : String) : List (List String) × Bool :=
  if !isDir && name == "go.mod" then (projects ++ [path.dropLast], true) else (projects, false)

mutual
/-- The function `walk` of `path/filepath` with the callback of `FindGoProjects`: the
list `projects` afterwards and whether `walk` returns `filepath.SkipDir`. -/
def walk (path : List String) (projects : List (List String)) :
    FileTree → List (List String) × Bool
  | FileTree.file name => findGoProjectsFn projects path false name
  | FileTree.dir name children =>
    let r := findGoProjectsFn projects path true name
    if r.2 then r else walkDir path r.1 children
/-- The loop of `walk` over the entries of the directory `path`. -/
def walkDir (path : List String) (projects : List (List String)) :
    DirEntries → List (List String) × Bool
  | DirEntries.nil => (projects, false)
  | DirEntries.cons entry rest =>
    let r := walk (path ++ [entry.name]) projects entry
    if r.2 then (if entry.IsDir then walkDir path r.1 rest else (r.1, true))
    else walkDir path r.1 rest
end

/-- The method `FindGoProjects(rootDir)` on a tree that is walked without error: the
list `projects` it returns. -/
def FindGoProjects (rootDir : List String) (tree : FileTree) : List (List String) :=
  (walk rootDir [] tree).1

/-- Whether a directory directly contains a file named `go.mod`. -/
def hasGoMod (entries : DirEntries) : Bool :=
  entries.toList.any (fun e => !e.IsDir && e.name == "go.mod")

/-- The fact `DirAt p t q entries`: in the tree `t` found at path `p`, the path `q` is a
directory and `entries` are its entries. -/
inductive DirAt : List String → FileTree → List String → DirEntries → Prop where
  | root (p : List String) (n : String) (cs : DirEntries) : DirAt p (FileTree.dir n cs) p cs
  | sub (p : List String) (n : String) (cs : DirEntries) (child : FileTree) (q : List String)
      (cq : DirEntries) (hmem : child ∈ cs.toList)
      (hsub : DirAt (p ++ [child.name]) child q cq) : DirAt p (FileTree.dir n cs) q cq

/-- The fact `TopDirAt p t q entries`: as `DirAt`, and no directory on the way from `p`
down to the parent of `q` directly contains a file named `go.mod`. -/
inductive TopDirAt : List String → FileTree → List String → DirEntries → Prop where
  | root (p : List String) (n : String) (cs : DirEntries) : TopDirAt p (FileTree.dir n cs) p cs
  | sub (p : List String) (n : String) (cs : DirEntries) (child : FileTree) (q : List String)
      (cq : DirEntries) (hno : hasGoMod cs = false) (hmem : child ∈ cs.toList)
      (hsub : TopDirAt (p ++ [child.name]) child q cq) : TopDirAt p (FileTree.dir n cs) q cq

mutual
/-- Whether the entries of every directory of the tree have distinct names. -/
def FileTree.distinctNames : FileTree → Bool
  | FileTree.file _ => true
  | FileTree.dir _ children => children.distinctNames
/-- Whether the entries have distinct names, and so below each of them. -/
def DirEntries.distinctNames : DirEntries → Bool
  | DirEntries.nil => true
  | DirEntries.cons entry rest =>
    entry.distinctNames && !(rest.toList.any (fun e => e.name == entry.name))
      && rest.distinctNames
end

/-- A module with a nested module in `cmd/tool` and another in `pkg/util`. -/
def nestedTree : FileTree :=
  FileTree.dir "src"
    (DirEntries.cons (FileTree.dir "cmd"
        (DirEntries.cons (FileTree.dir "tool"
          (DirEntries.cons (FileTree.file "go.mod") DirEntries.nil)) DirEntries.nil))
    (DirEntries.cons (FileTree.file "go.mod")
    (DirEntries.cons (FileTree.dir "pkg"
        (DirEntries.cons (FileTree.dir "util"
          (DirEntries.cons (FileTree.file "go.mod") DirEntries.nil)) DirEntries.nil))
      DirEntries.nil)))

/-- A directory holding two separate modules. -/
def flatTree : FileTree :=
  FileTree.dir "work"
    (DirEntries.cons (FileTree.file "README.md")
    (DirEntries.cons (FileTree.dir "api"
        (DirEntries.cons (FileTree.file "go.mod")
        (DirEntries.cons (FileTree.file "main.go") DirEntries.nil)))
    (DirEntries.cons (FileTree.dir "web"
        (DirEntries.cons (FileTree.file "go.mod") DirEntries.nil))
      DirEntries.nil)))

/-! ## Concurrent calls of Execute

To speak of calls of `Execute` that are in flight together, `Execute` is cut at its
file-system operations: one move is the creation of the temporary directory, the clone,
the manifest check with the scan and the parsing, the monitor call, or the deferred
`os.RemoveAll`.  Several calls share one world and a schedule says which call moves. -/

/-- The control point of one call of `Execute`. -/
inductive Ctl where
  /-- Before `os.MkdirTemp`. -/
  | entry
  /-- The temporary directory exists; before `gitClient.Clone`. -/
  | created (tempBaseDir : String)
  /-- The clone succeeded; before the manifest check and `snykScanner.Scan`. -/
  | cloned (tempBaseDir : String)
  /-- The scan output is parsed and monitor is requested; before `snykScanner.Monitor`. -/
  | scanned (tempBaseDir : String) (result : ScanResult)
  /-- The values to return are fixed; the deferred `os.RemoveAll` has still to run. -/
  | leaving (tempBaseDir : String) (ret : Except GoError ScanResult)
  /-- The call has returned. -/
  | returned (ret : Except GoError ScanResult)

/-- The temporary directory a call holds: from its creation to its removal. -/
def Ctl.owned : Ctl → Option String
  | Ctl.entry => none
  | Ctl.created d => some d
  | Ctl.cloned d => some d
  | Ctl.scanned d _ => some d
  | Ctl.leaving d _ => some d
  | Ctl.returned _ => none

/-- One move of a call of `Execute`. -/
def execStep (os : OS) (s : ScanUseCase) (json : JSON) (config : ScanConfig) :
    Ctl → World → Ctl × World
  | Ctl.entry, w =>
    match os.MkdirTemp w.fs with
    | Except.error err =>
      (Ctl.returned (Except.error (Errorf "falha ao criar diretório temporário: " err)), w)
    | Except.ok tempBaseDir =>
      (Ctl.created tempBaseDir, { w with fs := (tempBaseDir, Node.dir) :: w.fs })
  | Ctl.created tempBaseDir, w =>
    match callClone s.gitClient config.RepoURL (filepathJoin tempBaseDir "repo") w with
    | (some err, w1) =>
      (Ctl.leaving tempBaseDir (Except.error
        (Errorf ("falha ao clonar repositório '" ++ config.RepoURL ++ "': ") err)), w1)
    | (none, w1) => (Ctl.cloned tempBaseDir, w1)
  | Ctl.cloned tempBaseDir, w =>
    let cloneDir := filepathJoin tempBaseDir "repo"
    if !hasSnykManifest w.fs cloneDir then
      (Ctl.leaving tempBaseDir (Except.error (GoError.plain
        ("nenhum manifesto suportado encontrado (go.mod, package.json, requirements.txt, pom.xml, etc) em '"
          ++ cloneDir ++ "'"))), w)
    else
      match callScan s.snykScanner cloneDir w with
      | (Except.error err, w2) =>
        (Ctl.leaving tempBaseDir (Except.error (Errorf "falha durante o 'snyk test': " err)), w2)
      | (Except.ok jsonOutput, w2) =>
        match json.Unmarshal jsonOutput with
        | Except.error err =>
          (Ctl.leaving tempBaseDir
            (Except.error (Errorf "falha ao processar o JSON do Snyk: " err)), w2)
        | Except.ok parsed =>
          let result : ScanResult :=
            { Vulnerabilities := parsed.Vulnerabilities, RawJSON := jsonOutput, MonitorOutput := "" }
          if config.Monitor then (Ctl.scanned tempBaseDir result, w2)
          else (Ctl.leaving tempBaseDir (Except.ok result), w2)
  | Ctl.scanned tempBaseDir result, w =>
    let r := monitorStep s.snykScanner (filepathJoin tempBaseDir "repo") result w
    (Ctl.leaving tempBaseDir r.1, r.2)
  | Ctl.leaving tempBaseDir ret, w =>
    (Ctl.returned ret, { w with fs := w.fs.RemoveAll tempBaseDir })
  | Ctl.returned ret, w => (Ctl.returned ret, w)

/-- A number of moves of one call, run alone. -/
def execSteps (os : OS) (s : ScanUseCase) (json : JSON) (config : ScanConfig) :
    Nat → Ctl × World → Ctl × World
  | 0, x => x
  | k + 1, x => execSteps os s json config k (execStep os s json config x.1 x.2)

/-- Several calls of `Execute` sharing one world. -/
structure Flight where
  world : World
  calls : List (ScanConfig × Ctl)

/-- A move of call `i`; `none` when there is no such call or it has returned. -/
def flightStep (os : OS) (s : ScanUseCase) (json : JSON) (i : Nat) (f : Flight) : Option Flight :=
  match f.calls[i]? with
  | none => none
  | some (_, Ctl.returned _) => none
  | some (config, ctl) =>
    let r := execStep os s json config ctl f.world
    some { world := r.2, calls := f.calls.set i (config, r.1) }

/-- A schedule: the calls that move, in order. -/
def flightRun (os : OS) (s : ScanUseCase) (json : JSON) : List Nat → Flight → Option Flight
  | [], f => some f
  | i :: rest, f =>
    match flightStep os s json i f with
    | none => none
    | some f1 => flightRun os s json rest f1

/-- The calls for a list of configurations, none started yet. -/
def startFlight (configs : List ScanConfig) (w : World) : Flight :=
  { world := w, calls := configs.map (fun c => (c, Ctl.entry)) }

/-- A temporary directory handed out by `os.MkdirTemp` is new: nothing exists at it or
below it. -/
def FreshTemp (os : OS) : Prop :=
  ∀ fs d, os.MkdirTemp fs = Except.ok d → ∀ p, isUnder d p = true → fs.read p = none

/-- The directories handed out by `os.MkdirTemp` are never one below another: they are
entries of the one system directory for temporary files. -/
def SiblingTemps (os : OS) : Prop :=
  ∀ fs1 d1 fs2 d2, os.MkdirTemp fs1 = Except.ok d1 → os.MkdirTemp fs2 = Except.ok d2 →
    isUnder d1 d2 = true → d1 = d2

/-- The adapters change nothing outside the directory they are called on. -/
def ConfinedAdapters (s : ScanUseCase) : Prop :=
  (∀ url path fs p, isUnder path p = false → (s.gitClient.Clone url path fs).2.read p = fs.read p)
    ∧ (∀ path fs p, isUnder path p = false → (s.snykScanner.Scan path fs).2.read p = fs.read p)
    ∧ (∀ path fs p, isUnder path p = false → (s.snykScanner.Monitor path fs).2.read p = fs.read p)

/-- The facts that hold of the calls in flight in every state of a schedule. -/
structure FlightInv (os : OS) (f : Flight) : Prop where
  present : ∀ (i : Nat) (cfg : ScanConfig) (c : Ctl) (d : String),
    f.calls[i]? = some (cfg, c) → c.owned = some d →
    f.world.fs.read d ≠ none ∧ ∃ fs0, os.MkdirTemp fs0 = Except.ok d
  apart : ∀ (i j : Nat) (cfgi cfgj : ScanConfig) (ci cj : Ctl) (di dj : String), i ≠ j →
    f.calls[i]? = some (cfgi, ci) → f.calls[j]? = some (cfgj, cj) →
    ci.owned = some di → cj.owned = some dj → isUnder di dj = false

/-- An operating system with two slots for temporary directories. -/
def slotOS : OS :=
  { MkdirTemp := fun fs =>
      if fs.all (fun e => !isUnder "/tmp/secscan-a" e.1) then Except.ok "/tmp/secscan-a"
      else if fs.all (fun e => !isUnder "/tmp/secscan-b" e.1) then Except.ok "/tmp/secscan-b"
      else Except.error (GoError.plain "no space left on device"),
    WriteFile := fun _ _ _ => none }

/-- Two calls in flight: both have cloned, the first has scanned. -/
def demoFlightSchedule : List Nat :=
  [0, 1, 0, 1, 0]

/-- The state after `demoFlightSchedule` for the targets `repo1` and `repo3`. -/
def demoFlight : Flight :=
  (flightRun slotOS { snykScanner := contentScanner, gitClient := demoGit } demoJSON
    demoFlightSchedule
    (startFlight [{ RepoURL := "repo1", Monitor := true }, { RepoURL := "repo3", Monitor := true }]
      emptyWorld)).getD (startFlight [] emptyWorld)

/-- What `bufio.Scanner` gives on a repo file whose second line is longer than
`bufio.MaxScanTokenSize`: the line read before it, and `bufio.ErrTooLong` as
`scanner.Err()`. -/
def longLineRepoFile : RepoFile :=
  { lines := ["https://github.com/user/a.git"],
    err := some (GoError.plain "bufio.Scanner: token too long") }

/-- The file systems `fs` and `fs1` hold the same at and below the directory `d`. -/
def AgreeUnder (d : String) (fs fs1 : FS) : Prop :=
  ∀ p, isUnder d p = true → fs1.read p = fs.read p

/-- The adapters read nothing outside the directory they are called on: on two file
systems that hold the same at and below that directory they return the same result and
leave the same at and below it. -/
def ReadConfined (s : ScanUseCase) : Prop :=
  (∀ url path fs fs1, AgreeUnder path fs fs1 →
      (s.gitClient.Clone url path fs1).1 = (s.gitClient.Clone url path fs).1
        ∧ AgreeUnder path (s.gitClient.Clone url path fs).2 (s.gitClient.Clone url path fs1).2)
    ∧ (∀ path fs fs1, AgreeUnder path fs fs1 →
      (s.snykScanner.Scan path fs1).1 = (s.snykScanner.Scan path fs).1
        ∧ AgreeUnder path (s.snykScanner.Scan path fs).2 (s.snykScanner.Scan path fs1).2)
    ∧ (∀ path fs fs1, AgreeUnder path fs fs1 →
      (s.snykScanner.Monitor path fs1).1 = (s.snykScanner.Monitor path fs).1
        ∧ AgreeUnder path (s.snykScanner.Monitor path fs).2 (s.snykScanner.Monitor path fs1).2)

/-- The call holds the directory `d`, or has returned. -/
def Ctl.holds (d : String) (c : Ctl) : Prop :=
  c.owned = some d ∨ ∃ ret, c = Ctl.returned ret

/-- The control points of the calls of a flight. -/
def Flight.ctls (f : Flight) : List Ctl :=
  f.calls.map (fun c => c.2)

/-- A continuation of `demoFlightSchedule` up to the return of both calls. -/
def demoFlightRest : List Nat :=
  [1, 0, 1, 1, 0]

/-- The state after `demoFlightSchedule` followed by `demoFlightRest`. -/
def demoFlightEnd : Flight :=
  (flightRun slotOS { snykScanner := contentScanner, gitClient := demoGit } demoJSON
    demoFlightRest demoFlight).getD demoFlight

/-! ## Lemmas on strings and errors -/

theorem containsChars_append_left (sub rest : List Char) :
    containsChars sub (sub ++ rest) = true := by
  cases h : sub ++ rest with
  | nil =>
    have hs : sub = [] := (List.append_eq_nil.mp h).1
    simp [containsChars, hs]
  | cons c cs =>
    have hp : sub.isPrefixOf (c :: cs) = true := by
      rw [← h]
      exact List.isPrefixOf_iff_prefix.mpr (List.prefix_append sub rest)
    simp [containsChars, hp]

theorem stringsContains_append_left (a b : String) : stringsContains (a ++ b) a = true := by
  unfold stringsContains
  rw [String.data_append]
  exact containsChars_append_left a.data b.data

theorem Is_self (e : GoError) : e.Is e = true := by
  cases e <;> simp [GoError.Is]

theorem Is_Errorf (pre : String) (e : GoError) : (Errorf pre e).Is e = true := by
  simp [Errorf, GoError.Is, Is_self]

/-! ## The clamp of the worker count -/

theorem clampWorkers_eq (r : Int) (n : Nat) (hn : 1 ≤ n) :
    clampWorkers r n = max 1 (min r n) := by
  unfold clampWorkers
  have hn1 : (1 : Int) ≤ n := by exact_mod_cast hn
  split_ifs with h1 h2
  · rw [max_eq_left]
    exact le_trans (min_le_left _ _) (by omega)
  · rw [min_eq_right (by omega), max_eq_right hn1]
  · rw [min_eq_left (by omega), max_eq_right (by omega)]

theorem clampWorkers_bounds (r : Int) (n : Nat) (hn : 1 ≤ n) :
    1 ≤ clampWorkers r n ∧ clampWorkers r n ≤ n := by
  rw [clampWorkers_eq r n hn]
  exact ⟨le_max_left _ _, max_le (by exact_mod_cast hn) (min_le_right _ _)⟩

/-- The state `RunE` starts the pool in, for a non-empty list. -/
theorem startPool_eq (repoURLs : List String) (numWorkers : Int) (usecase : ScanUseCase)
    (w : World) (hne : repoURLs ≠ []) :
    startPool repoURLs numWorkers (some usecase) w = Except.ok
      { n := repoURLs.length, pending := repoURLs, closed := false, jobs := [],
        workers := (List.range' 1 (clampWorkers numWorkers repoURLs.length).toNat).map
          (fun _ => Worker.idle),
        results := [], collected := [], finalError := none, world := w } := by
  have hlen : 1 ≤ repoURLs.length := List.length_pos.mpr hne
  have hlen0 : ¬ repoURLs.length = 0 := by omega
  simp [startPool, hlen0]

/-- C4. For a non-empty target list and any requested worker count, `RunE` starts the
pool with exactly `max(1, min(requested, len(targets)))` workers: the count lies in
`[1, len(targets)]` and a request of zero or less gives one worker. -/
theorem workers_clamped (repoURLs : List String) (numWorkers : Int) (usecase : ScanUseCase)
    (w : World) (hne : repoURLs ≠ []) :
    ∃ s, startPool repoURLs numWorkers (some usecase) w = Except.ok s
      ∧ (s.workers.length : Int) = max 1 (min numWorkers repoURLs.length)
      ∧ 1 ≤ s.workers.length ∧ s.workers.length ≤ repoURLs.length
      ∧ (numWorkers ≤ 0 → s.workers.length = 1) := by
  have hlen : 1 ≤ repoURLs.length := List.length_pos.mpr hne
  have hc := clampWorkers_eq numWorkers repoURLs.length hlen
  obtain ⟨h1, h2⟩ := clampWorkers_bounds numWorkers repoURLs.length hlen
  have h3 : ((clampWorkers numWorkers repoURLs.length).toNat : Int)
      = clampWorkers numWorkers repoURLs.length := Int.toNat_of_nonneg (by omega)
  refine ⟨_, startPool_eq repoURLs numWorkers usecase w hne, ?_, ?_, ?_, ?_⟩
  · simp only [List.length_map, List.length_range']
    rw [h3, hc]
  · simp only [List.length_map, List.length_range']
    omega
  · simp only [List.length_map, List.length_range']
    omega
  · intro h0
    simp only [List.length_map, List.length_range']
    have h4 : clampWorkers numWorkers repoURLs.length = 1 := by
      unfold clampWorkers
      rw [if_pos (by omega)]
    omega

/-- C4, on the example of the specification: ten workers requested for three targets
give three workers. -/
theorem workers_clamped_witness :
    ∃ s, startPool ["repo1", "repo2", "repo3"] 10
        (some { snykScanner := cleanScanner, gitClient := demoGit }) emptyWorld = Except.ok s
      ∧ (s.workers.length : Int) = max 1 (min 10 (["repo1", "repo2", "repo3"].length : Int))
      ∧ 1 ≤ s.workers.length ∧ s.workers.length ≤ ["repo1", "repo2", "repo3"].length
      ∧ ((10 : Int) ≤ 0 → s.workers.length = 1) :=
  workers_clamped ["repo1", "repo2", "repo3"] 10 _ emptyWorld (by decide)


/-! ## The scan pipeline -/

theorem hasSnykManifestLoop_iff (fs : FS) (dir : String) (names : List String) :
    hasSnykManifestLoop fs dir names = true ↔ ∃ f ∈ names, fs.statOk (filepathJoin dir f) = true := by
  induction names with
  | nil => simp [hasSnykManifestLoop]
  | cons f rest ih =>
    unfold hasSnykManifestLoop
    by_cases h : fs.statOk (filepathJoin dir f) = true
    · simp [h]
    · simp [h, ih]

/-- The result and the call log of `Execute` when the clone fails. -/
theorem Execute_clone_error (os : OS) (s : ScanUseCase) (json : JSON) (config : ScanConfig)
    (w : World) (tmp : String) (e : GoError)
    (hmk : os.MkdirTemp w.fs = Except.ok tmp)
    (hclone : (s.gitClient.Clone config.RepoURL (filepathJoin tmp "repo")
      ((tmp, Node.dir) :: w.fs)).1 = some e) :
    (Execute os s json config w).1
        = Except.error (Errorf ("falha ao clonar repositório '" ++ config.RepoURL ++ "': ") e)
      ∧ (Execute os s json config w).2.calls
        = w.calls ++ [Call.Clone config.RepoURL (filepathJoin tmp "repo")] := by
  simp [Execute, hmk, executeBody, callClone, hclone]

/-- C8. When `GitClient.Clone` returns an error `e`, `Execute` returns an error that
wraps `e` (`errors.Is`) and whose message contains "falha ao clonar repositório"; the
only port call made is the clone itself, so neither `Scan` nor `Monitor` is invoked. -/
theorem clone_failure_is_terminal (os : OS) (s : ScanUseCase) (json : JSON) (config : ScanConfig)
    (w : World) (tmp : String) (e : GoError)
    (hmk : os.MkdirTemp w.fs = Except.ok tmp)
    (hclone : (s.gitClient.Clone config.RepoURL (filepathJoin tmp "repo")
      ((tmp, Node.dir) :: w.fs)).1 = some e) :
    ∃ err, (Execute os s json config w).1 = Except.error err
      ∧ err.Is e = true
      ∧ stringsContains err.Error "falha ao clonar repositório" = true
      ∧ (Execute os s json config w).2.calls
          = w.calls ++ [Call.Clone config.RepoURL (filepathJoin tmp "repo")]
      ∧ (∀ p, Call.Scan p ∉ w.calls → Call.Scan p ∉ (Execute os s json config w).2.calls)
      ∧ (∀ p, Call.Monitor p ∉ w.calls → Call.Monitor p ∉ (Execute os s json config w).2.calls) := by
  obtain ⟨h1, h2⟩ := Execute_clone_error os s json config w tmp e hmk hclone
  refine ⟨_, h1, Is_Errorf _ e, ?_, h2, ?_, ?_⟩
  · have hmsg : (Errorf ("falha ao clonar repositório '" ++ config.RepoURL ++ "': ") e).Error
        = "falha ao clonar repositório" ++ (" '" ++ config.RepoURL ++ "': " ++ e.Error) := by
      simp only [Errorf, GoError.Error]
      have h0 : "falha ao clonar repositório '" = "falha ao clonar repositório" ++ " '" := by decide
      rw [h0]
      simp only [String.append_assoc]
    rw [hmsg]
    exact stringsContains_append_left _ _
  · intro p hp
    rw [h2]
    simp [hp]
  · intro p hp
    rw [h2]
    simp [hp]

/-- C8, on the third test case: the clone fails with an authentication error. -/
theorem clone_failure_is_terminal_witness :
    ∃ err, (Execute okOS { snykScanner := cleanScanner, gitClient := demoGit } demoJSON
          { RepoURL := "repo2", Monitor := true } emptyWorld).1 = Except.error err
      ∧ err.Is (GoError.plain "falha de autenticação") = true
      ∧ stringsContains err.Error "falha ao clonar repositório" = true
      ∧ (Execute okOS { snykScanner := cleanScanner, gitClient := demoGit } demoJSON
          { RepoURL := "repo2", Monitor := true } emptyWorld).2.calls
          = emptyWorld.calls ++ [Call.Clone "repo2" (filepathJoin "/tmp/secscan-0" "repo")]
      ∧ (∀ p, Call.Scan p ∉ emptyWorld.calls →
          Call.Scan p ∉ (Execute okOS { snykScanner := cleanScanner, gitClient := demoGit } demoJSON
            { RepoURL := "repo2", Monitor := true } emptyWorld).2.calls)
      ∧ (∀ p, Call.Monitor p ∉ emptyWorld.calls →
          Call.Monitor p ∉ (Execute okOS { snykScanner := cleanScanner, gitClient := demoGit } demoJSON
            { RepoURL := "repo2", Monitor := true } emptyWorld).2.calls) :=
  clone_failure_is_terminal okOS { snykScanner := cleanScanner, gitClient := demoGit } demoJSON
    { RepoURL := "repo2", Monitor := true } emptyWorld "/tmp/secscan-0"
    (GoError.plain "falha de autenticação") rfl rfl

/-- The result and the call log of `Execute` when the clone succeeds and leaves no
manifest. -/
theorem Execute_no_manifest (os : OS) (s : ScanUseCase) (json : JSON) (config : ScanConfig)
    (w : World) (tmp : String) (fs1 : FS)
    (hmk : os.MkdirTemp w.fs = Except.ok tmp)
    (hclone : s.gitClient.Clone config.RepoURL (filepathJoin tmp "repo")
      ((tmp, Node.dir) :: w.fs) = (none, fs1))
    (hman : hasSnykManifest fs1 (filepathJoin tmp "repo") = false) :
    (Execute os s json config w).1 = Except.error (GoError.plain
        ("nenhum manifesto suportado encontrado (go.mod, package.json, requirements.txt, pom.xml, etc) em '"
          ++ filepathJoin tmp "repo" ++ "'"))
      ∧ (Execute os s json config w).2.calls
        = w.calls ++ [Call.Clone config.RepoURL (filepathJoin tmp "repo")] := by
  simp [Execute, hmk, executeBody, callClone, hclone, hman]

/-- The result and the call log of `Execute` when the scan fails, whatever the error
and whatever the monitor flag. -/
theorem Execute_scan_error (os : OS) (s : ScanUseCase) (json : JSON) (config : ScanConfig)
    (w : World) (tmp : String) (fs1 fs2 : FS) (e : GoError)
    (hmk : os.MkdirTemp w.fs = Except.ok tmp)
    (hclone : s.gitClient.Clone config.RepoURL (filepathJoin tmp "repo")
      ((tmp, Node.dir) :: w.fs) = (none, fs1))
    (hman : hasSnykManifest fs1 (filepathJoin tmp "repo") = true)
    (hscan : s.snykScanner.Scan (filepathJoin tmp "repo") fs1 = (Except.error e, fs2)) :
    (Execute os s json config w).1 = Except.error (Errorf "falha durante o 'snyk test': " e)
      ∧ (Execute os s json config w).2.calls
        = w.calls ++ [Call.Clone config.RepoURL (filepathJoin tmp "repo"),
            Call.Scan (filepathJoin tmp "repo")] := by
  simp [Execute, hmk, executeBody, callClone, hclone, hman, callScan, hscan]

/-- The result of `Execute` when the scan succeeds and its output parses. -/
theorem Execute_scan_ok (os : OS) (s : ScanUseCase) (json : JSON) (config : ScanConfig)
    (w : World) (tmp : String) (fs1 fs2 : FS) (out : String) (parsed : snykTestOutput)
    (hmk : os.MkdirTemp w.fs = Except.ok tmp)
    (hclone : s.gitClient.Clone config.RepoURL (filepathJoin tmp "repo")
      ((tmp, Node.dir) :: w.fs) = (none, fs1))
    (hman : hasSnykManifest fs1 (filepathJoin tmp "repo") = true)
    (hscan : s.snykScanner.Scan (filepathJoin tmp "repo") fs1 = (Except.ok out, fs2))
    (hjson : json.Unmarshal out = Except.ok parsed) :
    (Execute os s json config w).1 =
      if config.Monitor then
        match (s.snykScanner.Monitor (filepathJoin tmp "repo") fs2).1 with
        | Except.error _ =>
          Except.ok { Vulnerabilities := parsed.Vulnerabilities, RawJSON := out, MonitorOutput := "" }
        | Except.ok monitorOutput =>
          Except.ok { Vulnerabilities := parsed.Vulnerabilities, RawJSON := out,
                      MonitorOutput := monitorOutput }
      else
        Except.ok { Vulnerabilities := parsed.Vulnerabilities, RawJSON := out, MonitorOutput := "" } := by
  simp only [Execute, hmk, executeBody, callClone, hclone, hman, callScan, hscan, hjson,
    monitorStep, callMonitor]
  by_cases hm : config.Monitor = true
  · simp only [hm, if_true]
    cases hr : (s.snykScanner.Monitor (filepathJoin tmp "repo") fs2).1 <;> simp [hr]
  · simp [hm]

/-- C10. `hasSnykManifest(dir)` is true exactly when one of the ten manifest names
exists directly in `dir`; and when it is false after a successful clone, `Execute`
returns an error and the clone is the only port call made: `Scan` is not invoked. -/
theorem manifest_guard (fs : FS) (dir : String) (os : OS) (s : ScanUseCase) (json : JSON)
    (config : ScanConfig) (w : World) (tmp : String) (fs1 : FS) :
    (hasSnykManifest fs dir = true ↔
      (fs.statOk (filepathJoin dir "go.mod") = true
        ∨ fs.statOk (filepathJoin dir "package.json") = true
        ∨ fs.statOk (filepathJoin dir "requirements.txt") = true
        ∨ fs.statOk (filepathJoin dir "Pipfile") = true
        ∨ fs.statOk (filepathJoin dir "pom.xml") = true
        ∨ fs.statOk (filepathJoin dir "build.gradle") = true
        ∨ fs.statOk (filepathJoin dir "build.gradle.kts") = true
        ∨ fs.statOk (filepathJoin dir "yarn.lock") = true
        ∨ fs.statOk (filepathJoin dir "pnpm-lock.yaml") = true
        ∨ fs.statOk (filepathJoin dir "Cargo.toml") = true))
    ∧ (os.MkdirTemp w.fs = Except.ok tmp →
        s.gitClient.Clone config.RepoURL (filepathJoin tmp "repo") ((tmp, Node.dir) :: w.fs)
          = (none, fs1) →
        hasSnykManifest fs1 (filepathJoin tmp "repo") = false →
        (∃ err, (Execute os s json config w).1 = Except.error err)
          ∧ (Execute os s json config w).2.calls
              = w.calls ++ [Call.Clone config.RepoURL (filepathJoin tmp "repo")]
          ∧ (∀ p, Call.Scan p ∉ w.calls → Call.Scan p ∉ (Execute os s json config w).2.calls)) := by
  constructor
  · unfold hasSnykManifest
    rw [hasSnykManifestLoop_iff]
    simp [manifests]
  · intro hmk hclone hman
    obtain ⟨h1, h2⟩ := Execute_no_manifest os s json config w tmp fs1 hmk hclone hman
    refine ⟨⟨_, h1⟩, h2, ?_⟩
    intro p hp
    rw [h2]
    simp [hp]

/-- C10, on a clone that reports success and writes nothing, as the mock of the tests
does: no manifest, an error, and no scan. -/
theorem manifest_guard_witness :
    (∃ err, (Execute okOS { snykScanner := cleanScanner, gitClient := mockGitOk } demoJSON
        { RepoURL := "https://github.com/user/repo.git", Monitor := false } emptyWorld).1
        = Except.error err)
      ∧ (Execute okOS { snykScanner := cleanScanner, gitClient := mockGitOk } demoJSON
          { RepoURL := "https://github.com/user/repo.git", Monitor := false } emptyWorld).2.calls
          = emptyWorld.calls
            ++ [Call.Clone "https://github.com/user/repo.git" (filepathJoin "/tmp/secscan-0" "repo")]
      ∧ (∀ p, Call.Scan p ∉ emptyWorld.calls →
          Call.Scan p ∉ (Execute okOS { snykScanner := cleanScanner, gitClient := mockGitOk } demoJSON
            { RepoURL := "https://github.com/user/repo.git", Monitor := false } emptyWorld).2.calls) :=
  (manifest_guard [] "" okOS { snykScanner := cleanScanner, gitClient := mockGitOk } demoJSON
    { RepoURL := "https://github.com/user/repo.git", Monitor := false } emptyWorld "/tmp/secscan-0"
    [("/tmp/secscan-0", Node.dir)]).2 rfl rfl (by decide)

/-- The result and the call log of `ExecuteOnDir` when the scan succeeds and parses. -/
theorem ExecuteOnDir_scan_ok (s : LocalScanUseCase) (json : JSON) (path : String)
    (monitor : Bool) (w : World) (fs1 : FS) (out : String) (parsed : snykTestOutput)
    (hscan : s.snykScanner.Scan path w.fs = (Except.ok out, fs1))
    (hjson : json.Unmarshal out = Except.ok parsed) :
    ExecuteOnDir s json path monitor w =
      localMonitorStep s path monitor
        { Vulnerabilities := parsed.Vulnerabilities, RawJSON := out, MonitorOutput := "" }
        { w with fs := fs1, calls := w.calls ++ [Call.Scan path] } := by
  simp [ExecuteOnDir, callScan, hscan, hjson]

/-- C5. When the scan succeeds and parses to the findings `parsed.Vulnerabilities`,
monitor is requested and `Scanner.Monitor` returns an error, both pipelines return a
success whose findings are exactly these and whose `MonitorOutput` is empty. -/
theorem monitor_is_best_effort (os : OS) (s : ScanUseCase) (l : LocalScanUseCase) (json : JSON)
    (url path : String) (w : World) (tmp : String) (fs1 fs2 fs3 gs1 gs2 : FS) (out lout : String)
    (parsed lparsed : snykTestOutput) (e le : GoError) :
    (os.MkdirTemp w.fs = Except.ok tmp →
      s.gitClient.Clone url (filepathJoin tmp "repo") ((tmp, Node.dir) :: w.fs) = (none, fs1) →
      hasSnykManifest fs1 (filepathJoin tmp "repo") = true →
      s.snykScanner.Scan (filepathJoin tmp "repo") fs1 = (Except.ok out, fs2) →
      json.Unmarshal out = Except.ok parsed →
      s.snykScanner.Monitor (filepathJoin tmp "repo") fs2 = (Except.error e, fs3) →
      (Execute os s json { RepoURL := url, Monitor := true } w).1
        = Except.ok { Vulnerabilities := parsed.Vulnerabilities, RawJSON := out,
                      MonitorOutput := "" })
    ∧ (l.snykScanner.Scan path w.fs = (Except.ok lout, gs1) →
      json.Unmarshal lout = Except.ok lparsed →
      l.snykScanner.Monitor path gs1 = (Except.error le, gs2) →
      (ExecuteOnDir l json path true w).1
        = Except.ok { Vulnerabilities := lparsed.Vulnerabilities, RawJSON := lout,
                      MonitorOutput := "" }) := by
  constructor
  · intro hmk hclone hman hscan hjson hmon
    rw [Execute_scan_ok os s json _ w tmp fs1 fs2 out parsed hmk hclone hman hscan hjson]
    simp [hmon]
  · intro hscan hjson hmon
    rw [ExecuteOnDir_scan_ok l json path true w gs1 lout lparsed hscan hjson]
    simp [localMonitorStep, callMonitor, hmon]

/-- C5, on the example of the specification: the scan finds two vulnerabilities and
the monitor call fails. -/
theorem monitor_is_best_effort_witness :
    (Execute okOS { snykScanner := twoScanner, gitClient := demoGit } demoJSON
        { RepoURL := "repo1", Monitor := true } emptyWorld).1
        = Except.ok { Vulnerabilities := [xss, pollution], RawJSON := "two", MonitorOutput := "" }
      ∧ (ExecuteOnDir { snykScanner := twoScanner } demoJSON "/src/app" true emptyWorld).1
        = Except.ok { Vulnerabilities := [xss, pollution], RawJSON := "two", MonitorOutput := "" } :=
  have h := monitor_is_best_effort okOS { snykScanner := twoScanner, gitClient := demoGit }
    { snykScanner := twoScanner } demoJSON "repo1" "/src/app" emptyWorld "/tmp/secscan-0"
    [(filepathJoin (filepathJoin "/tmp/secscan-0" "repo") "go.mod", Node.file "repo1"),
      (filepathJoin "/tmp/secscan-0" "repo", Node.dir), ("/tmp/secscan-0", Node.dir)]
    [(filepathJoin (filepathJoin "/tmp/secscan-0" "repo") "go.mod", Node.file "repo1"),
      (filepathJoin "/tmp/secscan-0" "repo", Node.dir), ("/tmp/secscan-0", Node.dir)]
    [(filepathJoin (filepathJoin "/tmp/secscan-0" "repo") "go.mod", Node.file "repo1"),
      (filepathJoin "/tmp/secscan-0" "repo", Node.dir), ("/tmp/secscan-0", Node.dir)]
    [] [] "two" "two" ⟨false, [xss, pollution]⟩ ⟨false, [xss, pollution]⟩
    (GoError.plain "falha ao executar snyk monitor: ")
    (GoError.plain "falha ao executar snyk monitor: ")
  ⟨h.1 rfl rfl (by decide) rfl rfl rfl, h.2 rfl rfl rfl⟩

/-- C6. In `ExecuteOnDir`, a scan error whose message contains the signal
`Unknown command "test"` gives, with `monitor = true`, a success with no finding and
no raw output after `Monitor` has been invoked on the path; with `monitor = false` the
same error is returned wrapped and `Monitor` is not invoked. -/
theorem local_unsupported_scan_fallback (s : LocalScanUseCase) (json : JSON) (path : String)
    (w : World) (fs1 : FS) (err : GoError)
    (hscan : s.snykScanner.Scan path w.fs = (Except.error err, fs1))
    (hsig : stringsContains err.Error "Unknown command \"test\"" = true) :
    (∃ r, (ExecuteOnDir s json path true w).1 = Except.ok r
        ∧ r.Vulnerabilities = [] ∧ r.RawJSON = ""
        ∧ (r.MonitorOutput = match (s.snykScanner.Monitor path fs1).1 with
            | Except.ok monOut => monOut
            | Except.error _ => "")
        ∧ (ExecuteOnDir s json path true w).2.calls
            = w.calls ++ [Call.Scan path, Call.Monitor path])
    ∧ (∃ e, (ExecuteOnDir s json path false w).1 = Except.error e
        ∧ e.Is err = true
        ∧ (ExecuteOnDir s json path false w).2.calls = w.calls ++ [Call.Scan path]) := by
  constructor
  · simp only [ExecuteOnDir, callScan, hscan, hsig, Bool.and_self, if_true, localMonitorStep,
      callMonitor]
    cases hm : (s.snykScanner.Monitor path fs1).1 <;> simp [hm]
  · refine ⟨Errorf ("falha durante o 'snyk test' em '" ++ path ++ "': ") err, ?_, Is_Errorf _ _, ?_⟩
    · simp [ExecuteOnDir, callScan, hscan]
    · simp [ExecuteOnDir, callScan, hscan]

/-- C6, on a scanner whose CLI lacks the command `test`. -/
theorem local_unsupported_scan_fallback_witness :
    (∃ r, (ExecuteOnDir { snykScanner := oldScanner } demoJSON "/src/app" true emptyWorld).1
          = Except.ok r
        ∧ r.Vulnerabilities = [] ∧ r.RawJSON = ""
        ∧ (r.MonitorOutput = match (oldScanner.Monitor "/src/app" []).1 with
            | Except.ok monOut => monOut
            | Except.error _ => "")
        ∧ (ExecuteOnDir { snykScanner := oldScanner } demoJSON "/src/app" true emptyWorld).2.calls
            = emptyWorld.calls ++ [Call.Scan "/src/app", Call.Monitor "/src/app"])
    ∧ (∃ e, (ExecuteOnDir { snykScanner := oldScanner } demoJSON "/src/app" false emptyWorld).1
          = Except.error e
        ∧ e.Is (GoError.plain "falha ao executar snyk test: Unknown command \"test\"") = true
        ∧ (ExecuteOnDir { snykScanner := oldScanner } demoJSON "/src/app" false emptyWorld).2.calls
            = emptyWorld.calls ++ [Call.Scan "/src/app"]) :=
  local_unsupported_scan_fallback { snykScanner := oldScanner } demoJSON "/src/app" emptyWorld []
    (GoError.plain "falha ao executar snyk test: Unknown command \"test\"") rfl (by decide)

/-- C7. On a target whose clone and manifest check succeed, with monitor requested and
a scan failing with the signal `Unknown command "test"`, `Execute` returns the wrapped
scan error and never calls `Monitor`, whereas `ExecuteOnDir` with the same scanner
returns a success with no finding. -/
theorem execute_unsupported_scan_is_terminal :
    stringsContains (GoError.plain "falha ao executar snyk test: Unknown command \"test\"").Error
        "Unknown command \"test\"" = true
    ∧ (Execute okOS { snykScanner := oldScanner, gitClient := demoGit } demoJSON
        { RepoURL := "repo1", Monitor := true } emptyWorld).1
      = Except.error (Errorf "falha durante o 'snyk test': "
          (GoError.plain "falha ao executar snyk test: Unknown command \"test\""))
    ∧ (Execute okOS { snykScanner := oldScanner, gitClient := demoGit } demoJSON
        { RepoURL := "repo1", Monitor := true } emptyWorld).2.calls
      = [Call.Clone "repo1" "/tmp/secscan-0/repo", Call.Scan "/tmp/secscan-0/repo"]
    ∧ (ExecuteOnDir { snykScanner := oldScanner } demoJSON "/tmp/secscan-0/repo" true emptyWorld).1
      = Except.ok { Vulnerabilities := [], RawJSON := "", MonitorOutput := "monitored" } :=
  ⟨by decide, rfl, by decide, rfl⟩

/-- C9 as stated fails: with a clone that succeeds (the mock of the tests, which writes
nothing) and a scan that returns well-formed JSON, `Execute` can still return an error,
the one of the manifest check. -/
theorem wellformed_scan_does_not_suffice :
    ¬ ∀ (os : OS) (s : ScanUseCase) (json : JSON) (config : ScanConfig) (w : World) (tmp : String)
        (fs1 : FS) (out : String) (parsed : snykTestOutput),
        os.MkdirTemp w.fs = Except.ok tmp →
        s.gitClient.Clone config.RepoURL (filepathJoin tmp "repo") ((tmp, Node.dir) :: w.fs)
          = (none, fs1) →
        (s.snykScanner.Scan (filepathJoin tmp "repo") fs1).1 = Except.ok out →
        json.Unmarshal out = Except.ok parsed →
        ∃ r, (Execute os s json config w).1 = Except.ok r := by
  intro h
  obtain ⟨r, hr⟩ := h okOS { snykScanner := cleanScanner, gitClient := mockGitOk } demoJSON
    { RepoURL := "https://github.com/user/repo.git", Monitor := false } emptyWorld "/tmp/secscan-0"
    [("/tmp/secscan-0", Node.dir)] "\x7b\"ok\": true, \"vulnerabilities\": []\x7d" ⟨true, []⟩
    rfl rfl rfl rfl
  have he : (Execute okOS { snykScanner := cleanScanner, gitClient := mockGitOk } demoJSON
      { RepoURL := "https://github.com/user/repo.git", Monitor := false } emptyWorld).1
      = Except.error (GoError.plain
        ("nenhum manifesto suportado encontrado (go.mod, package.json, requirements.txt, pom.xml, etc) em '"
          ++ filepathJoin "/tmp/secscan-0" "repo" ++ "'")) := rfl
  rw [he] at hr
  cases hr

/-- C9, amended. When the clone succeeds, the cloned directory holds one of the
manifests and the scan returns well-formed JSON, `Execute` returns no error, whether
the parsed vulnerability list is empty or not and whatever the monitor flag; the result
carries the parsed list and the raw scan output. -/
theorem execute_ok_on_wellformed_scan (os : OS) (s : ScanUseCase) (json : JSON)
    (config : ScanConfig) (w : World) (tmp : String) (fs1 fs2 : FS) (out : String)
    (parsed : snykTestOutput)
    (hmk : os.MkdirTemp w.fs = Except.ok tmp)
    (hclone : s.gitClient.Clone config.RepoURL (filepathJoin tmp "repo")
      ((tmp, Node.dir) :: w.fs) = (none, fs1))
    (hman : hasSnykManifest fs1 (filepathJoin tmp "repo") = true)
    (hscan : s.snykScanner.Scan (filepathJoin tmp "repo") fs1 = (Except.ok out, fs2))
    (hjson : json.Unmarshal out = Except.ok parsed) :
    ∃ r, (Execute os s json config w).1 = Except.ok r
      ∧ r.Vulnerabilities = parsed.Vulnerabilities ∧ r.RawJSON = out := by
  rw [Execute_scan_ok os s json config w tmp fs1 fs2 out parsed hmk hclone hman hscan hjson]
  by_cases hm : config.Monitor = true
  · simp only [hm, if_true]
    cases hr : (s.snykScanner.Monitor (filepathJoin tmp "repo") fs2).1 <;> simp
  · simp [hm]

/-- C9 amended, on the two documents of the tests: no vulnerability (`"ok": true`) and
a non-empty list (`"ok": false`). -/
theorem execute_ok_on_wellformed_scan_witness :
    (∃ r, (Execute okOS { snykScanner := cleanScanner, gitClient := demoGit } demoJSON
          { RepoURL := "repo1", Monitor := false } emptyWorld).1 = Except.ok r
        ∧ r.Vulnerabilities = (⟨true, []⟩ : snykTestOutput).Vulnerabilities
        ∧ r.RawJSON = "\x7b\"ok\": true, \"vulnerabilities\": []\x7d")
    ∧ (∃ r, (Execute okOS { snykScanner := twoScanner, gitClient := demoGit } demoJSON
          { RepoURL := "repo1", Monitor := false } emptyWorld).1 = Except.ok r
        ∧ r.Vulnerabilities = (⟨false, [xss, pollution]⟩ : snykTestOutput).Vulnerabilities
        ∧ r.RawJSON = "two") :=
  ⟨execute_ok_on_wellformed_scan okOS { snykScanner := cleanScanner, gitClient := demoGit } demoJSON
      { RepoURL := "repo1", Monitor := false } emptyWorld "/tmp/secscan-0"
      [(filepathJoin (filepathJoin "/tmp/secscan-0" "repo") "go.mod", Node.file "repo1"),
        (filepathJoin "/tmp/secscan-0" "repo", Node.dir), ("/tmp/secscan-0", Node.dir)]
      [(filepathJoin (filepathJoin "/tmp/secscan-0" "repo") "go.mod", Node.file "repo1"),
        (filepathJoin "/tmp/secscan-0" "repo", Node.dir), ("/tmp/secscan-0", Node.dir)]
      "\x7b\"ok\": true, \"vulnerabilities\": []\x7d" ⟨true, []⟩ rfl rfl (by decide) rfl rfl,
    execute_ok_on_wellformed_scan okOS { snykScanner := twoScanner, gitClient := demoGit } demoJSON
      { RepoURL := "repo1", Monitor := false } emptyWorld "/tmp/secscan-0"
      [(filepathJoin (filepathJoin "/tmp/secscan-0" "repo") "go.mod", Node.file "repo1"),
        (filepathJoin "/tmp/secscan-0" "repo", Node.dir), ("/tmp/secscan-0", Node.dir)]
      [(filepathJoin (filepathJoin "/tmp/secscan-0" "repo") "go.mod", Node.file "repo1"),
        (filepathJoin "/tmp/secscan-0" "repo", Node.dir), ("/tmp/secscan-0", Node.dir)]
      "two" ⟨false, [xss, pollution]⟩ rfl rfl (by decide) rfl rfl⟩


/-! ## The worker pool: invariant, progress and termination -/

theorem sum_map_set {M : Type} [AddCommMonoid M] (f : Worker → M) :
    ∀ (ws : List Worker) (i : Nat) (a b : Worker), ws[i]? = some a →
      ((ws.set i b).map f).sum + f a = (ws.map f).sum + f b
  | [], i, a, b, h => by simp at h
  | x :: xs, 0, a, b, h => by
    simp only [List.getElem?_cons_zero, Option.some.injEq] at h
    subst h
    simp only [List.set_cons_zero, List.map_cons, List.sum_cons]
    abel
  | x :: xs, i + 1, a, b, h => by
    simp only [List.getElem?_cons_succ] at h
    have ih := sum_map_set f xs i a b h
    simp only [List.set_cons_succ, List.map_cons, List.sum_cons, add_assoc, ih]

theorem exited_of_mem_set {ws : List Worker} {i : Nat} {b : Worker}
    (h : Worker.exited ∈ ws.set i b) (hb : b ≠ Worker.exited) : Worker.exited ∈ ws := by
  rcases List.mem_or_eq_of_mem_set h with h1 | h1
  · exact h1
  · exact absurd h1.symm hb

theorem set_ne_nil {ws : List Worker} (i : Nat) (b : Worker) (h : ws ≠ []) : ws.set i b ≠ [] := by
  intro h0
  apply h
  have := congrArg List.length h0
  simpa using this

/-- Every move strictly decreases the measure. -/
theorem measure_step (exec : String → World → Except GoError ScanResult × World)
    (out : ScanResult → World → Option GoError × World) (a : Action) (s s1 : Pool)
    (h : poolStep exec out a s = some s1) : s1.measure < s.measure := by
  cases a with
  | push =>
    simp only [poolStep] at h
    split at h
    · cases h
    · rename_i url rest hp
      split at h
      · cases h
        simp [Pool.measure, hp]
        omega
      · cases h
  | close =>
    simp only [poolStep] at h
    split at h
    · rename_i hc
      cases h
      simp only [Bool.and_eq_true, Bool.not_eq_true', List.isEmpty_iff] at hc
      simp [Pool.measure, hc.2]
    · cases h
  | recv i =>
    simp only [poolStep] at h
    split at h
    · rename_i repoURL rest hw hj
      cases h
      have hs := sum_map_set Worker.weight s.workers i Worker.idle (Worker.running repoURL) hw
      simp only [Worker.weight] at hs
      simp only [Pool.measure, hj, List.length_cons]
      omega
    · cases h
  | exec i =>
    simp only [poolStep] at h
    split at h
    · rename_i repoURL hw
      cases h
      have hs := sum_map_set Worker.weight s.workers i (Worker.running repoURL)
        (Worker.sending ⟨repoURL, (exec repoURL s.world).1⟩) hw
      simp only [Worker.weight] at hs
      simp only [Pool.measure]
      omega
    · cases h
  | send i =>
    simp only [poolStep] at h
    split at h
    · rename_i o hw
      split at h
      · cases h
        have hs := sum_map_set Worker.weight s.workers i (Worker.sending o) Worker.idle hw
        simp only [Worker.weight] at hs
        simp only [Pool.measure, List.length_append, List.length_singleton]
        omega
      · cases h
    · cases h
  | exit i =>
    simp only [poolStep] at h
    split at h
    · rename_i hw
      split at h
      · cases h
        have hs := sum_map_set Worker.weight s.workers i Worker.idle Worker.exited hw
        simp only [Worker.weight] at hs
        simp only [Pool.measure]
        omega
      · cases h
    · cases h
  | collect =>
    simp only [poolStep] at h
    split at h
    · split at h
      · cases h
      · rename_i res rest hr
        split at h <;> cases h <;> simp [Pool.measure, hr]
    · cases h

/-- Every move preserves the invariant. -/
theorem inv_step (exec : String → World → Except GoError ScanResult × World)
    (out : ScanResult → World → Option GoError × World) (targets : List String) (a : Action)
    (s s1 : Pool) (hinv : Inv targets s) (h : poolStep exec out a s = some s1) :
    Inv targets s1 := by
  obtain ⟨hn, hload, hclosed, hexit, hworkers⟩ := hinv
  cases a with
  | push =>
    simp only [poolStep] at h
    split at h
    · cases h
    · rename_i url rest hp
      split at h
      · cases h
        have hc : s.closed = false := by
          cases hcl : s.closed
          · rfl
          · have := hclosed hcl
            rw [hp] at this
            cases this
        refine ⟨hn, ?_, ?_, ?_, hworkers⟩
        · rw [← hload]
          simp only [Pool.load, hp, ← Multiset.coe_add, ← Multiset.cons_coe,
            ← Multiset.singleton_add]
          simp only [Multiset.coe_add, ← Multiset.cons_coe, ← Multiset.singleton_add,
            Multiset.coe_nil, add_zero]
          abel
        · intro hcl
          simp only [hc] at hcl
          cases hcl
        · intro hex
          have := (hexit hex).1
          rw [hc] at this
          cases this
      · cases h
  | close =>
    simp only [poolStep] at h
    split at h
    · rename_i hc
      cases h
      simp only [Bool.and_eq_true, Bool.not_eq_true', List.isEmpty_iff] at hc
      refine ⟨hn, hload, fun _ => hc.1, ?_, hworkers⟩
      intro hex
      exact ⟨rfl, (hexit hex).2⟩
    · cases h
  | recv i =>
    simp only [poolStep] at h
    split at h
    · rename_i repoURL rest hw hj
      cases h
      have hs := sum_map_set Worker.load s.workers i Worker.idle (Worker.running repoURL) hw
      simp only [Worker.load, add_zero] at hs
      have hne : Worker.exited ∉ s.workers := by
        intro hex
        have := (hexit hex).2
        rw [hj] at this
        cases this
      refine ⟨hn, ?_, hclosed, ?_, set_ne_nil _ _ hworkers⟩
      · rw [← hload]
        simp only [Pool.load, hj, hs, ← Multiset.cons_coe, ← Multiset.singleton_add]
        abel
      · intro hex
        exact absurd (exited_of_mem_set hex (by simp)) hne
    · cases h
  | exec i =>
    simp only [poolStep] at h
    split at h
    · rename_i repoURL hw
      cases h
      have hs := sum_map_set Worker.load s.workers i (Worker.running repoURL)
        (Worker.sending ⟨repoURL, (exec repoURL s.world).1⟩) hw
      simp only [Worker.load] at hs
      have hs1 := add_right_cancel hs
      refine ⟨hn, ?_, hclosed, ?_, set_ne_nil _ _ hworkers⟩
      · rw [← hload]
        simp only [Pool.load, hs1]
      · intro hex
        exact hexit (exited_of_mem_set hex (by simp))
    · cases h
  | send i =>
    simp only [poolStep] at h
    split at h
    · rename_i o hw
      split at h
      · cases h
        have hs := sum_map_set Worker.load s.workers i (Worker.sending o) Worker.idle hw
        simp only [Worker.load, add_zero] at hs
        refine ⟨hn, ?_, hclosed, ?_, set_ne_nil _ _ hworkers⟩
        · rw [← hload]
          simp only [Pool.load, ← hs, List.map_append, List.map_cons, List.map_nil,
            ← Multiset.coe_add, ← Multiset.cons_coe, ← Multiset.singleton_add]
          simp only [Multiset.coe_add, ← Multiset.cons_coe, ← Multiset.singleton_add,
            Multiset.coe_nil, add_zero]
          abel
        · intro hex
          exact hexit (exited_of_mem_set hex (by simp))
      · cases h
    · cases h
  | exit i =>
    simp only [poolStep] at h
    split at h
    · rename_i hw
      split at h
      · rename_i hc
        cases h
        simp only [Bool.and_eq_true, List.isEmpty_iff] at hc
        have hs := sum_map_set Worker.load s.workers i Worker.idle Worker.exited hw
        simp only [Worker.load, add_zero] at hs
        refine ⟨hn, ?_, hclosed, fun _ => ⟨hc.2, hc.1⟩, set_ne_nil _ _ hworkers⟩
        rw [← hload]
        simp only [Pool.load, hs]
      · cases h
    · cases h
  | collect =>
    simp only [poolStep] at h
    split at h
    · split at h
      · cases h
      · rename_i res rest hr
        have key : ∀ (fe : Option GoError) (wd : World), Inv targets
            ⟨s.n, s.pending, s.closed, s.jobs, s.workers, rest, s.collected ++ [res], fe, wd⟩ := by
          intro fe wd
          refine ⟨hn, ?_, hclosed, hexit, hworkers⟩
          rw [← hload]
          simp only [Pool.load, hr, List.map_append, List.map_cons, List.map_nil]
          simp only [← Multiset.coe_add, ← Multiset.cons_coe, ← Multiset.singleton_add]
          simp only [Multiset.coe_add, ← Multiset.cons_coe, ← Multiset.singleton_add,
            Multiset.coe_nil, add_zero]
          abel
        split at h <;> cases h <;> exact key _ _
    · cases h

theorem inv_card {targets : List String} {s : Pool} (hinv : Inv targets s) :
    s.pending.length + s.jobs.length + Multiset.card (s.workers.map Worker.load).sum
      + s.results.length + s.collected.length = s.n := by
  have h := congrArg Multiset.card hinv.hload
  simp only [Pool.load, Multiset.card_add, Multiset.coe_card, List.length_map] at h
  rw [hinv.hn]
  exact h

/-- No deadlock: as long as the collection loop has not finished, some goroutine can move. -/
theorem progress (exec : String → World → Except GoError ScanResult × World)
    (out : ScanResult → World → Option GoError × World) (targets : List String) (s : Pool)
    (hinv : Inv targets s) (hret : s.returned = false) :
    ∃ a s1, poolStep exec out a s = some s1 := by
  suffices h : ∃ a, (poolStep exec out a s).isSome = true by
    obtain ⟨a, ha⟩ := h
    obtain ⟨s1, hs1⟩ := Option.isSome_iff_exists.mp ha
    exact ⟨a, s1, hs1⟩
  have hcard := inv_card hinv
  cases hp : s.pending with
  | cons url rest =>
    have hlt : s.jobs.length < s.n := by
      rw [hp, List.length_cons] at hcard
      omega
    exact ⟨Action.push, by simp [poolStep, hp, hlt]⟩
  | nil =>
    cases hc : s.closed with
    | false => exact ⟨Action.close, by simp [poolStep, hp, hc]⟩
    | true =>
      have hlt : s.collected.length < s.n := by
        have hne : s.collected.length ≠ s.n := by
          intro heq
          simp [Pool.returned, hc, heq] at hret
        omega
      cases hr : s.results with
      | cons res rest =>
        cases hres : res.Res with
        | error e => exact ⟨Action.collect, by simp [poolStep, hc, hlt, hr, hres]⟩
        | ok r => exact ⟨Action.collect, by simp [poolStep, hc, hlt, hr, hres]⟩
      | nil =>
        have hn0 : 0 < s.n := by omega
        by_cases hsend : ∃ o, Worker.sending o ∈ s.workers
        · obtain ⟨o, ho⟩ := hsend
          obtain ⟨i, hi⟩ := List.mem_iff_getElem?.mp ho
          exact ⟨Action.send i, by simp [poolStep, hi, hr, hn0]⟩
        · by_cases hrun : ∃ u, Worker.running u ∈ s.workers
          · obtain ⟨u, hu⟩ := hrun
            obtain ⟨i, hi⟩ := List.mem_iff_getElem?.mp hu
            exact ⟨Action.exec i, by simp [poolStep, hi]⟩
          · have hz : (s.workers.map Worker.load).sum = 0 := by
              apply List.sum_eq_zero
              intro x hx
              obtain ⟨wk, hwk, rfl⟩ := List.mem_map.mp hx
              cases wk with
              | idle => rfl
              | exited => rfl
              | running u => exact absurd ⟨u, hwk⟩ hrun
              | sending o => exact absurd ⟨o, hwk⟩ hsend
            rw [hz, hp, hr] at hcard
            simp only [List.length_nil, Multiset.card_zero, add_zero, zero_add] at hcard
            cases hj : s.jobs with
            | nil =>
              rw [hj] at hcard
              simp only [List.length_nil, zero_add] at hcard
              omega
            | cons u restj =>
              have hnex : Worker.exited ∉ s.workers := by
                intro hex
                have := (hinv.hexit hex).2
                rw [hj] at this
                cases this
              cases hws : s.workers with
              | nil => exact absurd hws hinv.hworkers
              | cons w0 ws =>
                have hmem : w0 ∈ s.workers := by rw [hws]; exact List.mem_cons_self _ _
                cases w0 with
                | idle => exact ⟨Action.recv 0, by simp [poolStep, hws, hj]⟩
                | exited => exact absurd hmem hnex
                | running u1 => exact absurd ⟨u1, hmem⟩ hrun
                | sending o => exact absurd ⟨o, hmem⟩ hsend

theorem runWith_inv (exec : String → World → Except GoError ScanResult × World)
    (out : ScanResult → World → Option GoError × World) (targets : List String) :
    ∀ (sched : List Action) (s s1 : Pool), Inv targets s → runWith exec out sched s = some s1 →
      Inv targets s1
  | [], s, s1, hinv, h => by
    simp only [runWith, Option.some.injEq] at h
    exact h ▸ hinv
  | a :: rest, s, s1, hinv, h => by
    simp only [runWith] at h
    split at h
    · cases h
    · rename_i s2 hs2
      exact runWith_inv exec out targets rest s2 s1 (inv_step exec out targets a s s2 hinv hs2) h

/-- A schedule is never longer than the measure of the state it starts from. -/
theorem runWith_length (exec : String → World → Except GoError ScanResult × World)
    (out : ScanResult → World → Option GoError × World) :
    ∀ (sched : List Action) (s s1 : Pool), runWith exec out sched s = some s1 →
      sched.length + s1.measure ≤ s.measure
  | [], s, s1, h => by
    simp only [runWith, Option.some.injEq] at h
    simp [h]
  | a :: rest, s, s1, h => by
    simp only [runWith] at h
    split at h
    · cases h
    · rename_i s2 hs2
      have h1 := runWith_length exec out rest s2 s1 h
      have h2 := measure_step exec out a s s2 hs2
      simp only [List.length_cons]
      omega

/-- From every state of a run, some schedule leads to the return of the collection loop. -/
theorem runWith_complete (exec : String → World → Except GoError ScanResult × World)
    (out : ScanResult → World → Option GoError × World) (targets : List String) :
    ∀ (m : Nat) (s : Pool), s.measure ≤ m → Inv targets s →
      ∃ sched s1, runWith exec out sched s = some s1 ∧ s1.returned = true
  | 0, s, hm, hinv => by
    cases hret : s.returned with
    | true => exact ⟨[], s, rfl, hret⟩
    | false =>
      obtain ⟨a, s1, hs1⟩ := progress exec out targets s hinv hret
      have := measure_step exec out a s s1 hs1
      omega
  | m + 1, s, hm, hinv => by
    cases hret : s.returned with
    | true => exact ⟨[], s, rfl, hret⟩
    | false =>
      obtain ⟨a, s1, hs1⟩ := progress exec out targets s hinv hret
      have hlt := measure_step exec out a s s1 hs1
      obtain ⟨sched, s2, hrun, hr2⟩ := runWith_complete exec out targets m s1 (by omega)
        (inv_step exec out targets a s s1 hinv hs1)
      exact ⟨a :: sched, s2, by simp [runWith, hs1, hrun], hr2⟩

/-- At the return of the collection loop every target has been received exactly once. -/
theorem returned_perm {targets : List String} {s : Pool} (hinv : Inv targets s)
    (hret : s.returned = true) :
    s.collected.length = targets.length ∧ (s.collected.map Outcome.Repo).Perm targets := by
  have hcard := inv_card hinv
  simp only [Pool.returned, Bool.and_eq_true, beq_iff_eq] at hret
  have hlen : s.collected.length = s.n := hret.2
  have hp : s.pending = [] := List.length_eq_zero.mp (by omega)
  have hj : s.jobs = [] := List.length_eq_zero.mp (by omega)
  have hr : s.results = [] := List.length_eq_zero.mp (by omega)
  have hw : (s.workers.map Worker.load).sum = 0 := Multiset.card_eq_zero.mp (by omega)
  have hload := hinv.hload
  simp only [Pool.load, hp, hj, hr, hw, List.map_nil, Multiset.coe_nil, add_zero, zero_add]
    at hload
  exact ⟨hlen.trans hinv.hn, Multiset.coe_eq_coe.mp hload⟩

/-- The pool as `RunE` starts it on a non-empty list. -/
theorem startPool_ok (repoURLs : List String) (numWorkers : Int) (usecase : ScanUseCase)
    (w : World) (hne : repoURLs ≠ []) :
    ∃ s0, startPool repoURLs numWorkers (some usecase) w = Except.ok s0
      ∧ Inv repoURLs s0 ∧ s0.measure ≤ 7 * repoURLs.length + 1
      ∧ s0.collected = [] ∧ s0.finalError = none := by
  have hlen : 1 ≤ repoURLs.length := List.length_pos.mpr hne
  obtain ⟨hb1, hb2⟩ := clampWorkers_bounds numWorkers repoURLs.length hlen
  have hs := startPool_eq repoURLs numWorkers usecase w hne
  have h1 : 1 ≤ ((List.range' 1 (clampWorkers numWorkers repoURLs.length).toNat).map
      (fun _ => Worker.idle)).length := by
    simp only [List.length_map, List.length_range']
    omega
  have h2 : ((List.range' 1 (clampWorkers numWorkers repoURLs.length).toNat).map
      (fun _ => Worker.idle)).length ≤ repoURLs.length := by
    simp only [List.length_map, List.length_range']
    omega
  refine ⟨_, hs, ⟨rfl, ?_, ?_, ?_, ?_⟩, ?_, rfl, rfl⟩
  · have hz : ((List.map (fun _ => Worker.idle)
        (List.range' 1 (clampWorkers numWorkers repoURLs.length).toNat)).map Worker.load).sum
        = 0 := by
      apply List.sum_eq_zero
      intro x hx
      simp only [List.map_map, List.mem_map] at hx
      obtain ⟨_, _, rfl⟩ := hx
      rfl
    simp only [Pool.load, hz, List.map_nil, Multiset.coe_nil, add_zero]
  · intro hc
    cases hc
  · intro hex
    simp only [List.mem_map] at hex
    obtain ⟨_, _, hx⟩ := hex
    cases hx
  · intro h0
    have h5 := congrArg List.length h0
    simp only [List.length_nil] at h5
    omega
  · have hwt : ((List.map (fun _ => Worker.idle)
        (List.range' 1 (clampWorkers numWorkers repoURLs.length).toNat)).map Worker.weight).sum
        = (List.map (fun _ => Worker.idle)
          (List.range' 1 (clampWorkers numWorkers repoURLs.length).toNat)).length := by
      generalize List.range' 1 (clampWorkers numWorkers repoURLs.length).toNat = l
      induction l with
      | nil => rfl
      | cons x xs ih =>
        simp only [List.map_cons, List.sum_cons, List.length_cons, Worker.weight] at ih ⊢
        omega
    simp only [Pool.measure, hwt]
    simp only [List.length_nil, Bool.false_eq_true, if_false] at h2 ⊢
    omega


/-- C1. For a non-empty target list and any requested worker count, `RunE` starts the
pool, every schedule of the pool is finite, the pool cannot block before the collection
loop has finished, some schedule does finish it, and at its end the loop has received
exactly `len(targets)` outcomes whose `Repo` fields are the targets, each as often as
it was given. -/
theorem pool_completeness (c : Invocation) (repoURLs : List String) (numWorkers : Int)
    (usecase : ScanUseCase) (w : World) (hne : repoURLs ≠ []) :
    ∃ s0, startPool repoURLs numWorkers (some usecase) w = Except.ok s0
      ∧ (∀ sched s, run c sched s0 = some s → sched.length ≤ 7 * repoURLs.length + 1)
      ∧ (∀ sched s, run c sched s0 = some s → s.returned = false →
          ∃ a s1, step c a s = some s1)
      ∧ (∃ sched s, run c sched s0 = some s ∧ s.returned = true)
      ∧ (∀ sched s, run c sched s0 = some s → s.returned = true →
          s.collected.length = repoURLs.length
            ∧ (s.collected.map Outcome.Repo).Perm repoURLs) := by
  obtain ⟨s0, hs0, hinv, hm, _, _⟩ := startPool_ok repoURLs numWorkers usecase w hne
  refine ⟨s0, hs0, ?_, ?_, ?_, ?_⟩
  · intro sched s hrun
    have := runWith_length _ _ sched s0 s hrun
    omega
  · intro sched s hrun hret
    exact progress _ _ repoURLs s (runWith_inv _ _ repoURLs sched s0 s hinv hrun) hret
  · exact runWith_complete _ _ repoURLs s0.measure s0 (le_refl _) hinv
  · intro sched s hrun hret
    exact returned_perm (runWith_inv _ _ repoURLs sched s0 s hinv hrun) hret

/-- C1, on three targets with two workers requested. -/
theorem pool_completeness_witness :
    ∃ s0, startPool demoTargets 2
        (some { snykScanner := twoScanner, gitClient := demoGit }) emptyWorld = Except.ok s0
      ∧ (∀ sched s, run demoInvocation sched s0 = some s → sched.length ≤ 7 * demoTargets.length + 1)
      ∧ (∀ sched s, run demoInvocation sched s0 = some s → s.returned = false →
          ∃ a s1, step demoInvocation a s = some s1)
      ∧ (∃ sched s, run demoInvocation sched s0 = some s ∧ s.returned = true)
      ∧ (∀ sched s, run demoInvocation sched s0 = some s → s.returned = true →
          s.collected.length = demoTargets.length
            ∧ (s.collected.map Outcome.Repo).Perm demoTargets) :=
  pool_completeness demoInvocation demoTargets 2 { snykScanner := twoScanner, gitClient := demoGit }
    emptyWorld (by decide)

/-- The example schedule is a run of `RunE` up to its return, and `RunE` returns the
batch error. -/
theorem demo_run_returns :
    startPool demoTargets 2 (some { snykScanner := twoScanner, gitClient := demoGit }) emptyWorld
        = Except.ok demoStart
      ∧ run demoInvocation demoSchedule demoStart = some demoFinal
      ∧ demoFinal.returned = true
      ∧ demoFinal.collected.map Outcome.Repo = ["repo2", "repo1", "repo3"]
      ∧ RunE demoInvocation demoTargets 2 (some { snykScanner := twoScanner, gitClient := demoGit })
          emptyWorld demoSchedule = some (some (GoError.plain "um ou mais scans falharam")) :=
  ⟨rfl, rfl, rfl, rfl, rfl⟩

/-- A property that holds of every result of the pipeline holds of every outcome in
the pool, move after move. -/
theorem outcomes_step (exec : String → World → Except GoError ScanResult × World)
    (out : ScanResult → World → Option GoError × World) (P : Outcome → Prop)
    (hP : ∀ u w, P ⟨u, (exec u w).1⟩) (a : Action) (s s1 : Pool)
    (hs : OutcomesSatisfy P s) (h : poolStep exec out a s = some s1) : OutcomesSatisfy P s1 := by
  obtain ⟨hw, hr, hc⟩ := hs
  cases a with
  | push =>
    simp only [poolStep] at h
    split at h
    · cases h
    · split at h
      · cases h; exact ⟨hw, hr, hc⟩
      · cases h
  | close =>
    simp only [poolStep] at h
    split at h
    · cases h; exact ⟨hw, hr, hc⟩
    · cases h
  | recv i =>
    simp only [poolStep] at h
    split at h
    · cases h
      refine ⟨?_, hr, hc⟩
      intro o ho
      rcases List.mem_or_eq_of_mem_set ho with h1 | h1
      · exact hw o h1
      · cases h1
    · cases h
  | exec i =>
    simp only [poolStep] at h
    split at h
    · cases h
      refine ⟨?_, hr, hc⟩
      intro o ho
      rcases List.mem_or_eq_of_mem_set ho with h1 | h1
      · exact hw o h1
      · cases h1
        exact hP _ _
    · cases h
  | send i =>
    simp only [poolStep] at h
    split at h
    · rename_i o hi
      split at h
      · cases h
        refine ⟨?_, ?_, hc⟩
        · intro o1 ho
          rcases List.mem_or_eq_of_mem_set ho with h1 | h1
          · exact hw o1 h1
          · cases h1
        · intro o1 ho
          rcases List.mem_append.mp ho with h1 | h1
          · exact hr o1 h1
          · rw [List.mem_singleton] at h1
            subst h1
            exact hw _ (List.mem_iff_getElem?.mpr ⟨i, hi⟩)
      · cases h
    · cases h
  | exit i =>
    simp only [poolStep] at h
    split at h
    · split at h
      · cases h
        refine ⟨?_, hr, hc⟩
        intro o ho
        rcases List.mem_or_eq_of_mem_set ho with h1 | h1
        · exact hw o h1
        · cases h1
      · cases h
    · cases h
  | collect =>
    simp only [poolStep] at h
    split at h
    · split at h
      · cases h
      · rename_i res rest hres
        have key : ∀ (fe : Option GoError) (wd : World), OutcomesSatisfy P
            ⟨s.n, s.pending, s.closed, s.jobs, s.workers, rest, s.collected ++ [res], fe, wd⟩ := by
          intro fe wd
          refine ⟨hw, ?_, ?_⟩
          · intro o ho
            exact hr o (by rw [hres]; exact List.mem_cons_of_mem _ ho)
          · intro o ho
            rcases List.mem_append.mp ho with h1 | h1
            · exact hc o h1
            · rw [List.mem_singleton] at h1
              subst h1
              exact hr _ (by rw [hres]; exact List.mem_cons_self _ _)
        split at h <;> cases h <;> exact key _ _
    · cases h

theorem outcomes_run (exec : String → World → Except GoError ScanResult × World)
    (out : ScanResult → World → Option GoError × World) (P : Outcome → Prop)
    (hP : ∀ u w, P ⟨u, (exec u w).1⟩) :
    ∀ (sched : List Action) (s s1 : Pool), OutcomesSatisfy P s →
      runWith exec out sched s = some s1 → OutcomesSatisfy P s1
  | [], s, s1, hs, h => by
    simp only [runWith, Option.some.injEq] at h
    exact h ▸ hs
  | a :: rest, s, s1, hs, h => by
    simp only [runWith] at h
    split at h
    · cases h
    · rename_i s2 hs2
      exact outcomes_run exec out P hP rest s2 s1 (outcomes_step exec out P hP a s s2 hs hs2) h

theorem outcomes_start (P : Outcome → Prop) (repoURLs : List String) (numWorkers : Int)
    (usecase : ScanUseCase) (w : World) (s0 : Pool)
    (h : startPool repoURLs numWorkers (some usecase) w = Except.ok s0) :
    OutcomesSatisfy P s0 := by
  unfold startPool at h
  split at h
  · cases h
  · simp only [Except.ok.injEq] at h
    subst h
    refine ⟨?_, ?_, ?_⟩
    · intro o ho
      simp only [List.mem_map] at ho
      obtain ⟨_, _, hx⟩ := ho
      cases hx
    · intro o ho
      cases ho
    · intro o ho
      cases ho

theorem runWith_append (exec : String → World → Except GoError ScanResult × World)
    (out : ScanResult → World → Option GoError × World) :
    ∀ (sched1 sched2 : List Action) (s s1 s2 : Pool), runWith exec out sched1 s = some s1 →
      runWith exec out sched2 s1 = some s2 → runWith exec out (sched1 ++ sched2) s = some s2
  | [], sched2, s, s1, s2, h1, h2 => by
    simp only [runWith, Option.some.injEq] at h1
    subst h1
    exact h2
  | a :: rest, sched2, s, s1, s2, h1, h2 => by
    simp only [runWith, List.cons_append] at h1 ⊢
    split at h1
    · cases h1
    · rename_i s3 hs3
      exact runWith_append exec out rest sched2 s3 s1 s2 h1 h2

/-- C2. In the pool of `scanMonitor` no outcome stops the others: every schedule is
finite, in every state reached before the collection loop has returned (whatever the
outcomes already produced or received, failures included) some goroutine can move,
and every run can be continued up to the return of the loop.  At that return every
target has its outcome, which is a result of `Execute` on that very target; and when
the result of `Execute` on a target is a function `f` of the target alone, the
outcomes received are exactly the pairs `(t, f t)` for the targets `t`, each target
keeping its own result whatever the results of the others. -/
theorem pool_non_fail_fast (c : Invocation) (repoURLs : List String) (numWorkers : Int)
    (usecase : ScanUseCase) (w : World) (f : String → Except GoError ScanResult)
    (hne : repoURLs ≠ []) :
    ∃ s0, startPool repoURLs numWorkers (some usecase) w = Except.ok s0
      ∧ (∀ sched s, run c sched s0 = some s → sched.length ≤ 7 * repoURLs.length + 1)
      ∧ (∀ sched s, run c sched s0 = some s → s.returned = false →
          ∃ a s1, step c a s = some s1)
      ∧ (∀ sched s, run c sched s0 = some s →
          ∃ sched2 s2, run c (sched ++ sched2) s0 = some s2 ∧ s2.returned = true)
      ∧ (∀ sched s, run c sched s0 = some s → s.returned = true →
          (s.collected.map Outcome.Repo).Perm repoURLs
            ∧ ∀ o ∈ s.collected, ∃ w1, o.Res = (workerExecute c o.Repo w1).1)
      ∧ ((∀ u w1, (workerExecute c u w1).1 = f u) →
          ∀ sched s, run c sched s0 = some s → s.returned = true →
            s.collected.Perm (repoURLs.map (fun u => (⟨u, f u⟩ : Outcome)))) := by
  obtain ⟨s0, hs0, hinv, hm, _, _⟩ := startPool_ok repoURLs numWorkers usecase w hne
  refine ⟨s0, hs0, ?_, ?_, ?_, ?_, ?_⟩
  · intro sched s hrun
    have := runWith_length _ _ sched s0 s hrun
    omega
  · intro sched s hrun hret
    exact progress _ _ repoURLs s (runWith_inv _ _ repoURLs sched s0 s hinv hrun) hret
  · intro sched s hrun
    obtain ⟨sched2, s2, hrun2, hret2⟩ := runWith_complete (workerExecute c) (mainOutput c)
      repoURLs s.measure s (le_refl _) (runWith_inv _ _ repoURLs sched s0 s hinv hrun)
    exact ⟨sched2, s2, runWith_append _ _ sched sched2 s0 s s2 hrun hrun2, hret2⟩
  · intro sched s hrun hret
    have h := outcomes_run (workerExecute c) (mainOutput c)
      (fun o => ∃ w1, o.Res = (workerExecute c o.Repo w1).1) (fun u w1 => ⟨w1, rfl⟩)
      sched s0 s (outcomes_start _ repoURLs numWorkers usecase w s0 hs0) hrun
    exact ⟨(returned_perm (runWith_inv _ _ repoURLs sched s0 s hinv hrun) hret).2, h.2.2⟩
  · intro hf sched s hrun hret
    have h := outcomes_run (workerExecute c) (mainOutput c)
      (fun o => o.Res = f o.Repo) (fun u w1 => hf u w1)
      sched s0 s (outcomes_start _ repoURLs numWorkers usecase w s0 hs0) hrun
    have hperm := (returned_perm (runWith_inv _ _ repoURLs sched s0 s hinv hrun) hret).2
    have hmap : s.collected
        = (s.collected.map Outcome.Repo).map (fun u => (⟨u, f u⟩ : Outcome)) := by
      rw [List.map_map]
      conv_lhs => rw [← List.map_id s.collected]
      apply List.map_congr_left
      intro o ho
      have h1 := h.2.2 o ho
      cases o with
      | mk repo res =>
        simp only [Function.comp, id]
        simp only at h1
        rw [h1]
    rw [hmap]
    exact hperm.map _

theorem demoInvocation_result (u : String) (w1 : World) :
    (workerExecute demoInvocation u w1).1 = demoResult u := by
  by_cases hu : u = "repo2"
  · subst hu
    simp [workerExecute, demoInvocation, Execute, okOS, executeBody, callClone, demoGit,
      demoResult]
  · simp [workerExecute, demoInvocation, Execute, okOS, executeBody, callClone, demoGit,
      demoResult, hu, hasSnykManifest, hasSnykManifestLoop, manifests, FS.statOk, callScan,
      twoScanner, demoJSON, xss, pollution]

/-- C2, on the example of the specification: three targets, the clone of the second
fails.  The example schedule is a run up to the return of the collection loop in which
the failure of `repo2` is received first; the loop goes on, and `repo1` and `repo3` are
recorded as successes with their two findings. -/
theorem pool_non_fail_fast_witness :
    startPool demoTargets 2 (some { snykScanner := twoScanner, gitClient := demoGit }) emptyWorld
        = Except.ok demoStart
      ∧ run demoInvocation demoSchedule demoStart = some demoFinal
      ∧ demoFinal.returned = true
      ∧ demoFinal.collected.map (fun o => (o.Repo, o.failed))
          = [("repo2", true), ("repo1", false), ("repo3", false)]
      ∧ demoFinal.collected.Perm
          [⟨"repo1", Except.ok
              { Vulnerabilities := [xss, pollution], RawJSON := "two", MonitorOutput := "" }⟩,
           ⟨"repo2", Except.error (Errorf "falha ao clonar repositório 'repo2': "
              (GoError.plain "falha de autenticação"))⟩,
           ⟨"repo3", Except.ok
              { Vulnerabilities := [xss, pollution], RawJSON := "two", MonitorOutput := "" }⟩]
      ∧ (∀ sched s, run demoInvocation sched demoStart = some s → s.returned = false →
          ∃ a s1, step demoInvocation a s = some s1)
      ∧ (∀ sched s, run demoInvocation sched demoStart = some s →
          ∃ sched2 s2, run demoInvocation (sched ++ sched2) demoStart = some s2
            ∧ s2.returned = true) := by
  obtain ⟨s0, h0, _, h2, h3, _, h5⟩ := pool_non_fail_fast demoInvocation demoTargets 2
    { snykScanner := twoScanner, gitClient := demoGit } emptyWorld demoResult (by decide)
  have hd : startPool demoTargets 2 (some { snykScanner := twoScanner, gitClient := demoGit })
      emptyWorld = Except.ok demoStart := rfl
  have hs : s0 = demoStart := by
    rw [hd] at h0
    exact (Except.ok.inj h0).symm
  subst hs
  exact ⟨rfl, rfl, rfl, by decide, h5 demoInvocation_result demoSchedule demoFinal rfl rfl,
    h2, h3⟩

/-- One move preserves the status invariant when the output it makes, if any, succeeds. -/
theorem status_step (exec : String → World → Except GoError ScanResult × World)
    (out : ScanResult → World → Option GoError × World) (a : Action) (s s1 : Pool)
    (hs : StatusInv s) (h : poolStep exec out a s = some s1)
    (hok : outputsOk exec out [a] s = true) : StatusInv s1 := by
  unfold StatusInv at hs ⊢
  cases a with
  | push =>
    simp only [poolStep] at h
    split at h
    · cases h
    · split at h
      · cases h; exact hs
      · cases h
  | close =>
    simp only [poolStep] at h
    split at h
    · cases h; exact hs
    · cases h
  | recv i =>
    simp only [poolStep] at h
    split at h
    · cases h; exact hs
    · cases h
  | exec i =>
    simp only [poolStep] at h
    split at h
    · cases h; exact hs
    · cases h
  | send i =>
    simp only [poolStep] at h
    split at h
    · split at h
      · cases h; exact hs
      · cases h
    · cases h
  | exit i =>
    simp only [poolStep] at h
    split at h
    · split at h
      · cases h; exact hs
      · cases h
    · cases h
  | collect =>
    simp only [poolStep] at h
    split at h
    · split at h
      · cases h
      · rename_i res rest hres
        simp only [outputsOk, hres, Bool.and_eq_true] at hok
        cases hr : res.Res with
        | error e =>
          simp only [hr] at h
          cases h
          constructor
          · intro _
            exact ⟨res, List.mem_append_right _ (List.mem_singleton_self _),
              by simp [Outcome.failed, hr]⟩
          · intro _
            simp
        | ok result =>
          simp only [hr] at h hok
          have hnone : (out result s.world).1 = none := by
            have := hok.1
            cases hx : (out result s.world).1 with
            | none => rfl
            | some e => simp [hx] at this
          simp only [hnone] at h
          cases h
          have hnf : res.failed = false := by simp [Outcome.failed, hr]
          constructor
          · intro hfe
            obtain ⟨o, ho, hof⟩ := hs.mp hfe
            exact ⟨o, List.mem_append_left _ ho, hof⟩
          · rintro ⟨o, ho, hof⟩
            rcases List.mem_append.mp ho with h1 | h1
            · exact hs.mpr ⟨o, h1, hof⟩
            · rw [List.mem_singleton] at h1
              subst h1
              rw [hnf] at hof
              cases hof
    · cases h

theorem status_run (exec : String → World → Except GoError ScanResult × World)
    (out : ScanResult → World → Option GoError × World) :
    ∀ (sched : List Action) (s s1 : Pool), StatusInv s → runWith exec out sched s = some s1 →
      outputsOk exec out sched s = true → StatusInv s1
  | [], s, s1, hs, h, _ => by
    simp only [runWith, Option.some.injEq] at h
    exact h ▸ hs
  | a :: rest, s, s1, hs, h, hok => by
    simp only [runWith] at h
    split at h
    · cases h
    · rename_i s2 hs2
      have hok1 : outputsOk exec out [a] s = true := by
        simp only [outputsOk, hs2, Bool.and_eq_true] at hok ⊢
        exact ⟨hok.1, trivial⟩
      have hok2 : outputsOk exec out rest s2 = true := by
        simp only [outputsOk, hs2, Bool.and_eq_true] at hok
        exact hok.2
      exact status_run exec out rest s2 s1 (status_step exec out a s s2 hs hs2 hok1) h hok2

/-- C3. On a run of the pool of `scanMonitor` up to the return of `RunE` in which
every call of `formatAndOutput` returns nil, `RunE` returns a non-nil error if and only
if one of the `len(targets)` outcomes received is a failure, and nil if and only if
all of them are successes. -/
theorem batch_status (c : Invocation) (repoURLs : List String) (numWorkers : Int)
    (usecase : ScanUseCase) (w : World) (sched : List Action) (s0 s : Pool)
    (hstart : startPool repoURLs numWorkers (some usecase) w = Except.ok s0)
    (hrun : run c sched s0 = some s) (hret : s.returned = true)
    (hout : outputsOk (workerExecute c) (mainOutput c) sched s0 = true) :
    RunE c repoURLs numWorkers (some usecase) w sched = some s.finalError
      ∧ s.collected.length = repoURLs.length
      ∧ (s.finalError ≠ none ↔ ∃ o ∈ s.collected, o.failed = true)
      ∧ (s.finalError = none ↔ ∀ o ∈ s.collected, o.failed = false) := by
  have hne : repoURLs ≠ [] := by
    intro h0
    subst h0
    simp [startPool] at hstart
  obtain ⟨s0', hs0, hinv, _, hc0, hf0⟩ := startPool_ok repoURLs numWorkers usecase w hne
  rw [hstart] at hs0
  cases hs0
  have hst0 : StatusInv s0 := by
    unfold StatusInv
    rw [hc0, hf0]
    simp
  have hst := status_run _ _ sched s0 s hst0 hrun hout
  unfold StatusInv at hst
  refine ⟨?_, (returned_perm (runWith_inv _ _ repoURLs sched s0 s hinv hrun) hret).1, hst, ?_⟩
  · simp [RunE, hstart, hrun, hret]
  · constructor
    · intro hnone o ho
      cases hof : o.failed with
      | false => rfl
      | true => exact absurd hnone (hst.mpr ⟨o, ho, hof⟩)
    · intro hall
      by_contra hne1
      obtain ⟨o, ho, hof⟩ := hst.mp hne1
      rw [hall o ho] at hof
      cases hof

/-- C3, on the example run: text output on the standard output never fails, the
second target fails, and `RunE` returns the batch error. -/
theorem batch_status_witness :
    RunE demoInvocation demoTargets 2 (some { snykScanner := twoScanner, gitClient := demoGit })
        emptyWorld demoSchedule = some demoFinal.finalError
      ∧ demoFinal.collected.length = demoTargets.length
      ∧ (demoFinal.finalError ≠ none ↔ ∃ o ∈ demoFinal.collected, o.failed = true)
      ∧ (demoFinal.finalError = none ↔ ∀ o ∈ demoFinal.collected, o.failed = false) :=
  batch_status demoInvocation demoTargets 2 { snykScanner := twoScanner, gitClient := demoGit }
    emptyWorld demoSchedule demoStart demoFinal rfl rfl rfl rfl


/-! ## The failure taxonomy and the release of the workspace -/

theorem Execute_mkdir_error (os : OS) (s : ScanUseCase) (json : JSON) (config : ScanConfig)
    (w : World) (e : GoError) (hmk : os.MkdirTemp w.fs = Except.error e) :
    Execute os s json config w
      = (Except.error (Errorf "falha ao criar diretório temporário: " e), w) := by
  simp [Execute, hmk]

/-- The result and the call log of `Execute` when the scan output does not parse. -/
theorem Execute_parse_error (os : OS) (s : ScanUseCase) (json : JSON) (config : ScanConfig)
    (w : World) (tmp : String) (fs1 fs2 : FS) (out : String) (e : GoError)
    (hmk : os.MkdirTemp w.fs = Except.ok tmp)
    (hclone : s.gitClient.Clone config.RepoURL (filepathJoin tmp "repo")
      ((tmp, Node.dir) :: w.fs) = (none, fs1))
    (hman : hasSnykManifest fs1 (filepathJoin tmp "repo") = true)
    (hscan : s.snykScanner.Scan (filepathJoin tmp "repo") fs1 = (Except.ok out, fs2))
    (hjson : json.Unmarshal out = Except.error e) :
    (Execute os s json config w).1
        = Except.error (Errorf "falha ao processar o JSON do Snyk: " e)
      ∧ (Execute os s json config w).2.calls
        = w.calls ++ [Call.Clone config.RepoURL (filepathJoin tmp "repo"),
            Call.Scan (filepathJoin tmp "repo")] := by
  simp [Execute, hmk, executeBody, callClone, hclone, hman, callScan, hscan, hjson]

/-- Success of `Execute` is success of the steps before the monitor step. -/
theorem Execute_ok_iff (os : OS) (s : ScanUseCase) (json : JSON) (config : ScanConfig)
    (w : World) :
    (∃ r, (Execute os s json config w).1 = Except.ok r)
      ↔ StepsSucceed os s.gitClient s.snykScanner.Scan json config.RepoURL w := by
  constructor
  · rintro ⟨r, hr⟩
    cases hmk : os.MkdirTemp w.fs with
    | error e =>
      rw [Execute_mkdir_error os s json config w e hmk] at hr
      cases hr
    | ok tmp =>
      cases hcl : s.gitClient.Clone config.RepoURL (filepathJoin tmp "repo")
          ((tmp, Node.dir) :: w.fs) with
      | mk ce fs1 =>
        cases ce with
        | some e =>
          rw [(Execute_clone_error os s json config w tmp e hmk (by rw [hcl])).1] at hr
          cases hr
        | none =>
          cases hman : hasSnykManifest fs1 (filepathJoin tmp "repo") with
          | false =>
            rw [(Execute_no_manifest os s json config w tmp fs1 hmk hcl hman).1] at hr
            cases hr
          | true =>
            cases hsc : s.snykScanner.Scan (filepathJoin tmp "repo") fs1 with
            | mk se fs2 =>
              cases se with
              | error e =>
                rw [(Execute_scan_error os s json config w tmp fs1 fs2 e hmk hcl hman hsc).1] at hr
                cases hr
              | ok out =>
                cases hj : json.Unmarshal out with
                | error e =>
                  rw [(Execute_parse_error os s json config w tmp fs1 fs2 out e hmk hcl hman hsc
                    hj).1] at hr
                  cases hr
                | ok parsed => exact ⟨tmp, fs1, fs2, out, parsed, hmk, hcl, hman, hsc, hj⟩
  · rintro ⟨tmp, fs1, fs2, out, parsed, hmk, hcl, hman, hsc, hj⟩
    rw [Execute_scan_ok os s json config w tmp fs1 fs2 out parsed hmk hcl hman hsc hj]
    by_cases hm : config.Monitor = true
    · simp only [hm, if_true]
      cases hr : (s.snykScanner.Monitor (filepathJoin tmp "repo") fs2).1 <;> simp
    · simp [hm]

/-- C11. `Execute` returns a success exactly when the creation of the workspace, the
clone, the manifest check, the scan and the parsing of its output all succeed; this
does not depend on the monitor flag nor on what `Monitor` does.  A scan error and
an unparseable scan output each end the pipeline with an error that wraps the cause
(`errors.Is`), after the port calls `Clone` and `Scan` only: `Monitor` is not invoked. -/
theorem failure_taxonomy (os : OS) (s : ScanUseCase) (json : JSON) (config : ScanConfig)
    (w : World) :
    ((∃ r, (Execute os s json config w).1 = Except.ok r)
        ↔ StepsSucceed os s.gitClient s.snykScanner.Scan json config.RepoURL w)
    ∧ (∀ (monitor : String → FS → Except GoError String × FS) (flag : Bool),
        (∃ r, (Execute os ⟨⟨s.snykScanner.Scan, monitor⟩, s.gitClient⟩ json
              ⟨config.RepoURL, flag⟩ w).1 = Except.ok r)
          ↔ (∃ r, (Execute os s json config w).1 = Except.ok r))
    ∧ (∀ tmp fs1 fs2 e,
        os.MkdirTemp w.fs = Except.ok tmp →
        s.gitClient.Clone config.RepoURL (filepathJoin tmp "repo") ((tmp, Node.dir) :: w.fs)
          = (none, fs1) →
        hasSnykManifest fs1 (filepathJoin tmp "repo") = true →
        s.snykScanner.Scan (filepathJoin tmp "repo") fs1 = (Except.error e, fs2) →
        ∃ err, (Execute os s json config w).1 = Except.error err ∧ err.Is e = true
          ∧ (Execute os s json config w).2.calls
            = w.calls ++ [Call.Clone config.RepoURL (filepathJoin tmp "repo"),
                Call.Scan (filepathJoin tmp "repo")])
    ∧ (∀ tmp fs1 fs2 out e,
        os.MkdirTemp w.fs = Except.ok tmp →
        s.gitClient.Clone config.RepoURL (filepathJoin tmp "repo") ((tmp, Node.dir) :: w.fs)
          = (none, fs1) →
        hasSnykManifest fs1 (filepathJoin tmp "repo") = true →
        s.snykScanner.Scan (filepathJoin tmp "repo") fs1 = (Except.ok out, fs2) →
        json.Unmarshal out = Except.error e →
        ∃ err, (Execute os s json config w).1 = Except.error err ∧ err.Is e = true
          ∧ (Execute os s json config w).2.calls
            = w.calls ++ [Call.Clone config.RepoURL (filepathJoin tmp "repo"),
                Call.Scan (filepathJoin tmp "repo")]) := by
  refine ⟨Execute_ok_iff os s json config w, ?_, ?_, ?_⟩
  · intro monitor flag
    rw [Execute_ok_iff, Execute_ok_iff]
  · intro tmp fs1 fs2 e hmk hcl hman hsc
    obtain ⟨h1, h2⟩ := Execute_scan_error os s json config w tmp fs1 fs2 e hmk hcl hman hsc
    exact ⟨_, h1, Is_Errorf _ e, h2⟩
  · intro tmp fs1 fs2 out e hmk hcl hman hsc hj
    obtain ⟨h1, h2⟩ := Execute_parse_error os s json config w tmp fs1 fs2 out e hmk hcl hman hsc hj
    exact ⟨_, h1, Is_Errorf _ e, h2⟩

/-- C11, on a scan that fails (with monitor requested) and on a scan whose output is
not JSON: both end in an error wrapping the cause, and `Monitor` is not called. -/
theorem failure_taxonomy_witness :
    (∃ err, (Execute okOS { snykScanner := oldScanner, gitClient := demoGit } demoJSON
          { RepoURL := "repo1", Monitor := true } emptyWorld).1 = Except.error err
        ∧ err.Is (GoError.plain "falha ao executar snyk test: Unknown command \"test\"") = true
        ∧ (Execute okOS { snykScanner := oldScanner, gitClient := demoGit } demoJSON
            { RepoURL := "repo1", Monitor := true } emptyWorld).2.calls
          = emptyWorld.calls ++ [Call.Clone "repo1" (filepathJoin "/tmp/secscan-0" "repo"),
              Call.Scan (filepathJoin "/tmp/secscan-0" "repo")])
    ∧ (∃ err, (Execute okOS { snykScanner := garbageScanner, gitClient := demoGit } demoJSON
          { RepoURL := "repo1", Monitor := true } emptyWorld).1 = Except.error err
        ∧ err.Is (GoError.plain "invalid character") = true
        ∧ (Execute okOS { snykScanner := garbageScanner, gitClient := demoGit } demoJSON
            { RepoURL := "repo1", Monitor := true } emptyWorld).2.calls
          = emptyWorld.calls ++ [Call.Clone "repo1" (filepathJoin "/tmp/secscan-0" "repo"),
              Call.Scan (filepathJoin "/tmp/secscan-0" "repo")]) :=
  ⟨(failure_taxonomy okOS { snykScanner := oldScanner, gitClient := demoGit } demoJSON
      { RepoURL := "repo1", Monitor := true } emptyWorld).2.2.1 "/tmp/secscan-0"
      [(filepathJoin (filepathJoin "/tmp/secscan-0" "repo") "go.mod", Node.file "repo1"),
        (filepathJoin "/tmp/secscan-0" "repo", Node.dir), ("/tmp/secscan-0", Node.dir)]
      [(filepathJoin (filepathJoin "/tmp/secscan-0" "repo") "go.mod", Node.file "repo1"),
        (filepathJoin "/tmp/secscan-0" "repo", Node.dir), ("/tmp/secscan-0", Node.dir)]
      (GoError.plain "falha ao executar snyk test: Unknown command \"test\"")
      rfl rfl (by decide) rfl,
    (failure_taxonomy okOS { snykScanner := garbageScanner, gitClient := demoGit } demoJSON
      { RepoURL := "repo1", Monitor := true } emptyWorld).2.2.2 "/tmp/secscan-0"
      [(filepathJoin (filepathJoin "/tmp/secscan-0" "repo") "go.mod", Node.file "repo1"),
        (filepathJoin "/tmp/secscan-0" "repo", Node.dir), ("/tmp/secscan-0", Node.dir)]
      [(filepathJoin (filepathJoin "/tmp/secscan-0" "repo") "go.mod", Node.file "repo1"),
        (filepathJoin "/tmp/secscan-0" "repo", Node.dir), ("/tmp/secscan-0", Node.dir)]
      "<html>" (GoError.plain "invalid character") rfl rfl (by decide) rfl rfl⟩



theorem statOk_RemoveAll (fs : FS) (root p : String) (h : isUnder root p = true) :
    (fs.RemoveAll root).statOk p = false := by
  unfold FS.RemoveAll FS.statOk
  rw [Bool.eq_false_iff]
  intro hany
  rw [List.any_eq_true] at hany
  obtain ⟨e, he, hep⟩ := hany
  rw [List.mem_filter] at he
  have h1 : e.1 = p := by simpa using hep
  rw [h1, h] at he
  simp at he

theorem statOk_RemoveAll_of_not_under (fs : FS) (root p : String)
    (h : isUnder root p = false) : (fs.RemoveAll root).statOk p = fs.statOk p := by
  unfold FS.RemoveAll FS.statOk
  rw [Bool.eq_iff_iff]
  simp only [List.any_eq_true, List.mem_filter]
  constructor
  · rintro ⟨e, ⟨he, _⟩, hp⟩
    exact ⟨e, he, hp⟩
  · rintro ⟨e, he, hp⟩
    have h1 : e.1 = p := by simpa using hp
    exact ⟨e, ⟨he, by rw [h1, h]; rfl⟩, hp⟩

/-- C12. Whenever `Execute` has created its temporary directory, the file system it
leaves behind is the one its body produced with that directory removed by
`os.RemoveAll`, whatever the exit path: the directory and every path under it no
longer exist, and the existence of every other path is as the body left it. -/
theorem workspace_released (os : OS) (s : ScanUseCase) (json : JSON) (config : ScanConfig)
    (w : World) (tmp : String) (hmk : os.MkdirTemp w.fs = Except.ok tmp) :
    (Execute os s json config w).2.fs
        = (executeBody s json config tmp { w with fs := (tmp, Node.dir) :: w.fs }).2.fs.RemoveAll tmp
      ∧ (Execute os s json config w).2.fs.statOk tmp = false
      ∧ (∀ p, isUnder tmp p = true → (Execute os s json config w).2.fs.statOk p = false)
      ∧ (∀ p, isUnder tmp p = false → (Execute os s json config w).2.fs.statOk p
          = (executeBody s json config tmp { w with fs := (tmp, Node.dir) :: w.fs }).2.fs.statOk p) := by
  have h0 : (Execute os s json config w).2.fs
      = (executeBody s json config tmp { w with fs := (tmp, Node.dir) :: w.fs }).2.fs.RemoveAll tmp := by
    simp [Execute, hmk]
  refine ⟨h0, ?_, ?_, ?_⟩
  · rw [h0]
    exact statOk_RemoveAll _ tmp tmp (by simp [isUnder])
  · intro p hp
    rw [h0]
    exact statOk_RemoveAll _ tmp p hp
  · intro p hp
    rw [h0]
    exact statOk_RemoveAll_of_not_under _ tmp p hp

/-- C12, on a successful scan with monitor, a clone failure and a missing manifest: the
file system is empty again after each. -/
theorem workspace_released_witness :
    ((Execute okOS { snykScanner := cleanScanner, gitClient := demoGit } demoJSON
          { RepoURL := "repo1", Monitor := true } emptyWorld).2.fs
        = (executeBody { snykScanner := cleanScanner, gitClient := demoGit } demoJSON
            { RepoURL := "repo1", Monitor := true } "/tmp/secscan-0"
            { emptyWorld with fs := ("/tmp/secscan-0", Node.dir) :: emptyWorld.fs }).2.fs.RemoveAll
              "/tmp/secscan-0"
      ∧ (Execute okOS { snykScanner := cleanScanner, gitClient := demoGit } demoJSON
          { RepoURL := "repo1", Monitor := true } emptyWorld).2.fs.statOk "/tmp/secscan-0" = false
      ∧ (∀ p, isUnder "/tmp/secscan-0" p = true →
          (Execute okOS { snykScanner := cleanScanner, gitClient := demoGit } demoJSON
            { RepoURL := "repo1", Monitor := true } emptyWorld).2.fs.statOk p = false)
      ∧ (∀ p, isUnder "/tmp/secscan-0" p = false →
          (Execute okOS { snykScanner := cleanScanner, gitClient := demoGit } demoJSON
            { RepoURL := "repo1", Monitor := true } emptyWorld).2.fs.statOk p
          = (executeBody { snykScanner := cleanScanner, gitClient := demoGit } demoJSON
              { RepoURL := "repo1", Monitor := true } "/tmp/secscan-0"
              { emptyWorld with fs := ("/tmp/secscan-0", Node.dir) :: emptyWorld.fs }).2.fs.statOk p))
    ∧ (executeBody { snykScanner := cleanScanner, gitClient := demoGit } demoJSON
          { RepoURL := "repo1", Monitor := true } "/tmp/secscan-0"
          { emptyWorld with fs := ("/tmp/secscan-0", Node.dir) :: emptyWorld.fs }).2.fs.statOk
        "/tmp/secscan-0/repo/go.mod" = true
    ∧ (Execute okOS { snykScanner := cleanScanner, gitClient := demoGit } demoJSON
          { RepoURL := "repo1", Monitor := true } emptyWorld).2.fs = []
    ∧ (Execute okOS { snykScanner := cleanScanner, gitClient := demoGit } demoJSON
          { RepoURL := "repo2", Monitor := true } emptyWorld).2.fs = []
    ∧ (Execute okOS { snykScanner := cleanScanner, gitClient := mockGitOk } demoJSON
          { RepoURL := "repo1", Monitor := true } emptyWorld).2.fs = [] :=
  ⟨workspace_released okOS { snykScanner := cleanScanner, gitClient := demoGit } demoJSON
      { RepoURL := "repo1", Monitor := true } emptyWorld "/tmp/secscan-0" rfl,
    by decide, by decide, by decide, by decide⟩



/-! ## The text rendering -/

theorem textLines_eq (vs : List SnykVulnerability) :
    textLines vs = concatLines (vs.map findingLine) := by
  induction vs with
  | nil => rfl
  | cons v rest ih =>
    simp only [textLines, List.map_cons, concatLines, List.foldr_cons, findingLine]
    rw [ih]
    rfl

/-- C17. In the `"text"` format, what `formatAndOutput` emits for a result with `n`
findings is a first line stating the count (`n` in digits when `n > 0`, "Nenhuma"
when there is none) followed by exactly `n` lines, the `i`-th made of the severity,
the title and the module name of the `i`-th finding; it is printed on the standard
output, or written to the file when a path is given and the write succeeds.  A format
other than `"text"` and `"json"` returns an error and leaves the world unchanged. -/
theorem text_rendering (os : OS) (json : JSON) (result : ScanResult) (filePath : String)
    (w : World) :
    (∃ lines : List String,
        lines.length = result.Vulnerabilities.length
          ∧ (∀ (i : Nat) (h1 : i < lines.length) (h2 : i < result.Vulnerabilities.length),
              lines.get ⟨i, h1⟩
                = "  - [" ++ (result.Vulnerabilities.get ⟨i, h2⟩).Severity ++ "] "
                    ++ (result.Vulnerabilities.get ⟨i, h2⟩).Title ++ " em '"
                    ++ (result.Vulnerabilities.get ⟨i, h2⟩).ModuleName ++ "'\n")
          ∧ formatOutput json result "text" = Except.ok
              ((if 0 < result.Vulnerabilities.length then
                  "🚨 Encontradas " ++ toString result.Vulnerabilities.length ++ " vulnerabilidades\n"
                else "✅ Nenhuma vulnerabilidade encontrada.\n") ++ concatLines lines))
      ∧ (∀ text, formatOutput json result "text" = Except.ok text →
          formatAndOutput os json result "text" "" w
            = (none, { w with stdout := w.stdout ++ [text ++ "\n"] }))
      ∧ (∀ text, formatOutput json result "text" = Except.ok text → filePath ≠ "" →
          os.WriteFile filePath text w.fs = none →
          formatAndOutput os json result "text" filePath w
            = (none, { w with fs := w.fs.writeFile filePath text }))
      ∧ (∀ format, format ≠ "text" → format ≠ "json" →
          formatAndOutput os json result format filePath w
            = (some (GoError.plain ("formato de saída desconhecido: " ++ format)), w)) := by
  refine ⟨⟨result.Vulnerabilities.map findingLine, by simp, ?_, ?_⟩, ?_, ?_, ?_⟩
  · intro i h1 h2
    simp [findingLine]
  · have ht : ("text" == "json") = false := by decide
    simp only [formatOutput, ht, Bool.false_eq_true, if_false, beq_self_eq_true, if_true,
      formatText, textLines_eq]
    by_cases hn : 0 < result.Vulnerabilities.length
    · simp [hn]
    · have h0 : result.Vulnerabilities = [] := List.length_eq_zero.mp (by omega)
      simp [h0, concatLines]
  · intro text ht
    simp [formatAndOutput, ht]
  · intro text ht hp hw
    simp [formatAndOutput, ht, hp, hw]
  · intro format h1 h2
    simp [formatAndOutput, formatOutput, h1, h2]

/-- C17, on the two findings of the fixtures and on the format `"sarif"`. -/
theorem text_rendering_witness :
    formatOutput demoJSON twoFindings "text" = Except.ok twoFindingsText
    ∧ formatAndOutput okOS demoJSON twoFindings "text" "" emptyWorld
        = (none, { emptyWorld with stdout := emptyWorld.stdout ++ [twoFindingsText ++ "\n"] })
    ∧ formatAndOutput okOS demoJSON twoFindings "text" "out.txt" emptyWorld
        = (none, { emptyWorld with fs := emptyWorld.fs.writeFile "out.txt" twoFindingsText })
    ∧ formatAndOutput okOS demoJSON twoFindings "sarif" "out.txt" emptyWorld
        = (some (GoError.plain ("formato de saída desconhecido: " ++ "sarif")), emptyWorld) :=
  have h := text_rendering okOS demoJSON twoFindings "out.txt" emptyWorld
  ⟨rfl, h.2.1 _ rfl, h.2.2.1 _ rfl (by decide) rfl, h.2.2.2 "sarif" (by decide) (by decide)⟩



/-! ## The resolution of the target list -/

theorem scanRepoLines_eq (lines : List String) :
    ∀ urls : List String,
      scanRepoLines urls lines = urls ++ (lines.map trimSpace).filter keptLine := by
  induction lines with
  | nil => intro urls; simp [scanRepoLines]
  | cons text rest ih =>
    intro urls
    simp only [scanRepoLines, List.map_cons, List.filter_cons]
    by_cases hk : keptLine (trimSpace text) = true
    · have hk1 : (trimSpace text != "" && !startsWith (trimSpace text) "#") = true := hk
      rw [if_pos hk1, if_pos hk, ih]
      simp
    · have hk1 : ¬ (trimSpace text != "" && !startsWith (trimSpace text) "#") = true := hk
      rw [if_neg hk1, if_neg hk, ih]

theorem head_dropWhile_not (p : Char → Bool) (l : List Char) (c : Char)
    (h : (l.dropWhile p).head? = some c) : p c = false := by
  induction l with
  | nil => simp at h
  | cons x xs ih =>
    by_cases hx : p x = true
    · rw [List.dropWhile_cons_of_pos hx] at h
      exact ih h
    · rw [List.dropWhile_cons_of_neg hx] at h
      simp only [List.head?_cons, Option.some.injEq] at h
      subst h
      simpa using hx

theorem trimSpace_no_trailing (s : String) (c : Char)
    (h : (trimSpace s).data.getLast? = some c) : isSpace c = false := by
  simp only [trimSpace, List.getLast?_reverse] at h
  exact head_dropWhile_not isSpace _ c h

theorem trimSpace_no_leading (s : String) (c : Char)
    (h : (trimSpace s).data.head? = some c) : isSpace c = false := by
  simp only [trimSpace] at h
  have hpre : ((s.data.dropWhile isSpace).reverse.dropWhile isSpace).reverse
      <+: s.data.dropWhile isSpace := by
    have hsuf := List.dropWhile_suffix isSpace (l := (s.data.dropWhile isSpace).reverse)
    have := List.reverse_prefix.mpr hsuf
    rwa [List.reverse_reverse] at this
  obtain ⟨t, ht⟩ := hpre
  apply head_dropWhile_not isSpace s.data c
  rw [← ht]
  cases hl : ((s.data.dropWhile isSpace).reverse.dropWhile isSpace).reverse with
  | nil => rw [hl] at h; simp at h
  | cons x xs =>
    rw [hl] at h
    simpa using h

/-- C20 as stated fails: on a repo file with a usable first line and a second line too
long for `bufio.Scanner`, `getRepoURLs` returns the read error and no list at all. -/
theorem repo_urls_read_error :
    getRepoURLs "https://github.com/user/main.git" "repos.txt"
        (fun _ => Except.ok longLineRepoFile)
      = Except.error (Errorf "erro ao ler arquivo de repositórios: "
          (GoError.plain "bufio.Scanner: token too long"))
    ∧ ¬ ∃ urls, getRepoURLs "https://github.com/user/main.git" "repos.txt"
        (fun _ => Except.ok longLineRepoFile) = Except.ok urls := by
  have h : getRepoURLs "https://github.com/user/main.git" "repos.txt"
      (fun _ => Except.ok longLineRepoFile)
      = Except.error (Errorf "erro ao ler arquivo de repositórios: "
          (GoError.plain "bufio.Scanner: token too long")) := rfl
  refine ⟨h, ?_⟩
  rintro ⟨urls, hu⟩
  rw [h] at hu
  cases hu

/-- C20, amended. When the repo file is opened and read without error, `getRepoURLs`
returns the `--repo` value (when it is not empty) followed by the trimmed lines of the
file, in file order, that are neither empty nor start with `#`; so no entry taken from
the file is empty, starts with `#`, or begins or ends with a white-space character,
and an entry occurs as often as it has kept lines.  Without a repo file the list is
the `--repo` value alone, or empty.  When the file cannot be opened, or `scanner.Err()`
is not nil after the loop, `getRepoURLs` returns an error wrapping the cause. -/
theorem repo_urls_resolution (repo repoFile : String) (osOpen : String → Except GoError RepoFile)
    (lines : List String) (cause : GoError) :
    (repoFile ≠ "" → osOpen repoFile = Except.ok { lines := lines, err := none } →
      getRepoURLs repo repoFile osOpen = Except.ok
        ((if repo = "" then [] else [repo])
          ++ (lines.map trimSpace).filter (fun l => l != "" && !startsWith l "#")))
    ∧ getRepoURLs repo "" osOpen = Except.ok (if repo = "" then [] else [repo])
    ∧ (∀ e ∈ (lines.map trimSpace).filter (fun l => l != "" && !startsWith l "#"),
        e ≠ "" ∧ startsWith e "#" = false
          ∧ (∀ c, e.data.head? = some c → isSpace c = false)
          ∧ (∀ c, e.data.getLast? = some c → isSpace c = false))
    ∧ (∀ e, ((lines.map trimSpace).filter (fun l => l != "" && !startsWith l "#")).count e
        = lines.countP (fun t => trimSpace t == e && (e != "" && !startsWith e "#")))
    ∧ (repoFile ≠ "" → osOpen repoFile = Except.ok { lines := lines, err := some cause } →
        ∃ err, getRepoURLs repo repoFile osOpen = Except.error err ∧ err.Is cause = true)
    ∧ (repoFile ≠ "" → osOpen repoFile = Except.error cause →
        ∃ err, getRepoURLs repo repoFile osOpen = Except.error err ∧ err.Is cause = true) := by
  refine ⟨?_, ?_, ?_, ?_, ?_, ?_⟩
  rotate_left 4
  · intro hf hopen
    have hf1 : (repoFile != "") = true := by simpa using hf
    exact ⟨Errorf "erro ao ler arquivo de repositórios: " cause,
      by simp [getRepoURLs, hf1, hopen], Is_Errorf _ _⟩
  · intro hf hopen
    have hf1 : (repoFile != "") = true := by simpa using hf
    exact ⟨Errorf ("falha ao abrir arquivo de repositórios '" ++ repoFile ++ "': ") cause,
      by simp [getRepoURLs, hf1, hopen], Is_Errorf _ _⟩
  · intro hf hopen
    have hf1 : (repoFile != "") = true := by simpa using hf
    simp only [getRepoURLs, hf1, if_true, hopen, scanRepoLines_eq]
    by_cases hr : repo = ""
    · subst hr
      simp [keptLine]
      rfl
    · have hr1 : (repo != "") = true := by simpa using hr
      simp [hr, keptLine]
      rfl
  · by_cases hr : repo = ""
    · subst hr
      simp [getRepoURLs]
    · simp [getRepoURLs, hr]
  · intro e he
    rw [List.mem_filter, List.mem_map] at he
    obtain ⟨⟨t, _, rfl⟩, hk⟩ := he
    simp only [Bool.and_eq_true, bne_iff_ne, ne_eq, Bool.not_eq_true'] at hk
    exact ⟨hk.1, hk.2, trimSpace_no_leading t, trimSpace_no_trailing t⟩
  · intro e
    induction lines with
    | nil => simp
    | cons t rest ih =>
      simp only [List.map_cons, List.filter_cons, List.countP_cons]
      by_cases hk : (trimSpace t != "" && !startsWith (trimSpace t) "#") = true
      · rw [if_pos hk, List.count_cons, ih]
        by_cases hte : trimSpace t = e
        · subst hte
          simp [hk]
        · simp [hte]
      · rw [if_neg hk, ih]
        by_cases hte : trimSpace t = e
        · subst hte
          simp [hk]
        · simp [hte]

/-- C20 amended, on a file with a comment, blank lines, padded lines, an indented
comment and a duplicate, and on a file that cannot be opened. -/
theorem repo_urls_resolution_witness :
    getRepoURLs "https://github.com/user/main.git" "repos.txt" (fun _ => Except.ok demoRepoFile)
        = Except.ok ["https://github.com/user/main.git", "https://github.com/user/a.git",
            "https://github.com/user/b.git", "https://github.com/user/a.git"]
      ∧ ∃ err, getRepoURLs "https://github.com/user/main.git" "repos.txt"
            (fun _ => Except.error (GoError.plain "open repos.txt: no such file or directory"))
          = Except.error err
        ∧ err.Is (GoError.plain "open repos.txt: no such file or directory") = true :=
  ⟨(repo_urls_resolution "https://github.com/user/main.git" "repos.txt"
      (fun _ => Except.ok demoRepoFile) demoRepoFile.lines
      (GoError.plain "bufio.Scanner: token too long")).1 (by decide) rfl,
    (repo_urls_resolution "https://github.com/user/main.git" "repos.txt"
      (fun _ => Except.error (GoError.plain "open repos.txt: no such file or directory")) []
      (GoError.plain "open repos.txt: no such file or directory")).2.2.2.2.2 (by decide) rfl⟩



/-! ## The batch of scanLocal -/

theorem mem_keys_mapAssign (m : List (String × ScanResult)) (k : String) (v : ScanResult)
    (x : String) :
    x ∈ (mapAssign m k v).map Prod.fst ↔ x = k ∨ x ∈ m.map Prod.fst := by
  induction m with
  | nil => simp [mapAssign]
  | cons e rest ih =>
    unfold mapAssign
    by_cases he : e.1 = k
    · simp [he]
    · have he1 : (e.1 == k) = false := by simpa using he
      simp only [he1, Bool.false_eq_true, if_false, List.map_cons, List.mem_cons, ih]
      constructor
      · rintro (h | h | h)
        · exact Or.inr (Or.inl h)
        · exact Or.inl h
        · exact Or.inr (Or.inr h)
      · rintro (h | h | h)
        · exact Or.inr (Or.inl h)
        · exact Or.inl h
        · exact Or.inr (Or.inr h)

theorem mem_mapAssign (m : List (String × ScanResult)) (k : String) (v : ScanResult)
    (x : String × ScanResult) (h : x ∈ mapAssign m k v) : x = (k, v) ∨ x ∈ m := by
  induction m with
  | nil => simpa [mapAssign] using h
  | cons e rest ih =>
    unfold mapAssign at h
    by_cases he : e.1 = k
    · simp only [he, beq_self_eq_true, if_true, List.mem_cons] at h
      rcases h with h | h
      · exact Or.inl h
      · exact Or.inr (List.mem_cons_of_mem _ h)
    · have he1 : (e.1 == k) = false := by simpa using he
      simp only [he1, Bool.false_eq_true, if_false, List.mem_cons] at h
      rcases h with h | h
      · exact Or.inr (by rw [h]; exact List.mem_cons_self _ _)
      · rcases ih h with h1 | h1
        · exact Or.inl h1
        · exact Or.inr (List.mem_cons_of_mem _ h1)

/-- Every path given to the loop ends either as a key of the report or in the error
log, and nothing else does. -/
theorem scanLocalLoop_accounts (usecase : LocalScanUseCase) (json : JSON) (monitor : Bool) :
    ∀ (paths : List String) (b : LocalBatch) (p : String),
      (p ∈ (scanLocalLoop usecase json monitor paths b).report.keys
          ∨ p ∈ (scanLocalLoop usecase json monitor paths b).logged.map Prod.fst)
        ↔ (p ∈ paths ∨ p ∈ b.report.keys ∨ p ∈ b.logged.map Prod.fst)
  | [], b, p => by simp [scanLocalLoop]
  | path :: rest, b, p => by
    unfold scanLocalLoop
    cases hr : ExecuteOnDir usecase json path monitor b.world with
    | mk res w1 =>
      cases res with
      | error err =>
        simp only []
        rw [scanLocalLoop_accounts usecase json monitor rest _ p]
        simp only [List.map_append, List.map_cons, List.map_nil, List.mem_append,
          List.mem_singleton, List.mem_cons]
        tauto
      | ok result =>
        simp only []
        rw [scanLocalLoop_accounts usecase json monitor rest _ p]
        simp only [ConsolidatedReport.keys, mem_keys_mapAssign, List.mem_cons]
        tauto

/-- The loop, for a pipeline whose result depends on the path alone. -/
theorem scanLocalLoop_of_fun (usecase : LocalScanUseCase) (json : JSON) (monitor : Bool)
    (f : String → Except GoError ScanResult)
    (hf : ∀ p w, (ExecuteOnDir usecase json p monitor w).1 = f p) :
    ∀ (paths : List String) (b : LocalBatch),
      (∀ k, k ∈ (scanLocalLoop usecase json monitor paths b).report.keys
          ↔ (k ∈ b.report.keys ∨ (k ∈ paths ∧ ∃ r, f k = Except.ok r)))
        ∧ (∀ x, x ∈ (scanLocalLoop usecase json monitor paths b).report.ProjectScans →
            x ∈ b.report.ProjectScans ∨ (x.1 ∈ paths ∧ f x.1 = Except.ok x.2))
        ∧ (scanLocalLoop usecase json monitor paths b).logged = b.logged ++ failuresOf f paths
  | [], b => by simp [scanLocalLoop, failuresOf]
  | path :: rest, b => by
    unfold scanLocalLoop
    have hfp := hf path b.world
    cases hr : ExecuteOnDir usecase json path monitor b.world with
    | mk res w1 =>
      rw [hr] at hfp
      simp only at hfp
      cases res with
      | error err =>
        simp only []
        obtain ⟨h1, h2, h3⟩ := scanLocalLoop_of_fun usecase json monitor f hf rest
          { b with logged := b.logged ++ [(path, err)], world := w1 }
        refine ⟨?_, ?_, ?_⟩
        · intro k
          rw [h1 k]
          simp only [List.mem_cons]
          constructor
          · rintro (h | ⟨h, hk⟩)
            · exact Or.inl h
            · exact Or.inr ⟨Or.inr h, hk⟩
          · rintro (h | ⟨h | h, r, hk⟩)
            · exact Or.inl h
            · subst h
              rw [← hfp] at hk
              cases hk
            · exact Or.inr ⟨h, r, hk⟩
        · intro x hx
          rcases h2 x hx with h | ⟨h, hk⟩
          · exact Or.inl h
          · exact Or.inr ⟨List.mem_cons_of_mem _ h, hk⟩
        · rw [h3]
          simp [failuresOf, ← hfp]
      | ok result =>
        simp only []
        obtain ⟨h1, h2, h3⟩ := scanLocalLoop_of_fun usecase json monitor f hf rest
          { b with report := { ProjectScans := mapAssign b.report.ProjectScans path result },
                   world := w1 }
        refine ⟨?_, ?_, ?_⟩
        · intro k
          rw [h1 k]
          simp only [ConsolidatedReport.keys, mem_keys_mapAssign, List.mem_cons]
          constructor
          · rintro ((h | h) | ⟨h, hk⟩)
            · exact Or.inr ⟨Or.inl h, result, by rw [h, ← hfp]⟩
            · exact Or.inl h
            · exact Or.inr ⟨Or.inr h, hk⟩
          · rintro (h | ⟨h | h, hk⟩)
            · exact Or.inl (Or.inr h)
            · exact Or.inl (Or.inl h)
            · exact Or.inr ⟨h, hk⟩
        · intro x hx
          rcases h2 x hx with h | ⟨h, hk⟩
          · rcases mem_mapAssign _ _ _ _ h with h0 | h0
            · subst h0
              exact Or.inr ⟨List.mem_cons_self _ _, hfp.symm⟩
            · exact Or.inl h0
          · exact Or.inr ⟨List.mem_cons_of_mem _ h, hk⟩
        · rw [h3]
          simp [failuresOf, ← hfp]

/-- C14 as stated fails: of two scanned paths the one whose scan fails is not a key of
`ProjectScans`; it is only logged. -/
theorem report_omits_failed_path :
    (scanLocalLoop { snykScanner := flakyScanner } demoJSON true ["/src/a", "/src/b"]
        (emptyBatch emptyWorld)).report.keys = ["/src/a"]
      ∧ "/src/b" ∉ (scanLocalLoop { snykScanner := flakyScanner } demoJSON true
          ["/src/a", "/src/b"] (emptyBatch emptyWorld)).report.keys
      ∧ (scanLocalLoop { snykScanner := flakyScanner } demoJSON true ["/src/a", "/src/b"]
          (emptyBatch emptyWorld)).logged.map Prod.fst = ["/src/b"] :=
  ⟨by decide, by decide, by decide⟩

/-- C14, amended. After the scan loop of `scanLocal` every scanned path is a key of
`ProjectScans` or is in the error log with its cause, and nothing else is; when the
result of `ExecuteOnDir` depends on the path alone, the keys are exactly the scanned
paths whose scan succeeded, each mapped to its result, and the log holds exactly the
failed paths, in order, each with its error. -/
theorem report_holds_successes (usecase : LocalScanUseCase) (json : JSON) (monitor : Bool)
    (paths : List String) (w : World) (f : String → Except GoError ScanResult) :
    (∀ p, (p ∈ (scanLocalLoop usecase json monitor paths (emptyBatch w)).report.keys
          ∨ p ∈ (scanLocalLoop usecase json monitor paths (emptyBatch w)).logged.map Prod.fst)
        ↔ p ∈ paths)
    ∧ ((∀ p w1, (ExecuteOnDir usecase json p monitor w1).1 = f p) →
        (∀ k, k ∈ (scanLocalLoop usecase json monitor paths (emptyBatch w)).report.keys
            ↔ (k ∈ paths ∧ ∃ r, f k = Except.ok r))
          ∧ (∀ k r, (k, r) ∈ (scanLocalLoop usecase json monitor paths
              (emptyBatch w)).report.ProjectScans → f k = Except.ok r)
          ∧ (scanLocalLoop usecase json monitor paths (emptyBatch w)).logged
              = failuresOf f paths) := by
  constructor
  · intro p
    rw [scanLocalLoop_accounts usecase json monitor paths (emptyBatch w) p]
    simp [emptyBatch, ConsolidatedReport.keys]
  · intro hf
    obtain ⟨h1, h2, h3⟩ := scanLocalLoop_of_fun usecase json monitor f hf paths (emptyBatch w)
    refine ⟨?_, ?_, ?_⟩
    · intro k
      rw [h1 k]
      simp [emptyBatch, ConsolidatedReport.keys]
    · intro k r hkr
      rcases h2 (k, r) hkr with h | ⟨_, h⟩
      · simp [emptyBatch] at h
      · exact h
    · rw [h3]
      simp [emptyBatch]

theorem flakyScanner_result (p : String) (w1 : World) :
    (ExecuteOnDir { snykScanner := flakyScanner } demoJSON p true w1).1 = flakyResult p := by
  by_cases hp : p = "/src/b"
  · subst hp
    have hc : stringsContains "falha ao executar snyk test: " "Unknown command \"test\""
        = false := by decide
    simp [ExecuteOnDir, callScan, flakyScanner, flakyResult, GoError.Error, hc]
  · simp [ExecuteOnDir, callScan, flakyScanner, flakyResult, hp, demoJSON, localMonitorStep,
      callMonitor]

/-- C14 amended, on three paths of which the second fails. -/
theorem report_holds_successes_witness :
    (∀ k, k ∈ (scanLocalLoop { snykScanner := flakyScanner } demoJSON true
          ["/src/a", "/src/b", "/src/c"] (emptyBatch emptyWorld)).report.keys
        ↔ (k ∈ ["/src/a", "/src/b", "/src/c"] ∧ ∃ r, flakyResult k = Except.ok r))
      ∧ (∀ k r, (k, r) ∈ (scanLocalLoop { snykScanner := flakyScanner } demoJSON true
          ["/src/a", "/src/b", "/src/c"] (emptyBatch emptyWorld)).report.ProjectScans →
          flakyResult k = Except.ok r)
      ∧ (scanLocalLoop { snykScanner := flakyScanner } demoJSON true
          ["/src/a", "/src/b", "/src/c"] (emptyBatch emptyWorld)).logged
          = failuresOf flakyResult ["/src/a", "/src/b", "/src/c"] :=
  (report_holds_successes { snykScanner := flakyScanner } demoJSON true
    ["/src/a", "/src/b", "/src/c"] emptyWorld flakyResult).2 flakyScanner_result

/-- The `RunE` of `scanLocal` returns nil whenever projects are found and the report is
rendered and written, whatever the scans returned. -/
theorem scanLocalRunE_nil (os : OS) (json : JSON)
    (marshalReport : ConsolidatedReport → Except GoError String) (usecase : LocalScanUseCase)
    (rootDir outputFile : String) (monitor : Bool) (paths : List String) (w : World)
    (hroot : rootDir ≠ "")
    (hmarshal : ∀ r, ∃ text, marshalReport r = Except.ok text)
    (hwrite : ∀ p text fs, os.WriteFile p text fs = none) :
    (scanLocalRunE os json marshalReport usecase rootDir outputFile monitor (Except.ok paths)
      w).1 = none := by
  have hr : (rootDir == "") = false := by simpa using hroot
  simp only [scanLocalRunE, hr, Bool.false_eq_true, if_false]
  split
  · rfl
  · obtain ⟨text, ht⟩ := hmarshal
      (scanLocalLoop usecase json monitor paths
        { report := { ProjectScans := [] }, logged := [], world := w }).report
    simp only [ht]
    split
    · simp only [hwrite]
    · rfl

/-- C16. With two projects of which one fails to scan, the `RunE` of `scanLocal`
returns nil and writes the report, exactly as it does when both scans succeed; the
failure only reaches the error log. -/
theorem scanLocal_status_ignores_failures :
    (scanLocalRunE okOS demoJSON demoMarshalReport { snykScanner := flakyScanner } "/src"
        "report.json" true (Except.ok ["/src/a", "/src/b"]) emptyWorld).1 = none
      ∧ (scanLocalRunE okOS demoJSON demoMarshalReport { snykScanner := flakyScanner } "/src"
        "report.json" true (Except.ok ["/src/a", "/src/b"]) emptyWorld).2.logged.map Prod.fst
          = ["/src/b"]
      ∧ (scanLocalRunE okOS demoJSON demoMarshalReport { snykScanner := flakyScanner } "/src"
        "report.json" true (Except.ok ["/src/a", "/src/b"]) emptyWorld).2.report.keys
          = ["/src/a"]
      ∧ (scanLocalRunE okOS demoJSON demoMarshalReport { snykScanner := flakyScanner } "/src"
        "report.json" true (Except.ok ["/src/a", "/src/c"]) emptyWorld).1 = none
      ∧ (scanLocalRunE okOS demoJSON demoMarshalReport { snykScanner := flakyScanner } "/src"
        "report.json" true (Except.ok ["/src/a", "/src/c"]) emptyWorld).2.logged = [] :=
  ⟨by decide, by decide, by decide, by decide, rfl⟩

/-- C13 as stated fails: with no target, no schedule makes the `RunE` of `scanMonitor`
return nil; it returns the error of its guard. -/
theorem scanMonitor_empty_is_error :
    (¬ ∃ sched, RunE demoInvocation [] 4
        (some { snykScanner := twoScanner, gitClient := demoGit }) emptyWorld sched = some none)
      ∧ scanMonitorRunE demoInvocation "" "" (fun _ => Except.ok demoRepoFile) 4
          (some { snykScanner := twoScanner, gitClient := demoGit }) emptyWorld []
        = some (some (GoError.plain "nenhum repositório especificado. Use --repo ou --repo-file")) := by
  constructor
  · rintro ⟨sched, h⟩
    simp [RunE, startPool] at h
  · rfl

/-- C13, amended. With an empty target list the `RunE` of `scanMonitor` returns the
error "nenhum repositório especificado" under every schedule, whether the list is
empty because no flag was given or because the repo file has no usable line; the
`RunE` of `scanLocal`, when no project is found, returns nil and leaves the world as
it was, without any report. -/
theorem empty_target_list (c : Invocation) (numWorkers : Int) (usecase : Option ScanUseCase)
    (w : World) (sched : List Action) (osOpen : String → Except GoError RepoFile)
    (repoFile : String) (lines : List String) (os : OS) (json : JSON)
    (marshalReport : ConsolidatedReport → Except GoError String) (lusecase : LocalScanUseCase)
    (rootDir outputFile : String) (monitor : Bool) :
    RunE c [] numWorkers usecase w sched
        = some (some (GoError.plain "nenhum repositório especificado. Use --repo ou --repo-file"))
      ∧ scanMonitorRunE c "" "" osOpen numWorkers usecase w sched
        = some (some (GoError.plain "nenhum repositório especificado. Use --repo ou --repo-file"))
      ∧ (repoFile ≠ "" → osOpen repoFile = Except.ok { lines := lines, err := none } →
          (∀ l ∈ lines, trimSpace l = "" ∨ startsWith (trimSpace l) "#" = true) →
          scanMonitorRunE c "" repoFile osOpen numWorkers usecase w sched
            = some (some (GoError.plain
                "nenhum repositório especificado. Use --repo ou --repo-file")))
      ∧ (rootDir ≠ "" →
          scanLocalRunE os json marshalReport lusecase rootDir outputFile monitor (Except.ok []) w
            = (none, emptyBatch w)) := by
  have h0 : RunE c [] numWorkers usecase w sched
      = some (some (GoError.plain "nenhum repositório especificado. Use --repo ou --repo-file")) := by
    simp [RunE, startPool]
  refine ⟨h0, ?_, ?_, ?_⟩
  · simp only [scanMonitorRunE, getRepoURLs]
    exact h0
  · intro hf hopen hall
    have hf1 : (repoFile != "") = true := by simpa using hf
    have hnil : (lines.map trimSpace).filter keptLine = [] := by
      rw [List.filter_eq_nil_iff]
      intro x hx
      obtain ⟨l, hl, rfl⟩ := List.mem_map.mp hx
      rcases hall l hl with h | h
      · simp [keptLine, h]
      · simp [keptLine, h]
    simp only [scanMonitorRunE, getRepoURLs, hf1, if_true, hopen, scanRepoLines_eq, hnil]
    exact h0
  · intro hroot
    have hr : (rootDir == "") = false := by simpa using hroot
    simp [scanLocalRunE, hr, emptyBatch]

/-- C13 amended, on a repo file holding only a comment and a blank line, and on a
directory without Go project. -/
theorem empty_target_list_witness :
    scanMonitorRunE demoInvocation "" "repos.txt"
        (fun _ => Except.ok { lines := ["# none yet", "   "], err := none }) 4
        (some { snykScanner := twoScanner, gitClient := demoGit }) emptyWorld []
      = some (some (GoError.plain "nenhum repositório especificado. Use --repo ou --repo-file"))
    ∧ scanLocalRunE okOS demoJSON demoMarshalReport { snykScanner := flakyScanner } "/src"
        "report.json" true (Except.ok []) emptyWorld = (none, emptyBatch emptyWorld) :=
  have h := empty_target_list demoInvocation 4
    (some { snykScanner := twoScanner, gitClient := demoGit }) emptyWorld []
    (fun _ => Except.ok { lines := ["# none yet", "   "], err := none }) "repos.txt"
    ["# none yet", "   "] okOS demoJSON demoMarshalReport { snykScanner := flakyScanner } "/src"
    "report.json" true
  ⟨h.2.2.1 (by decide) rfl (by decide), h.2.2.2 (by decide)⟩



/-! ## The output file of scanMonitor -/

/-- C15. Two runs of `scanMonitor` on the same two targets, with the same outcome for
each target and the same returned status, that differ only in the order in which the
collection loop receives the two outcomes, leave different contents in the output
file: each `formatAndOutput` overwrites the file, so it holds the rendering of the
outcome received last. -/
theorem output_file_depends_on_order :
    startPool ["repo1", "repo3"] 2 (some { snykScanner := contentScanner, gitClient := demoGit })
        emptyWorld = Except.ok fileStart
      ∧ RunE fileInvocation ["repo1", "repo3"] 2
          (some { snykScanner := contentScanner, gitClient := demoGit }) emptyWorld scheduleFirst
          = some none
      ∧ RunE fileInvocation ["repo1", "repo3"] 2
          (some { snykScanner := contentScanner, gitClient := demoGit }) emptyWorld scheduleSecond
          = some none
      ∧ receivedAfter scheduleFirst = some [("repo1", some 1), ("repo3", some 2)]
      ∧ receivedAfter scheduleSecond = some [("repo3", some 2), ("repo1", some 1)]
      ∧ outputFileAfter scheduleFirst = some (some (Node.file twoFindingsText))
      ∧ outputFileAfter scheduleSecond = some (some (Node.file
          ("🚨 Encontradas 1 vulnerabilidades\n"
            ++ "  - [high] Cross-site Scripting (XSS) em 'react'\n")))
      ∧ outputFileAfter scheduleFirst ≠ outputFileAfter scheduleSecond :=
  ⟨rfl, rfl, rfl, by decide, by decide, by decide, by decide, by decide⟩



/-! ## FindGoProjects -/

mutual
theorem walk_acc (path : List String) (projects : List (List String)) (t : FileTree) :
    walk path projects t = (projects ++ (walk path [] t).1, (walk path [] t).2) := by
  cases t with
  | file name =>
    simp only [walk, findGoProjectsFn]
    split <;> simp
  | dir name children =>
    simp only [walk, findGoProjectsFn]
    simp
    exact walkDir_acc path projects children
theorem walkDir_acc (path : List String) (projects : List (List String)) (f : DirEntries) :
    walkDir path projects f = (projects ++ (walkDir path [] f).1, (walkDir path [] f).2) := by
  cases f with
  | nil => simp [walkDir]
  | cons entry rest =>
    simp only [walkDir]
    rw [walk_acc (path ++ [entry.name]) projects entry]
    simp only
    split
    · split
      · rw [walkDir_acc path _ rest,
          walkDir_acc path (walk (path ++ [entry.name]) [] entry).1 rest]
        simp
      · simp
    · rw [walkDir_acc path _ rest,
        walkDir_acc path (walk (path ++ [entry.name]) [] entry).1 rest]
      simp
end

theorem walk_dir (p : List String) (n : String) (cs : DirEntries) :
    (walk p [] (FileTree.dir n cs)).1 = (walkDir p [] cs).1 := by
  simp [walk, findGoProjectsFn]

/-- The loop on a directory whose first entry is a file. -/
theorem walkDir_cons_file (p : List String) (n : String) (rest : DirEntries) :
    (walkDir p [] (DirEntries.cons (FileTree.file n) rest)).1
      = if n = "go.mod" then [p] else (walkDir p [] rest).1 := by
  by_cases hn : n = "go.mod"
  · simp [walkDir, walk, findGoProjectsFn, FileTree.name, FileTree.IsDir, hn]
  · simp [walkDir, walk, findGoProjectsFn, FileTree.name, FileTree.IsDir, hn]

/-- The loop on a directory whose first entry is a directory. -/
theorem walkDir_cons_dir (p : List String) (n : String) (cs rest : DirEntries) :
    (walkDir p [] (DirEntries.cons (FileTree.dir n cs) rest)).1
      = (walkDir (p ++ [n]) [] cs).1 ++ (walkDir p [] rest).1 := by
  simp only [walkDir, FileTree.name, FileTree.IsDir, if_true]
  have h := walkDir_acc p (walk (p ++ [n]) [] (FileTree.dir n cs)).1 rest
  split
  · rw [h, walk_dir]
  · rw [h, walk_dir]

theorem DirAt_extends {p q : List String} {t : FileTree} {cq : DirEntries}
    (h : DirAt p t q cq) : p <+: q := by
  induction h with
  | root p n cs => exact List.prefix_refl p
  | sub p n cs child q cq _ _ ih => exact List.IsPrefix.trans (List.prefix_append p _) ih

theorem TopDirAt_IsDir {p q : List String} {t : FileTree} {cq : DirEntries}
    (h : TopDirAt p t q cq) : t.IsDir = true := by
  cases h <;> rfl

theorem hasGoMod_cons_file (n : String) (rest : DirEntries) :
    hasGoMod (DirEntries.cons (FileTree.file n) rest) = (n == "go.mod" || hasGoMod rest) := by
  simp [hasGoMod, DirEntries.toList, FileTree.IsDir, FileTree.name]

theorem hasGoMod_cons_dir (n : String) (cs rest : DirEntries) :
    hasGoMod (DirEntries.cons (FileTree.dir n cs) rest) = hasGoMod rest := by
  simp [hasGoMod, DirEntries.toList, FileTree.IsDir]

mutual
/-- Every path found below a directory is a directory of the tree that holds a `go.mod`. -/
theorem walk_sound (t : FileTree) (p q : List String) (hd : t.IsDir = true)
    (hq : q ∈ (walk p [] t).1) : ∃ cq, DirAt p t q cq ∧ hasGoMod cq = true := by
  cases t with
  | file n => simp [FileTree.IsDir] at hd
  | dir n cs =>
    rw [walk_dir] at hq
    rcases walkDir_sound cs p q hq with ⟨h1, h2⟩ | ⟨child, hmem, cq, hsub, hg⟩
    · subst h1
      exact ⟨cs, DirAt.root q n cs, h2⟩
    · exact ⟨cq, DirAt.sub p n cs child q cq hmem hsub, hg⟩
theorem walkDir_sound (cs : DirEntries) (p q : List String) (hq : q ∈ (walkDir p [] cs).1) :
    (q = p ∧ hasGoMod cs = true)
      ∨ ∃ child ∈ cs.toList, ∃ cq, DirAt (p ++ [child.name]) child q cq ∧ hasGoMod cq = true := by
  cases cs with
  | nil => simp [walkDir] at hq
  | cons e rest =>
    cases e with
    | file n =>
      rw [walkDir_cons_file] at hq
      by_cases hn : n = "go.mod"
      · rw [if_pos hn] at hq
        left
        exact ⟨by simpa using hq, by simp [hasGoMod_cons_file, hn]⟩
      · rw [if_neg hn] at hq
        rcases walkDir_sound rest p q hq with ⟨h1, h2⟩ | ⟨child, hmem, cq, hsub, hg⟩
        · left
          exact ⟨h1, by simp [hasGoMod_cons_file, h2]⟩
        · right
          exact ⟨child, by simp [DirEntries.toList, hmem], cq, hsub, hg⟩
    | dir n cs1 =>
      rw [walkDir_cons_dir, List.mem_append] at hq
      rcases hq with hq | hq
      · right
        have hw : q ∈ (walk (p ++ [n]) [] (FileTree.dir n cs1)).1 := by rw [walk_dir]; exact hq
        obtain ⟨cq, hsub, hg⟩ := walk_sound (FileTree.dir n cs1) (p ++ [n]) q rfl hw
        exact ⟨FileTree.dir n cs1, by simp [DirEntries.toList], cq, hsub, hg⟩
      · rcases walkDir_sound rest p q hq with ⟨h1, h2⟩ | ⟨child, hmem, cq, hsub, hg⟩
        · left
          exact ⟨h1, by simp [hasGoMod_cons_dir, h2]⟩
        · right
          exact ⟨child, by simp [DirEntries.toList, hmem], cq, hsub, hg⟩
end

/-- A directory that holds a `go.mod` is found when its entries are walked. -/
theorem walkDir_self : ∀ (cs : DirEntries) (p : List String), hasGoMod cs = true →
    p ∈ (walkDir p [] cs).1
  | DirEntries.nil, p, h => by simp [hasGoMod, DirEntries.toList] at h
  | DirEntries.cons (FileTree.file n) rest, p, h => by
    rw [walkDir_cons_file]
    by_cases hn : n = "go.mod"
    · simp [hn]
    · rw [if_neg hn]
      rw [hasGoMod_cons_file] at h
      have hn1 : (n == "go.mod") = false := by simpa using hn
      rw [hn1, Bool.false_or] at h
      exact walkDir_self rest p h
  | DirEntries.cons (FileTree.dir n cs1) rest, p, h => by
    rw [walkDir_cons_dir, List.mem_append]
    rw [hasGoMod_cons_dir] at h
    exact Or.inr (walkDir_self rest p h)

/-- In a directory without `go.mod` every sub-directory is walked. -/
theorem walkDir_child : ∀ (cs : DirEntries) (p : List String) (child : FileTree)
    (q : List String), hasGoMod cs = false → child ∈ cs.toList → child.IsDir = true →
    q ∈ (walk (p ++ [child.name]) [] child).1 → q ∈ (walkDir p [] cs).1
  | DirEntries.nil, p, child, q, _, hmem, _, _ => by simp [DirEntries.toList] at hmem
  | DirEntries.cons (FileTree.file n) rest, p, child, q, hno, hmem, hd, hq => by
    rw [hasGoMod_cons_file, Bool.or_eq_false_iff] at hno
    have hn : ¬ n = "go.mod" := by simpa using hno.1
    rw [walkDir_cons_file, if_neg hn]
    simp only [DirEntries.toList, List.mem_cons] at hmem
    rcases hmem with hmem | hmem
    · subst hmem
      simp [FileTree.IsDir] at hd
    · exact walkDir_child rest p child q hno.2 hmem hd hq
  | DirEntries.cons (FileTree.dir n cs1) rest, p, child, q, hno, hmem, hd, hq => by
    rw [hasGoMod_cons_dir] at hno
    rw [walkDir_cons_dir, List.mem_append]
    simp only [DirEntries.toList, List.mem_cons] at hmem
    rcases hmem with hmem | hmem
    · subst hmem
      left
      rw [walk_dir] at hq
      exact hq
    · exact Or.inr (walkDir_child rest p child q hno hmem hd hq)

/-- Every directory with a `go.mod` that has no directory with a `go.mod` above it is
found. -/
theorem walk_complete_top {p q : List String} {t : FileTree} {cq : DirEntries}
    (h : TopDirAt p t q cq) (hg : hasGoMod cq = true) : q ∈ (walk p [] t).1 := by
  induction h with
  | root p n cs =>
    rw [walk_dir]
    exact walkDir_self cs p hg
  | sub p n cs child q cq hno hmem hsub ih =>
    rw [walk_dir]
    exact walkDir_child cs p child q hno hmem (TopDirAt_IsDir hsub) (ih hg)

theorem not_prefix_snoc (p : List String) (n : String) : ¬ (p ++ [n]) <+: p := by
  intro h
  have := h.length_le
  simp at this

theorem snoc_prefix_inj {p x : List String} {n m : String} (h1 : (p ++ [n]) <+: x)
    (h2 : (p ++ [m]) <+: x) : n = m := by
  obtain ⟨t1, ht1⟩ := h1
  obtain ⟨t2, ht2⟩ := h2
  rw [← ht2, List.append_assoc, List.append_assoc, List.append_cancel_left_eq] at ht1
  simp only [List.singleton_append, List.cons.injEq] at ht1
  exact ht1.1

mutual
theorem walk_nodup (t : FileTree) (p : List String) (hd : t.distinctNames = true) :
    (walk p [] t).1.Nodup := by
  cases t with
  | file n =>
    simp only [walk, findGoProjectsFn]
    split <;> simp
  | dir n cs =>
    rw [walk_dir]
    simp only [FileTree.distinctNames] at hd
    exact walkDir_nodup cs p hd
theorem walkDir_nodup (cs : DirEntries) (p : List String) (hd : cs.distinctNames = true) :
    (walkDir p [] cs).1.Nodup := by
  cases cs with
  | nil => simp [walkDir]
  | cons e rest =>
    simp only [DirEntries.distinctNames, Bool.and_eq_true, Bool.not_eq_true'] at hd
    obtain ⟨⟨he, hname⟩, hrest⟩ := hd
    cases e with
    | file n =>
      rw [walkDir_cons_file]
      split
      · simp
      · exact walkDir_nodup rest p hrest
    | dir n cs1 =>
      rw [walkDir_cons_dir]
      have h1 : (walkDir (p ++ [n]) [] cs1).1.Nodup := by
        have := walk_nodup (FileTree.dir n cs1) (p ++ [n]) he
        rwa [walk_dir] at this
      refine List.Nodup.append h1 (walkDir_nodup rest p hrest) ?_
      intro x hx1 hx2
      have hpre : (p ++ [n]) <+: x := by
        rcases walkDir_sound cs1 (p ++ [n]) x hx1 with ⟨h, _⟩ | ⟨child, _, cq, hsub, _⟩
        · rw [h]
        · exact List.IsPrefix.trans (List.prefix_append _ _) (DirAt_extends hsub)
      rcases walkDir_sound rest p x hx2 with ⟨h, _⟩ | ⟨child, hmem, cq, hsub, _⟩
      · rw [h] at hpre
        exact not_prefix_snoc p n hpre
      · have hnm := snoc_prefix_inj hpre (DirAt_extends hsub)
        have hany : (rest.toList.any fun e => e.name == (FileTree.dir n cs1).name) = true := by
          rw [List.any_eq_true]
          exact ⟨child, hmem, by simp [FileTree.name, hnm]⟩
        rw [hany] at hname
        cases hname
end

/-- C18 as stated fails: in a module that has a nested module in `cmd/tool` and one in
`pkg/util`, the directory `src/pkg/util` directly contains a `go.mod` and is not
returned: the walk leaves `src` as soon as it meets `src/go.mod`. -/
theorem findGoProjects_misses_nested :
    FindGoProjects ["src"] nestedTree = [["src", "cmd", "tool"], ["src"]]
      ∧ DirAt ["src"] nestedTree ["src", "pkg", "util"]
          (DirEntries.cons (FileTree.file "go.mod") DirEntries.nil)
      ∧ hasGoMod (DirEntries.cons (FileTree.file "go.mod") DirEntries.nil) = true
      ∧ ["src", "pkg", "util"] ∉ FindGoProjects ["src"] nestedTree := by
  refine ⟨by decide, ?_, by decide, by decide⟩
  refine DirAt.sub ["src"] "src" _ (FileTree.dir "pkg" (DirEntries.cons (FileTree.dir "util"
    (DirEntries.cons (FileTree.file "go.mod") DirEntries.nil)) DirEntries.nil)) _ _
    (by simp [DirEntries.toList]) ?_
  refine DirAt.sub (["src"] ++ ["pkg"]) "pkg" _ (FileTree.dir "util"
    (DirEntries.cons (FileTree.file "go.mod") DirEntries.nil)) _ _
    (by simp [DirEntries.toList]) ?_
  exact DirAt.root _ "util" _

/-- C18, amended. On a tree rooted at a directory and walked without error,
`FindGoProjects` returns only directories of the tree that directly contain a file
named `go.mod`; it returns every such directory that has no directory with a `go.mod`
above it in the tree; and, the entries of each directory having distinct names, it
returns no directory twice. -/
theorem findGoProjects_top_level (rootDir : List String) (n : String) (cs : DirEntries) :
    (∀ q ∈ FindGoProjects rootDir (FileTree.dir n cs),
        ∃ cq, DirAt rootDir (FileTree.dir n cs) q cq ∧ hasGoMod cq = true)
      ∧ (∀ q cq, TopDirAt rootDir (FileTree.dir n cs) q cq → hasGoMod cq = true →
          q ∈ FindGoProjects rootDir (FileTree.dir n cs))
      ∧ ((FileTree.dir n cs).distinctNames = true →
          (FindGoProjects rootDir (FileTree.dir n cs)).Nodup) := by
  refine ⟨?_, ?_, ?_⟩
  · intro q hq
    exact walk_sound (FileTree.dir n cs) rootDir q rfl hq
  · intro q cq h hg
    exact walk_complete_top h hg
  · intro hd
    exact walk_nodup (FileTree.dir n cs) rootDir hd

/-- C18 amended, on a directory holding the two modules `api` and `web`. -/
theorem findGoProjects_top_level_witness :
    FindGoProjects ["work"] flatTree = [["work", "api"], ["work", "web"]]
      ∧ ["work", "web"] ∈ FindGoProjects ["work"] flatTree
      ∧ (FindGoProjects ["work"] flatTree).Nodup := by
  have h := findGoProjects_top_level ["work"] "work"
    (DirEntries.cons (FileTree.file "README.md")
    (DirEntries.cons (FileTree.dir "api"
        (DirEntries.cons (FileTree.file "go.mod")
        (DirEntries.cons (FileTree.file "main.go") DirEntries.nil)))
    (DirEntries.cons (FileTree.dir "web"
        (DirEntries.cons (FileTree.file "go.mod") DirEntries.nil))
      DirEntries.nil)))
  refine ⟨by decide, ?_, h.2.2 (by decide)⟩
  refine h.2.1 ["work", "web"] (DirEntries.cons (FileTree.file "go.mod") DirEntries.nil) ?_
    (by decide)
  exact TopDirAt.sub ["work"] "work" _ (FileTree.dir "web"
    (DirEntries.cons (FileTree.file "go.mod") DirEntries.nil)) _ _ (by decide)
    (by simp [DirEntries.toList]) (TopDirAt.root _ "web" _)



/-! ## Concurrent calls of Execute: isolation of the workspaces -/

/-- Run alone, the moves of a call of `Execute` give what `Execute` gives. -/
theorem execSteps_eq_Execute (os : OS) (s : ScanUseCase) (json : JSON) (config : ScanConfig)
    (w : World) :
    execSteps os s json config 5 (Ctl.entry, w)
      = (Ctl.returned (Execute os s json config w).1, (Execute os s json config w).2) := by
  simp only [execSteps, execStep, Execute]
  cases hmk : os.MkdirTemp w.fs with
  | error e => simp [execStep]
  | ok tmp =>
    simp only [execStep, executeBody]
    cases hcl : callClone s.gitClient config.RepoURL (filepathJoin tmp "repo")
        { w with fs := (tmp, Node.dir) :: w.fs } with
    | mk ce w1 =>
      cases ce with
      | some e => simp [execStep]
      | none =>
        simp only [execStep]
        by_cases hman : hasSnykManifest w1.fs (filepathJoin tmp "repo") = true
        · simp only [hman, Bool.not_true, Bool.false_eq_true, if_false]
          cases hsc : callScan s.snykScanner (filepathJoin tmp "repo") w1 with
          | mk se w2 =>
            cases se with
            | error e => simp [execStep]
            | ok out =>
              simp only []
              cases hj : json.Unmarshal out with
              | error e => simp [execStep]
              | ok parsed =>
                simp only []
                by_cases hm : config.Monitor = true
                · simp [hm, execStep]
                · simp [hm, execStep]
        · simp only [Bool.not_eq_true] at hman
          simp [hman, execStep]

theorem isUnder_iff (root path : String) :
    isUnder root path = true ↔ path = root ∨ (root ++ "/").data <+: path.data := by
  simp [isUnder, List.isPrefixOf_iff_prefix]

theorem isUnder_self (d : String) : isUnder d d = true := by
  simp [isUnder]

theorem String_eq_of_data {a b : String} (h : a.data = b.data) : a = b := by
  cases a
  cases b
  simp only at h
  rw [h]

/-- What lies under `dir/name` lies under `dir`. -/
theorem isUnder_of_isUnder_join (d n p : String) (h : isUnder (filepathJoin d n) p = true) :
    isUnder d p = true := by
  rw [isUnder_iff] at h ⊢
  right
  rcases h with h | h
  · rw [h]
    simp only [filepathJoin, String.data_append]
    exact ⟨n.data, by simp⟩
  · refine List.IsPrefix.trans ?_ h
    simp only [filepathJoin, String.data_append]
    exact ⟨n.data ++ "/".data, by simp⟩

/-- A directory does not lie under `dir/name`. -/
theorem not_isUnder_join_self (d n : String) : isUnder (filepathJoin d n) d = false := by
  rw [Bool.eq_false_iff]
  intro h
  rw [isUnder_iff] at h
  rcases h with h | h
  · have h1 := congrArg (fun s => s.data.length) h
    simp [filepathJoin, String.data_append] at h1
  · have h1 := h.length_le
    simp [filepathJoin, String.data_append] at h1

/-- Two directories with a common path below them lie one under the other. -/
theorem isUnder_comparable (a b p : String) (ha : isUnder a p = true)
    (hb : isUnder b p = true) : isUnder a b = true ∨ isUnder b a = true := by
  rw [isUnder_iff] at ha hb
  rcases ha with ha | ha
  · subst ha
    right
    rw [isUnder_iff]
    exact hb
  · rcases hb with hb | hb
    · subst hb
      left
      rw [isUnder_iff]
      exact Or.inr ha
    · have hs : "/".data = ['/'] := by decide
      simp only [String.data_append, hs] at ha hb
      rcases List.prefix_or_prefix_of_prefix ha hb with h | h
      · left
        rw [isUnder_iff]
        rcases List.prefix_concat_iff.mp h with h1 | h1
        · left
          have h2 := List.append_inj_left' h1 rfl
          exact (String_eq_of_data h2).symm
        · right
          simp only [String.data_append, hs]
          exact h1
      · right
        rw [isUnder_iff]
        rcases List.prefix_concat_iff.mp h with h1 | h1
        · left
          have h2 := List.append_inj_left' h1 rfl
          exact (String_eq_of_data h2).symm
        · right
          simp only [String.data_append, hs]
          exact h1

theorem read_cons (k : String) (v : Node) (fs : FS) (p : String) :
    FS.read ((k, v) :: fs) p = if k == p then some v else FS.read fs p := rfl

theorem read_RemoveAll_of_not_under (fs : FS) (root p : String)
    (h : isUnder root p = false) : (fs.RemoveAll root).read p = fs.read p := by
  induction fs with
  | nil => rfl
  | cons e rest ih =>
    unfold FS.RemoveAll at ih ⊢
    by_cases hu : isUnder root e.1 = true
    · have hne : (e.1 == p) = false := by
        rw [Bool.eq_false_iff]
        intro heq
        have : e.1 = p := by simpa using heq
        rw [this, h] at hu
        cases hu
      simp only [List.filter_cons, hu, Bool.not_true, Bool.false_eq_true, if_false]
      rw [ih]
      cases e with
      | mk k v =>
        rw [read_cons]
        simp only at hne
        rw [hne]
        rfl
    · simp only [Bool.not_eq_true] at hu
      simp only [List.filter_cons, hu, Bool.not_false, if_true]
      cases e with
      | mk k v =>
        rw [read_cons, read_cons, ih]

theorem read_none_of_all (fs : FS) (d p : String)
    (hall : fs.all (fun e => !isUnder d e.1) = true) (hp : isUnder d p = true) :
    fs.read p = none := by
  induction fs with
  | nil => rfl
  | cons e rest ih =>
    simp only [List.all_cons, Bool.and_eq_true, Bool.not_eq_true'] at hall
    cases e with
    | mk k v =>
      rw [read_cons]
      have hne : (k == p) = false := by
        rw [Bool.eq_false_iff]
        intro heq
        have : k = p := by simpa using heq
        rw [this, hp] at hall
        cases hall.1
      rw [hne]
      exact ih hall.2

/-- What one move of a call does to the temporary directory it holds and to the file
system: no directory before and after, a new directory, work confined to the clone
directory, or the removal of the directory. -/
theorem execStep_effect (os : OS) (s : ScanUseCase) (json : JSON) (config : ScanConfig)
    (hconf : ConfinedAdapters s) (ctl : Ctl) (w : World) (hnr : ∀ ret, ctl ≠ Ctl.returned ret) :
    (ctl.owned = none ∧ (execStep os s json config ctl w).1.owned = none
        ∧ (execStep os s json config ctl w).2 = w)
      ∨ (∃ d, ctl.owned = none ∧ (execStep os s json config ctl w).1.owned = some d
          ∧ os.MkdirTemp w.fs = Except.ok d
          ∧ (execStep os s json config ctl w).2.fs = (d, Node.dir) :: w.fs)
      ∨ (∃ d, ctl.owned = some d ∧ (execStep os s json config ctl w).1.owned = some d
          ∧ ∀ p, isUnder (filepathJoin d "repo") p = false →
              (execStep os s json config ctl w).2.fs.read p = w.fs.read p)
      ∨ (∃ d, ctl.owned = some d ∧ (execStep os s json config ctl w).1.owned = none
          ∧ (execStep os s json config ctl w).2.fs = w.fs.RemoveAll d) := by
  obtain ⟨hgit, hscan, hmon⟩ := hconf
  cases ctl with
  | entry =>
    cases hmk : os.MkdirTemp w.fs with
    | error e =>
      left
      simp [execStep, hmk, Ctl.owned]
    | ok d =>
      right; left
      exact ⟨d, by simp [execStep, hmk, Ctl.owned]⟩
  | created d =>
    right; right; left
    refine ⟨d, rfl, ?_, ?_⟩
    · simp only [execStep, callClone]
      cases (s.gitClient.Clone config.RepoURL (filepathJoin d "repo") w.fs).1 <;> rfl
    · intro p hp
      have h := hgit config.RepoURL (filepathJoin d "repo") w.fs p hp
      simp only [execStep, callClone]
      cases (s.gitClient.Clone config.RepoURL (filepathJoin d "repo") w.fs).1 <;> exact h
  | cloned d =>
    right; right; left
    by_cases hman : hasSnykManifest w.fs (filepathJoin d "repo") = true
    · have h := fun p hp => hscan (filepathJoin d "repo") w.fs p hp
      cases hsc : (s.snykScanner.Scan (filepathJoin d "repo") w.fs).1 with
      | error e =>
        refine ⟨d, rfl, ?_, ?_⟩
        · simp [execStep, hman, callScan, hsc, Ctl.owned]
        · intro p hp
          simp only [execStep, hman, callScan, hsc, Bool.not_true, Bool.false_eq_true, if_false]
          exact h p hp
      | ok out =>
        cases hj : json.Unmarshal out with
        | error e =>
          refine ⟨d, rfl, ?_, ?_⟩
          · simp [execStep, hman, callScan, hsc, hj, Ctl.owned]
          · intro p hp
            simp only [execStep, hman, callScan, hsc, hj, Bool.not_true, Bool.false_eq_true,
              if_false]
            exact h p hp
        | ok parsed =>
          by_cases hm : config.Monitor = true
          · refine ⟨d, rfl, ?_, ?_⟩
            · simp [execStep, hman, callScan, hsc, hj, hm, Ctl.owned]
            · intro p hp
              simp only [execStep, hman, callScan, hsc, hj, hm, Bool.not_true,
                Bool.false_eq_true, if_false, if_true]
              exact h p hp
          · refine ⟨d, rfl, ?_, ?_⟩
            · simp [execStep, hman, callScan, hsc, hj, hm, Ctl.owned]
            · intro p hp
              simp only [execStep, hman, callScan, hsc, hj, hm, Bool.not_true,
                Bool.false_eq_true, if_false]
              exact h p hp
    · simp only [Bool.not_eq_true] at hman
      exact ⟨d, rfl, by simp [execStep, hman, Ctl.owned], by simp [execStep, hman]⟩
  | scanned d result =>
    right; right; left
    refine ⟨d, rfl, rfl, ?_⟩
    intro p hp
    have h := hmon (filepathJoin d "repo") w.fs p hp
    simp only [execStep, monitorStep, callMonitor]
    cases (s.snykScanner.Monitor (filepathJoin d "repo") w.fs).1 <;> exact h
  | leaving d ret =>
    right; right; right
    exact ⟨d, rfl, rfl, rfl⟩
  | returned ret => exact absurd rfl (hnr ret)

theorem flightStep_some (os : OS) (s : ScanUseCase) (json : JSON) (i : Nat) (f f1 : Flight)
    (h : flightStep os s json i f = some f1) :
    ∃ cfg ctl, f.calls[i]? = some (cfg, ctl) ∧ (∀ ret, ctl ≠ Ctl.returned ret)
      ∧ f1 = { world := (execStep os s json cfg ctl f.world).2,
               calls := f.calls.set i (cfg, (execStep os s json cfg ctl f.world).1) } := by
  unfold flightStep at h
  cases hc : f.calls[i]? with
  | none => simp [hc] at h
  | some x =>
    cases x with
    | mk cfg ctl =>
      refine ⟨cfg, ctl, rfl, ?_, ?_⟩
      · intro ret hret
        subst hret
        simp [hc] at h
      · cases ctl <;> simp [hc] at h <;> exact h.symm

/-- The directory a call holds after its move is either new, or the one it held. -/
theorem execStep_owner (os : OS) (s : ScanUseCase) (json : JSON) (config : ScanConfig)
    (hconf : ConfinedAdapters s) (ctl : Ctl) (w : World) (hnr : ∀ ret, ctl ≠ Ctl.returned ret)
    (d : String) (hd : (execStep os s json config ctl w).1.owned = some d) :
    (ctl.owned = none ∧ os.MkdirTemp w.fs = Except.ok d
        ∧ (execStep os s json config ctl w).2.fs = (d, Node.dir) :: w.fs)
      ∨ (ctl.owned = some d
          ∧ ∀ p, isUnder (filepathJoin d "repo") p = false →
              (execStep os s json config ctl w).2.fs.read p = w.fs.read p) := by
  rcases execStep_effect os s json config hconf ctl w hnr with
    ⟨_, h1, _⟩ | ⟨d1, h0, h1, hmk, hfs⟩ | ⟨d1, h0, h1, hfr⟩ | ⟨d1, _, h1, _⟩
  · rw [h1] at hd
    cases hd
  · rw [h1] at hd
    cases hd
    exact Or.inl ⟨h0, hmk, hfs⟩
  · rw [h1] at hd
    cases hd
    exact Or.inr ⟨h0, hfr⟩
  · rw [h1] at hd
    cases hd

/-- Isolation, one move: a move of one call leaves every path at or below the
temporary directory of another call in flight as it was. -/
theorem flightStep_frame (os : OS) (s : ScanUseCase) (json : JSON) (hfresh : FreshTemp os)
    (hsib : SiblingTemps os) (hconf : ConfinedAdapters s) (i : Nat) (f f1 : Flight)
    (hinv : FlightInv os f) (hstep : flightStep os s json i f = some f1) :
    ∀ (j : Nat) (cfg : ScanConfig) (c : Ctl) (d : String), j ≠ i →
      f.calls[j]? = some (cfg, c) → c.owned = some d →
      ∀ p, isUnder d p = true → f1.world.fs.read p = f.world.fs.read p := by
  obtain ⟨cfgi, ctli, hci, hnr, rfl⟩ := flightStep_some os s json i f f1 hstep
  intro j cfg c d hji hcj hod p hp
  obtain ⟨hpres, fs0, hmk0⟩ := hinv.present j cfg c d hcj hod
  have hsep : ∀ di, ctli.owned = some di → isUnder di p = false := by
    intro di hoi
    rw [Bool.eq_false_iff]
    intro hu
    rcases isUnder_comparable di d p hu hp with h | h
    · rw [hinv.apart i j cfgi cfg ctli c di d (Ne.symm hji) hci hcj hoi hod] at h
      cases h
    · rw [hinv.apart j i cfg cfgi c ctli d di hji hcj hci hod hoi] at h
      cases h
  dsimp only
  rcases execStep_effect os s json cfgi hconf ctli f.world hnr with
    ⟨_, _, hw⟩ | ⟨di, _, _, hmk, hfs⟩ | ⟨di, hoi, _, hfr⟩ | ⟨di, hoi, _, hfs⟩
  · rw [hw]
  · rw [hfs, read_cons]
    have hne : (di == p) = false := by
      rw [Bool.eq_false_iff]
      intro heq
      have hdp : di = p := by simpa using heq
      subst hdp
      have hdd : d = di := hsib fs0 d f.world.fs di hmk0 hmk hp
      subst hdd
      exact hpres (hfresh f.world.fs d hmk d (isUnder_self d))
    rw [hne]
    rfl
  · apply hfr
    rw [Bool.eq_false_iff]
    intro hu
    have := hsep di hoi
    rw [isUnder_of_isUnder_join di "repo" p hu] at this
    cases this
  · rw [hfs]
    exact read_RemoveAll_of_not_under _ di p (hsep di hoi)

/-- One move keeps the directories of the calls in flight present and apart. -/
theorem flightStep_inv (os : OS) (s : ScanUseCase) (json : JSON) (hfresh : FreshTemp os)
    (hsib : SiblingTemps os) (hconf : ConfinedAdapters s) (i : Nat) (f f1 : Flight)
    (hinv : FlightInv os f) (hstep : flightStep os s json i f = some f1) : FlightInv os f1 := by
  have hframe := flightStep_frame os s json hfresh hsib hconf i f f1 hinv hstep
  obtain ⟨cfgi, ctli, hci, hnr, rfl⟩ := flightStep_some os s json i f f1 hstep
  have hlt : i < f.calls.length := by
    rcases Nat.lt_or_ge i f.calls.length with h | h
    · exact h
    · rw [List.getElem?_eq_none h] at hci
      cases hci
  constructor
  · intro k cfg c d hk ho
    dsimp only at hk ⊢
    by_cases hki : k = i
    · subst hki
      rw [List.getElem?_set_self hlt] at hk
      cases hk
      rcases execStep_owner os s json cfgi hconf ctli f.world hnr d ho with
        ⟨_, hmk, hfs⟩ | ⟨hoi, hfr⟩
      · refine ⟨?_, f.world.fs, hmk⟩
        rw [hfs, read_cons]
        simp
      · obtain ⟨hpres, hprod⟩ := hinv.present k cfgi ctli d hci hoi
        refine ⟨?_, hprod⟩
        rw [hfr d (not_isUnder_join_self d "repo")]
        exact hpres
    · rw [List.getElem?_set_ne (Ne.symm hki)] at hk
      obtain ⟨hpres, hprod⟩ := hinv.present k cfg c d hk ho
      refine ⟨?_, hprod⟩
      have := hframe k cfg c d hki hk ho d (isUnder_self d)
      dsimp only at this
      rw [this]
      exact hpres
  · intro a b cfga cfgb ca cb da db hab ha hb hoa hob
    dsimp only at ha hb
    by_cases hai : a = i
    · subst hai
      rw [List.getElem?_set_self hlt] at ha
      cases ha
      rw [List.getElem?_set_ne hab] at hb
      obtain ⟨hpres, fs0, hmk0⟩ := hinv.present b cfgb cb db hb hob
      rcases execStep_owner os s json cfgi hconf ctli f.world hnr da hoa with
        ⟨_, hmk, _⟩ | ⟨hoi, _⟩
      · rw [Bool.eq_false_iff]
        intro hu
        exact hpres (hfresh f.world.fs da hmk db hu)
      · exact hinv.apart a b cfgi cfgb ctli cb da db hab hci hb hoi hob
    · rw [List.getElem?_set_ne (Ne.symm hai)] at ha
      by_cases hbi : b = i
      · subst hbi
        rw [List.getElem?_set_self hlt] at hb
        cases hb
        obtain ⟨hpres, fs0, hmk0⟩ := hinv.present a cfga ca da ha hoa
        rcases execStep_owner os s json cfgi hconf ctli f.world hnr db hob with
          ⟨_, hmk, _⟩ | ⟨hoi, _⟩
        · rw [Bool.eq_false_iff]
          intro hu
          have hdd : da = db := hsib fs0 da f.world.fs db hmk0 hmk hu
          subst hdd
          exact hpres (hfresh f.world.fs da hmk da (isUnder_self da))
        · exact hinv.apart a b cfga cfgi ca ctli da db hab ha hci hoa hoi
      · rw [List.getElem?_set_ne (Ne.symm hbi)] at hb
        exact hinv.apart a b cfga cfgb ca cb da db hab ha hb hoa hob

theorem startFlight_inv (os : OS) (configs : List ScanConfig) (w : World) :
    FlightInv os (startFlight configs w) := by
  have hnone : ∀ (i : Nat) (cfg : ScanConfig) (c : Ctl),
      (startFlight configs w).calls[i]? = some (cfg, c) → c.owned = none := by
    intro i cfg c h
    simp only [startFlight, List.getElem?_map] at h
    cases hc : configs[i]? with
    | none => simp [hc] at h
    | some x =>
      simp only [hc, Option.map_some', Option.some.injEq, Prod.mk.injEq] at h
      rw [← h.2]
      rfl
  constructor
  · intro i cfg c d h ho
    rw [hnone i cfg c h] at ho
    cases ho
  · intro i j cfgi cfgj ci cj di dj _ hi _ hoi _
    rw [hnone i cfgi ci hi] at hoi
    cases hoi

theorem flightRun_inv (os : OS) (s : ScanUseCase) (json : JSON) (hfresh : FreshTemp os)
    (hsib : SiblingTemps os) (hconf : ConfinedAdapters s) :
    ∀ (sched : List Nat) (f f1 : Flight), FlightInv os f →
      flightRun os s json sched f = some f1 → FlightInv os f1
  | [], f, f1, hinv, h => by
    simp only [flightRun, Option.some.injEq] at h
    exact h ▸ hinv
  | i :: rest, f, f1, hinv, h => by
    simp only [flightRun] at h
    split at h
    · cases h
    · rename_i f2 hf2
      exact flightRun_inv os s json hfresh hsib hconf rest f2 f1
        (flightStep_inv os s json hfresh hsib hconf i f f2 hinv hf2) h

theorem slotOS_fresh : FreshTemp slotOS := by
  intro fs d h p hp
  simp only [slotOS] at h
  split at h
  · rename_i hall
    cases h
    exact read_none_of_all fs _ p hall hp
  · split at h
    · rename_i hall
      cases h
      exact read_none_of_all fs _ p hall hp
    · cases h

theorem slotOS_siblings : SiblingTemps slotOS := by
  intro fs1 d1 fs2 d2 h1 h2 hu
  have hab : isUnder "/tmp/secscan-a" "/tmp/secscan-b" = false := by decide
  have hba : isUnder "/tmp/secscan-b" "/tmp/secscan-a" = false := by decide
  simp only [slotOS] at h1 h2
  split at h1
  · cases h1
    split at h2
    · cases h2
      rfl
    · split at h2
      · cases h2
        rw [hab] at hu
        cases hu
      · cases h2
  · split at h1
    · cases h1
      split at h2
      · cases h2
        rw [hba] at hu
        cases hu
      · split at h2
        · cases h2
          rfl
        · cases h2
    · cases h1

theorem isUnder_join (d n : String) : isUnder d (filepathJoin d n) = true := by
  rw [isUnder_iff]
  right
  simp only [filepathJoin, String.data_append]
  exact ⟨n.data, by simp⟩

theorem demoAdapters_confined :
    ConfinedAdapters { snykScanner := contentScanner, gitClient := demoGit } := by
  refine ⟨?_, ?_, ?_⟩
  · intro url path fs p hp
    simp only [demoGit]
    split
    · rfl
    · have h1 : (filepathJoin path "go.mod" == p) = false := by
        rw [Bool.eq_false_iff]
        intro heq
        have : filepathJoin path "go.mod" = p := by simpa using heq
        rw [← this, isUnder_join] at hp
        cases hp
      have h2 : (path == p) = false := by
        rw [Bool.eq_false_iff]
        intro heq
        have : path = p := by simpa using heq
        rw [← this, isUnder_self] at hp
        cases hp
      rw [read_cons, h1, read_cons, h2]
      rfl
  · intro path fs p _
    simp only [contentScanner]
    split <;> rfl
  · intro path fs p _
    rfl


/-! ## Concurrent calls of Execute: what a call can observe -/

theorem statOk_eq_read (fs : FS) (p : String) : fs.statOk p = (fs.read p).isSome := by
  induction fs with
  | nil => rfl
  | cons e rest ih =>
    cases e with
    | mk k v =>
      rw [read_cons]
      unfold FS.statOk at ih ⊢
      simp only [List.any_cons]
      by_cases hk : (k == p) = true
      · simp [hk]
      · simp only [Bool.not_eq_true] at hk
        rw [hk] at *
        simp only [Bool.false_or, Bool.false_eq_true, if_false]
        exact ih

theorem read_RemoveAll_under (fs : FS) (root p : String) (h : isUnder root p = true) :
    (fs.RemoveAll root).read p = none := by
  have h1 := statOk_RemoveAll fs root p h
  rw [statOk_eq_read] at h1
  cases hr : (fs.RemoveAll root).read p with
  | none => rfl
  | some v => rw [hr] at h1; cases h1

theorem AgreeUnder_join {d : String} {fs fs1 : FS} (n : String) (h : AgreeUnder d fs fs1) :
    AgreeUnder (filepathJoin d n) fs fs1 :=
  fun p hp => h p (isUnder_of_isUnder_join d n p hp)

theorem hasSnykManifestLoop_congr (dir : String) (fs fs1 : FS) (h : AgreeUnder dir fs fs1) :
    ∀ names : List String,
      hasSnykManifestLoop fs1 dir names = hasSnykManifestLoop fs dir names := by
  intro names
  induction names with
  | nil => rfl
  | cons f rest ih =>
    have hf : fs1.statOk (filepathJoin dir f) = fs.statOk (filepathJoin dir f) := by
      rw [statOk_eq_read, statOk_eq_read, h _ (isUnder_join dir f)]
    simp only [hasSnykManifestLoop, hf, ih]

/-- An adapter called on `d/n` that writes and reads only there behaves the same on two
file systems that hold the same at and below `d`, and leaves them so. -/
theorem adapter_local {R : Type} (A : FS → R × FS) (d n : String)
    (hw : ∀ fs p, isUnder (filepathJoin d n) p = false → (A fs).2.read p = fs.read p)
    (hr : ∀ fs fs1, AgreeUnder (filepathJoin d n) fs fs1 →
      (A fs1).1 = (A fs).1 ∧ AgreeUnder (filepathJoin d n) (A fs).2 (A fs1).2)
    (fs fs1 : FS) (h : AgreeUnder d fs fs1) :
    (A fs1).1 = (A fs).1 ∧ AgreeUnder d (A fs).2 (A fs1).2 := by
  obtain ⟨h1, h2⟩ := hr fs fs1 (AgreeUnder_join n h)
  refine ⟨h1, ?_⟩
  intro p hp
  by_cases hu : isUnder (filepathJoin d n) p = true
  · exact h2 p hu
  · simp only [Bool.not_eq_true] at hu
    rw [hw fs1 p hu, hw fs p hu]
    exact h p hp

/-- A move of a call that holds the directory `d` reads only at and below `d`: on two
worlds whose file systems hold the same there, it leads to the same control point, with
the same values, and leaves the two file systems the same there. -/
theorem execStep_local (os : OS) (s : ScanUseCase) (json : JSON) (config : ScanConfig)
    (hconf : ConfinedAdapters s) (hread : ReadConfined s) (ctl : Ctl) (d : String) (w w1 : World)
    (ho : ctl.owned = some d) (h : AgreeUnder d w.fs w1.fs) :
    (execStep os s json config ctl w1).1 = (execStep os s json config ctl w).1
      ∧ AgreeUnder d (execStep os s json config ctl w).2.fs
          (execStep os s json config ctl w1).2.fs := by
  obtain ⟨hgit, hscan, hmon⟩ := hconf
  obtain ⟨rgit, rscan, rmon⟩ := hread
  cases ctl with
  | entry => cases ho
  | returned ret => cases ho
  | created d0 =>
    cases ho
    obtain ⟨h1, h2⟩ := adapter_local
      (fun fs => s.gitClient.Clone config.RepoURL (filepathJoin d "repo") fs) d "repo"
      (fun fs p hp => hgit config.RepoURL _ fs p hp)
      (fun fs fs1 hh => rgit config.RepoURL _ fs fs1 hh) w.fs w1.fs h
    simp only [execStep, callClone, h1]
    cases (s.gitClient.Clone config.RepoURL (filepathJoin d "repo") w.fs).1 <;> exact ⟨rfl, h2⟩
  | cloned d0 =>
    cases ho
    obtain ⟨h1, h2⟩ := adapter_local
      (fun fs => s.snykScanner.Scan (filepathJoin d "repo") fs) d "repo"
      (fun fs p hp => hscan _ fs p hp) (fun fs fs1 hh => rscan _ fs fs1 hh) w.fs w1.fs h
    have hman : hasSnykManifest w1.fs (filepathJoin d "repo")
        = hasSnykManifest w.fs (filepathJoin d "repo") :=
      hasSnykManifestLoop_congr _ w.fs w1.fs (AgreeUnder_join "repo" h) manifests
    simp only [execStep, callScan, h1, hman]
    by_cases hm : hasSnykManifest w.fs (filepathJoin d "repo") = true
    · simp only [hm, Bool.not_true, Bool.false_eq_true, if_false]
      cases (s.snykScanner.Scan (filepathJoin d "repo") w.fs).1 with
      | error e => exact ⟨rfl, h2⟩
      | ok out =>
        simp only []
        cases json.Unmarshal out with
        | error e => exact ⟨rfl, h2⟩
        | ok parsed =>
          simp only []
          by_cases hmo : config.Monitor = true
          · simp only [hmo, if_true]
            exact ⟨trivial, h2⟩
          · simp only [hmo, Bool.false_eq_true, if_false]
            exact ⟨trivial, h2⟩
    · simp only [Bool.not_eq_true] at hm
      simp only [hm, Bool.not_false, if_true]
      exact ⟨trivial, h⟩
  | scanned d0 result =>
    cases ho
    obtain ⟨h1, h2⟩ := adapter_local
      (fun fs => s.snykScanner.Monitor (filepathJoin d "repo") fs) d "repo"
      (fun fs p hp => hmon _ fs p hp) (fun fs fs1 hh => rmon _ fs fs1 hh) w.fs w1.fs h
    simp only [execStep, monitorStep, callMonitor, h1]
    cases (s.snykScanner.Monitor (filepathJoin d "repo") w.fs).1 <;> exact ⟨rfl, h2⟩
  | leaving d0 ret =>
    cases ho
    refine ⟨rfl, ?_⟩
    intro p hp
    simp only [execStep]
    rw [read_RemoveAll_under _ d p hp, read_RemoveAll_under _ d p hp]

theorem holds_execStep (os : OS) (s : ScanUseCase) (json : JSON) (config : ScanConfig)
    (hconf : ConfinedAdapters s) (ctl : Ctl) (d : String) (w : World) (h : ctl.holds d) :
    ((execStep os s json config ctl w).1).holds d := by
  rcases h with h | ⟨ret, h⟩
  · have hnr : ∀ ret, ctl ≠ Ctl.returned ret := by
      intro ret hr
      rw [hr] at h
      cases h
    rcases execStep_effect os s json config hconf ctl w hnr with
      ⟨h0, _, _⟩ | ⟨d1, h0, _, _, _⟩ | ⟨d1, h0, h1, _⟩ | ⟨d1, h0, h1, _⟩
    · rw [h0] at h
      cases h
    · rw [h0] at h
      cases h
    · rw [h0] at h
      cases h
      exact Or.inl h1
    · right
      cases ctl with
      | entry => cases h
      | created d0 =>
        simp only [execStep, callClone] at h1
        cases hc : (s.gitClient.Clone config.RepoURL (filepathJoin d0 "repo") w.fs).1 <;>
          simp [hc, Ctl.owned] at h1
      | cloned d0 =>
        exfalso
        simp only [execStep] at h1
        split at h1
        · cases h1
        · split at h1
          · cases h1
          · split at h1
            · cases h1
            · split at h1 <;> cases h1
      | scanned d0 result => cases h1
      | leaving d0 ret => exact ⟨ret, rfl⟩
      | returned ret => cases h
  · subst h
    exact Or.inr ⟨ret, rfl⟩

/-- From the moment a call holds its directory, whatever the other calls do, it goes
through the control points, with the values, of a run alone on the file system of that
moment; and its directory holds what it holds in that run. -/
theorem flightRun_alone (os : OS) (s : ScanUseCase) (json : JSON) (hfresh : FreshTemp os)
    (hsib : SiblingTemps os) (hconf : ConfinedAdapters s) (hread : ReadConfined s) (i : Nat)
    (cfg : ScanConfig) (d : String) :
    ∀ (sched : List Nat) (f f2 : Flight) (cs : Ctl) (ws : World), FlightInv os f →
      f.calls[i]? = some (cfg, cs) → cs.holds d →
      (cs.owned = some d → AgreeUnder d ws.fs f.world.fs) →
      flightRun os s json sched f = some f2 →
      f2.calls[i]? = some (cfg, (execSteps os s json cfg (sched.count i) (cs, ws)).1)
        ∧ ((execSteps os s json cfg (sched.count i) (cs, ws)).1.owned = some d →
            AgreeUnder d (execSteps os s json cfg (sched.count i) (cs, ws)).2.fs f2.world.fs)
  | [], f, f2, cs, ws, _, hi, _, hag, hrun => by
    simp only [flightRun, Option.some.injEq] at hrun
    subst hrun
    simp only [List.count_nil, execSteps]
    exact ⟨hi, hag⟩
  | j :: rest, f, f2, cs, ws, hinv, hi, hholds, hag, hrun => by
    simp only [flightRun] at hrun
    split at hrun
    · cases hrun
    · rename_i f1 hf1
      have hinv1 := flightStep_inv os s json hfresh hsib hconf j f f1 hinv hf1
      by_cases hji : j = i
      · subst hji
        obtain ⟨cfg1, ctl1, hc1, hnr, hf1eq⟩ := flightStep_some os s json j f f1 hf1
        rw [hi] at hc1
        cases hc1
        have hown : cs.owned = some d := by
          rcases hholds with h | ⟨ret, h⟩
          · exact h
          · exact absurd h (hnr ret)
        obtain ⟨hl1, hl2⟩ := execStep_local os s json cfg hconf hread cs d ws f.world hown
          (hag hown)
        have hlt : j < f.calls.length := by
          rcases Nat.lt_or_ge j f.calls.length with h | h
          · exact h
          · rw [List.getElem?_eq_none h] at hi
            cases hi
        have hi1 : f1.calls[j]? = some (cfg, (execStep os s json cfg cs ws).1) := by
          rw [hf1eq]
          simp only [List.getElem?_set_self hlt, hl1]
        have hag1 : (execStep os s json cfg cs ws).1.owned = some d →
            AgreeUnder d (execStep os s json cfg cs ws).2.fs f1.world.fs := by
          intro _
          rw [hf1eq]
          exact hl2
        have ih := flightRun_alone os s json hfresh hsib hconf hread j cfg d rest f1 f2
          (execStep os s json cfg cs ws).1 (execStep os s json cfg cs ws).2 hinv1 hi1
          (holds_execStep os s json cfg hconf cs d ws hholds) hag1 hrun
        have hcount : (j :: rest).count j = rest.count j + 1 := by simp
        rw [hcount]
        exact ih
      · obtain ⟨cfg1, ctl1, _, _, hf1eq⟩ := flightStep_some os s json j f f1 hf1
        have hi1 : f1.calls[i]? = some (cfg, cs) := by
          rw [hf1eq]
          simp only [List.getElem?_set_ne hji]
          exact hi
        have hag1 : cs.owned = some d → AgreeUnder d ws.fs f1.world.fs := by
          intro ho p hp
          rw [flightStep_frame os s json hfresh hsib hconf j f f1 hinv hf1 i cfg cs d
            (Ne.symm hji) hi ho p hp]
          exact hag ho p hp
        have ih := flightRun_alone os s json hfresh hsib hconf hread i cfg d rest f1 f2 cs ws
          hinv1 hi1 hholds hag1 hrun
        have hcount : (j :: rest).count i = rest.count i := by
          rw [List.count_cons_of_ne (Ne.symm hji)]
        rw [hcount]
        exact ih

/-- C19. For calls of `Execute` that run concurrently on one file system, under any
schedule of their file-system operations, and provided `os.MkdirTemp` hands out new
directories never one below another and the adapters change nothing outside the
directory they are called on: any two calls in flight hold different temporary
directories with no path in common at or below them, and a move of one call leaves
every path at or below the directory of another call in flight as it was.  When the
adapters moreover read nothing outside the directory they are called on, a move of a
call that holds a directory depends on the file system only at and below that
directory; and so, from the moment a call holds its directory, whatever the other
calls do, it goes through the control points of a run alone on the file system of
that moment, up to the very value it returns.  Run alone, the moves of a call are
`Execute`. -/
theorem workspace_isolation (os : OS) (s : ScanUseCase) (json : JSON) (hfresh : FreshTemp os)
    (hsib : SiblingTemps os) (hconf : ConfinedAdapters s)
    (configs : List ScanConfig) (w : World) (sched : List Nat) (f : Flight)
    (hrun : flightRun os s json sched (startFlight configs w) = some f) :
    (∀ (i j : Nat) (cfgi cfgj : ScanConfig) (ci cj : Ctl) (di dj : String), i ≠ j →
        f.calls[i]? = some (cfgi, ci) → f.calls[j]? = some (cfgj, cj) →
        ci.owned = some di → cj.owned = some dj →
        di ≠ dj ∧ ∀ p, ¬ (isUnder di p = true ∧ isUnder dj p = true))
      ∧ (∀ (i : Nat) (f1 : Flight), flightStep os s json i f = some f1 →
          ∀ (j : Nat) (cfg : ScanConfig) (c : Ctl) (d : String), j ≠ i →
            f.calls[j]? = some (cfg, c) → c.owned = some d →
            ∀ p, isUnder d p = true → f1.world.fs.read p = f.world.fs.read p)
      ∧ (ReadConfined s → ∀ (config : ScanConfig) (ctl : Ctl) (d : String) (w0 w1 : World),
          ctl.owned = some d → AgreeUnder d w0.fs w1.fs →
          (execStep os s json config ctl w1).1 = (execStep os s json config ctl w0).1
            ∧ AgreeUnder d (execStep os s json config ctl w0).2.fs
                (execStep os s json config ctl w1).2.fs)
      ∧ (ReadConfined s → ∀ (i : Nat) (cfg : ScanConfig) (c : Ctl) (d : String)
          (sched2 : List Nat) (f2 : Flight), f.calls[i]? = some (cfg, c) → c.owned = some d →
          flightRun os s json sched2 f = some f2 →
          f2.calls[i]? = some (cfg, (execSteps os s json cfg (sched2.count i) (c, f.world)).1))
      ∧ (∀ (config : ScanConfig) (w0 : World),
          execSteps os s json config 5 (Ctl.entry, w0)
            = (Ctl.returned (Execute os s json config w0).1, (Execute os s json config w0).2)) := by
  have hinv := flightRun_inv os s json hfresh hsib hconf sched _ f
    (startFlight_inv os configs w) hrun
  refine ⟨?_, ?_, ?_, ?_, ?_⟩
  · intro i j cfgi cfgj ci cj di dj hij hi hj hoi hoj
    have h1 := hinv.apart i j cfgi cfgj ci cj di dj hij hi hj hoi hoj
    have h2 := hinv.apart j i cfgj cfgi cj ci dj di (Ne.symm hij) hj hi hoj hoi
    constructor
    · intro heq
      subst heq
      rw [isUnder_self] at h1
      cases h1
    · rintro p ⟨hp1, hp2⟩
      rcases isUnder_comparable di dj p hp1 hp2 with h | h
      · rw [h1] at h
        cases h
      · rw [h2] at h
        cases h
  · intro i f1 hstep
    exact flightStep_frame os s json hfresh hsib hconf i f f1 hinv hstep
  · intro hread config ctl d w0 w1 ho hag
    exact execStep_local os s json config hconf hread ctl d w0 w1 ho hag
  · intro hread i cfg c d sched2 f2 hi ho hrun2
    exact (flightRun_alone os s json hfresh hsib hconf hread i cfg d sched2 f f2 c f.world hinv
      hi (Or.inl ho) (fun _ p _ => rfl) hrun2).1
  · intro config w0
    exact execSteps_eq_Execute os s json config w0

theorem demoAdapters_readConfined :
    ReadConfined { snykScanner := contentScanner, gitClient := demoGit } := by
  refine ⟨?_, ?_, ?_⟩
  · intro url path fs fs1 h
    simp only [demoGit]
    split
    · exact ⟨rfl, h⟩
    · refine ⟨rfl, ?_⟩
      intro p hp
      rw [read_cons, read_cons, read_cons, read_cons, h p hp]
  · intro path fs fs1 h
    have hg := h (filepathJoin path "go.mod") (isUnder_join path "go.mod")
    simp only [contentScanner, hg]
    split
    · exact ⟨rfl, h⟩
    · exact ⟨rfl, h⟩
  · intro path fs fs1 h
    exact ⟨rfl, h⟩

/-- C19, on two calls in flight together on an operating system with two slots for
temporary directories: both have cloned a tree with a file of the same name, `go.mod`,
into different directories; continued in any order, each scans its own clone and
returns its own findings, one for `repo1` and two for `repo3`. -/
theorem workspace_isolation_witness :
    demoFlight.ctls.map Ctl.owned = [some "/tmp/secscan-a", some "/tmp/secscan-b"]
      ∧ demoFlight.world.fs.read "/tmp/secscan-a/repo/go.mod" = some (Node.file "repo1")
      ∧ demoFlight.world.fs.read "/tmp/secscan-b/repo/go.mod" = some (Node.file "repo3")
      ∧ (∀ (i j : Nat) (cfgi cfgj : ScanConfig) (ci cj : Ctl) (di dj : String), i ≠ j →
        demoFlight.calls[i]? = some (cfgi, ci) → demoFlight.calls[j]? = some (cfgj, cj) →
        ci.owned = some di → cj.owned = some dj →
        di ≠ dj ∧ ∀ p, ¬ (isUnder di p = true ∧ isUnder dj p = true))
      ∧ (∀ (i : Nat) (f1 : Flight),
          flightStep slotOS { snykScanner := contentScanner, gitClient := demoGit } demoJSON i
            demoFlight = some f1 →
          ∀ (j : Nat) (cfg : ScanConfig) (c : Ctl) (d : String), j ≠ i →
            demoFlight.calls[j]? = some (cfg, c) → c.owned = some d →
            ∀ p, isUnder d p = true → f1.world.fs.read p = demoFlight.world.fs.read p)
      ∧ demoFlightEnd.calls[0]? = some ({ RepoURL := "repo1", Monitor := true },
          Ctl.returned (Except.ok
            { Vulnerabilities := [xss], RawJSON := "one", MonitorOutput := "monitored" }))
      ∧ demoFlightEnd.calls[1]? = some ({ RepoURL := "repo3", Monitor := true },
          Ctl.returned (Except.ok
            { Vulnerabilities := [xss, pollution], RawJSON := "two",
              MonitorOutput := "monitored" })) :=
  have h := workspace_isolation slotOS { snykScanner := contentScanner, gitClient := demoGit }
    demoJSON slotOS_fresh slotOS_siblings demoAdapters_confined
    [{ RepoURL := "repo1", Monitor := true }, { RepoURL := "repo3", Monitor := true }]
    emptyWorld demoFlightSchedule demoFlight rfl
  ⟨by decide, by decide, by decide, h.1, h.2.1,
    h.2.2.2.1 demoAdapters_readConfined 0 { RepoURL := "repo1", Monitor := true }
      (Ctl.scanned "/tmp/secscan-a"
        { Vulnerabilities := [xss], RawJSON := "one", MonitorOutput := "" })
      "/tmp/secscan-a" demoFlightRest demoFlightEnd rfl rfl rfl,
    h.2.2.2.1 demoAdapters_readConfined 1 { RepoURL := "repo3", Monitor := true }
      (Ctl.cloned "/tmp/secscan-b") "/tmp/secscan-b" demoFlightRest demoFlightEnd rfl rfl rfl⟩


end SecScan
